import Mathlib

/-!
Verification of the bevy_behave behaviour-tree runtime.

This file gives a shallow embedding of the core of the bevy_behave crate
(src/lib.rs, src/plugin.rs, src/ctx.rs) and proves properties of it.

Modelling conventions:
* f32 times are modelled as rationals; Bevy's Time resource is a field of
  TickState.
* Entities are natural numbers; fresh entities come from a counter in
  TickState (Commands.spawn allocates a fresh id in the real code).
* ego_tree node ids are modelled as paths (lists of child indices) from the
  root; they are stable across ticks and resets because ticking never changes
  the tree's shape, mirroring ego_tree's stable NodeId scheme.
* Rust panics (unwrap, expect, panic, unreachable) are modelled with Except:
  a panic aborts the evaluation and reports which panic site fired.
* Side effects of a tick (spawning task entities, emitting triggers) are
  returned as an effect list, mirroring what is pushed into Commands.
* The Rust reset_descendants mutates, in place, the node it is called on,
  that node's following siblings, and all their descendants.  In the pure
  embedding this in-place mutation of siblings is threaded as flags: the
  tick of a node returns a resetSiblings flag that its caller (the parent's
  child loop) applies to the remaining siblings, and a pending flag passed
  down means "an enclosing reset already covers this subtree", with the
  reset materialised on every output.  This keeps the recursion structural,
  so all definitions compute by rfl or decide.
-/

namespace BevyBehave


/-- Status a node tick can produce (BehaveNodeStatus in src/lib.rs). -/
inductive BehaveNodeStatus where
  | success
  | failure
  | running
  | runningTimer
  | awaitingTrigger
  | pendingReset
deriving DecidableEq, Repr

/-- Task state of a DynamicEntity node (EntityTaskStatus in src/lib.rs). -/
inductive EntityTaskStatus where
  | notStarted
  | started (e : Nat)
  | complete (b : Bool)
deriving DecidableEq, Repr

/-- Task state of a TriggerReq node (TriggerTaskStatus in src/lib.rs). -/
inductive TriggerTaskStatus where
  | notTriggered
  | triggered
  | complete (b : Bool)
deriving DecidableEq, Repr

/-- Runtime node value (enum BehaveNode in src/lib.rs).  The DynamicEntity
bundle and the TriggerReq trigger payload are opaque to the tree logic and
are modelled as Nat tags; the DynamicEntity display name is kept as a
string. -/
inductive BehaveNode where
  | forever (status : Option BehaveNodeStatus)
  | wait (startTime : Option ℚ) (secsToWait : ℚ) (status : Option BehaveNodeStatus)
  | dynamicEntity (taskStatus : EntityTaskStatus) (status : Option BehaveNodeStatus)
      (bundle : Nat) (name : String)
  | sequenceFlow (status : Option BehaveNodeStatus)
  | fallbackFlow (status : Option BehaveNodeStatus)
  | invert (status : Option BehaveNodeStatus)
  | alwaysSucceed (status : Option BehaveNodeStatus)
  | alwaysFail (status : Option BehaveNodeStatus)
  | triggerReq (status : Option BehaveNodeStatus) (taskStatus : TriggerTaskStatus)
      (trigger : Nat)
  | whileFlow (status : Option BehaveNodeStatus)
  | ifThen (status : Option BehaveNodeStatus)
deriving DecidableEq, Repr

/-- BehaveNode::status from src/lib.rs. -/
def BehaveNode.status : BehaveNode → Option BehaveNodeStatus
  | .forever s => s
  | .wait _ _ s => s
  | .dynamicEntity _ s _ _ => s
  | .sequenceFlow s => s
  | .fallbackFlow s => s
  | .invert s => s
  | .alwaysSucceed s => s
  | .alwaysFail s => s
  | .triggerReq s _ _ => s
  | .whileFlow s => s
  | .ifThen s => s

/-- Assignment through BehaveNode::status_mut from src/lib.rs. -/
def BehaveNode.setStatus : BehaveNode → Option BehaveNodeStatus → BehaveNode
  | .forever _, s => .forever s
  | .wait t w _, s => .wait t w s
  | .dynamicEntity ts _ b n, s => .dynamicEntity ts s b n
  | .sequenceFlow _, s => .sequenceFlow s
  | .fallbackFlow _, s => .fallbackFlow s
  | .invert _, s => .invert s
  | .alwaysSucceed _, s => .alwaysSucceed s
  | .alwaysFail _, s => .alwaysFail s
  | .triggerReq _ ts tr, s => .triggerReq s ts tr
  | .whileFlow _, s => .whileFlow s
  | .ifThen _, s => .ifThen s

/-- BehaveNode::reset from src/lib.rs: restores the mutable runtime fields of
one node value to their construction-time defaults. -/
def BehaveNode.reset : BehaveNode → BehaveNode
  | .forever _ => .forever none
  | .wait _ w _ => .wait none w none
  | .dynamicEntity _ _ b n => .dynamicEntity .notStarted none b n
  | .sequenceFlow _ => .sequenceFlow none
  | .fallbackFlow _ => .fallbackFlow none
  | .invert _ => .invert none
  | .alwaysSucceed _ => .alwaysSucceed none
  | .alwaysFail _ => .alwaysFail none
  | .triggerReq _ _ tr => .triggerReq none .notTriggered tr
  | .whileFlow _ => .whileFlow none
  | .ifThen _ => .ifThen none

/-- The runtime tree: an ego_tree Tree of BehaveNode values. -/
inductive NodeTree where
  | mk (val : BehaveNode) (children : List NodeTree)

/-- Root value of a runtime tree. -/
def NodeTree.val : NodeTree → BehaveNode
  | .mk v _ => v

/-- Children of the root of a runtime tree. -/
def NodeTree.children : NodeTree → List NodeTree
  | .mk _ kids => kids

mutual
/-- Full recursive reset of one subtree: BehaveNode::reset applied to a node
and every descendant.  reset_descendants n in src/lib.rs performs this on n
and its children, and additionally on n's following siblings; the sibling
part is applied by the caller in this embedding (see tick_node). -/
def resetSubtree : NodeTree → NodeTree
  | .mk v kids => .mk v.reset (resetSubtreeL kids)

/-- resetSubtree mapped over a list of sibling subtrees. -/
def resetSubtreeL : List NodeTree → List NodeTree
  | [] => []
  | t :: ts => resetSubtree t :: resetSubtreeL ts
end

/-- Replace the status of the root node of a subtree (the pattern
star first_child.value().status_mut() = Some(s) in src/lib.rs). -/
def setRootStatus : NodeTree → Option BehaveNodeStatus → NodeTree
  | .mk v kids, s => .mk (v.setStatus s) kids

/-- The state threaded through a tick: Bevy's Time elapsed_secs and the next
fresh entity id that Commands.spawn would allocate. -/
structure TickState where
  time : ℚ
  nextEntity : Nat
deriving DecidableEq, Repr

/-- Whether a BehaveCtx was created for a TriggerReq node or for a
DynamicEntity node (CtxType in src/ctx.rs). -/
inductive CtxType where
  | trigger
  | entity
deriving DecidableEq, Repr

/-- Correlation context handed to external collaborators (BehaveCtx in
src/ctx.rs); the task node id is a path from the root. -/
structure BehaveCtx where
  btEntity : Nat
  taskNode : List Nat
  targetEntity : Nat
  ctxType : CtxType
deriving DecidableEq, Repr

/-- External side effects a tick can issue through Commands: spawning a task
entity (as a child of the tree entity) and emitting a dynamic trigger. -/
inductive Eff where
  | spawnEntity (id : Nat) (parentEntity : Nat) (bundle : Nat) (ctx : BehaveCtx)
  | dynTrigger (trigger : Nat) (ctx : BehaveCtx)
deriving DecidableEq, Repr

/-- Panic sites of tick_node in src/lib.rs: the expect and panic calls for
malformed child lists, and the unreachable arm for a Started DynamicEntity
node ticked while not in its grace tick. -/
inductive PanicKind where
  | whileNoChild
  | ifThenNoCond
  | ifThenNoThen
  | ifThenArity
  | foreverNoChild
  | foreverMultiChild
  | invertNoChild
  | invertMultiChild
  | dynStartedNotSuspended
deriving DecidableEq, Repr

/-- Result of ticking one node: the returned status, the updated subtree, the
updated state, the effects issued, and whether the caller must reset this
node's following siblings (set when the node was PendingReset at entry,
because reset_descendants in src/lib.rs also resets following siblings). -/
structure TickOut where
  status : BehaveNodeStatus
  tree : NodeTree
  state : TickState
  effs : List Eff
  resetSiblings : Bool

/-- Result of the child loop of a SequenceFlow or FallbackFlow node. -/
structure TickKidsOut where
  status : BehaveNodeStatus
  trees : List NodeTree
  state : TickState
  effs : List Eff

/-- Materialise a deferred reset on a list of untouched sibling subtrees. -/
def sibApply (b : Bool) (ts : List NodeTree) : List NodeTree :=
  if b then resetSubtreeL ts else ts

/-- Materialise a deferred reset on one untouched subtree. -/
def sibApply1 (b : Bool) (t : NodeTree) : NodeTree :=
  if b then resetSubtree t else t

mutual
/-- tick_node from src/lib.rs.  Arguments: the subtree rooted at this node, a
pending flag (true when an enclosing reset_descendants call covers this
subtree, i.e. the function behaves as if resetSubtree had been applied),
the tick state, the tree entity, the target entity, and this node's path
from the root (its ego_tree NodeId).  The per-kind handling of the child
list lives in the tickXKids helpers below. -/
def tick_node : NodeTree → Bool → TickState → Nat → Nat → List Nat →
    Except PanicKind TickOut
  | .mk v0 kids, pending, ts, btE, tgtE, p =>
    let v := if pending then v0.reset else v0
    -- short circuit nodes that have already got a result
    if v.status = some .success then
      .ok ⟨.success, .mk v (sibApply pending kids), ts, [], false⟩
    else if v.status = some .failure then
      .ok ⟨.failure, .mk v (sibApply pending kids), ts, [], false⟩
    else
      -- on PendingReset the code sets the status to Running and then calls
      -- reset_descendants, which resets this node, its following siblings
      -- and all descendants; the net effect on this node is a full reset,
      -- and the sibling part is reported to the caller via resetSiblings.
      let rn := decide (v.status = some .pendingReset)
      let pr := pending || rn
      let v1 := if pr then v0.reset else v0
      match v1 with
      | .whileFlow _ => tickWhileKids kids pr rn ts btE tgtE p
      | .ifThen _ => tickIfThenKids kids pr rn ts btE tgtE p
      | .forever _ => tickForeverKids kids pr rn ts btE tgtE p
      | .invert _ => tickInvertKids kids pr rn ts btE tgtE p
      | .triggerReq _ tk tr =>
        match tk with
        | .notTriggered =>
          .ok ⟨.running, .mk (.triggerReq (some .running) .triggered tr)
            (sibApply pr kids), ts, [.dynTrigger tr ⟨btE, p, tgtE, .trigger⟩], rn⟩
        | .complete true =>
          .ok ⟨.success, .mk (.triggerReq (some .success) (.complete true) tr)
            (sibApply pr kids), ts, [], rn⟩
        | .complete false =>
          .ok ⟨.failure, .mk (.triggerReq (some .failure) (.complete false) tr)
            (sibApply pr kids), ts, [], rn⟩
        | .triggered =>
          .ok ⟨.awaitingTrigger,
            .mk (.triggerReq (some .awaitingTrigger) .triggered tr)
            (sibApply pr kids), ts, [], rn⟩
      | .alwaysSucceed _ =>
        .ok ⟨.success, .mk (.alwaysSucceed (some .success)) (sibApply pr kids),
          ts, [], rn⟩
      | .alwaysFail _ =>
        .ok ⟨.failure, .mk (.alwaysFail (some .failure)) (sibApply pr kids),
          ts, [], rn⟩
      | .wait st0 secs sstat =>
        match st0 with
        | none =>
          .ok ⟨.running, .mk (.wait (some ts.time) secs (some .running))
            (sibApply pr kids), ts, [], rn⟩
        | some t0 =>
          if ts.time - t0 > secs then
            .ok ⟨.success, .mk (.wait (some t0) secs (some .success))
              (sibApply pr kids), ts, [], rn⟩
          else
            .ok ⟨.runningTimer, .mk (.wait (some t0) secs sstat)
              (sibApply pr kids), ts, [], rn⟩
      | .dynamicEntity tk sstat bundle nm =>
        match tk with
        | .notStarted =>
          .ok ⟨.running,
            .mk (.dynamicEntity (.started ts.nextEntity) (some .running) bundle nm)
              (sibApply pr kids),
            ⟨ts.time, ts.nextEntity + 1⟩,
            [.spawnEntity ts.nextEntity btE bundle ⟨btE, p, tgtE, .entity⟩], rn⟩
        | .started e =>
          match sstat with
          | some .running =>
            .ok ⟨.awaitingTrigger,
              .mk (.dynamicEntity (.started e) (some .awaitingTrigger) bundle nm)
              (sibApply pr kids), ts, [], rn⟩
          | _ => .error .dynStartedNotSuspended
        | .complete true =>
          .ok ⟨.success, .mk (.dynamicEntity (.complete true) (some .success) bundle nm)
            (sibApply pr kids), ts, [], rn⟩
        | .complete false =>
          .ok ⟨.failure, .mk (.dynamicEntity (.complete false) (some .failure) bundle nm)
            (sibApply pr kids), ts, [], rn⟩
      | .sequenceFlow _ =>
        if kids.isEmpty then .ok ⟨.success, .mk v1 [], ts, [], rn⟩
        else
          match tickSeqChildren kids pr ts btE tgtE p 0 with
          | .error e => .error e
          | .ok rr => .ok ⟨rr.status, .mk (.sequenceFlow (some rr.status)) rr.trees,
              rr.state, rr.effs, rn⟩
      | .fallbackFlow _ =>
        if kids.isEmpty then .ok ⟨.success, .mk v1 [], ts, [], rn⟩
        else
          match tickFallChildren kids pr ts btE tgtE p 0 with
          | .error e => .error e
          | .ok rr => .ok ⟨rr.status, .mk (.fallbackFlow (some rr.status)) rr.trees,
              rr.state, rr.effs, rn⟩
termination_by structural t _ _ _ _ _ => t

/-- While arm of tick_node: tick the conditional child; on its Success tick
the optional body child; a body Success marks the While PendingReset to
loop; anything else is stored and bubbled. -/
def tickWhileKids (kids : List NodeTree) (pr rn : Bool) (ts : TickState)
    (btE tgtE : Nat) (p : List Nat) : Except PanicKind TickOut :=
  match kids with
  | [] => .error .whileNoChild
  | c1 :: rest =>
    match tick_node c1 pr ts btE tgtE (p ++ [0]) with
    | .error e => .error e
    | .ok r1 =>
      let p1 := pr || r1.resetSiblings
      match r1.status with
      | .success =>
        let c1f := setRootStatus r1.tree (some .success)
        match rest with
        | [] =>
          .ok ⟨.pendingReset, .mk (.whileFlow (some .pendingReset)) [c1f],
            r1.state, r1.effs, rn⟩
        | c2 :: rest2 =>
          match tick_node c2 p1 r1.state btE tgtE (p ++ [1]) with
          | .error e => .error e
          | .ok r2 =>
            let p2 := p1 || r2.resetSiblings
            match r2.status with
            | .success =>
              let c2f := setRootStatus r2.tree (some .success)
              .ok ⟨.pendingReset, .mk (.whileFlow (some .pendingReset))
                (c1f :: c2f :: sibApply p2 rest2), r2.state,
                r1.effs ++ r2.effs, rn⟩
            | s2 =>
              .ok ⟨s2, .mk (.whileFlow (some s2))
                (c1f :: r2.tree :: sibApply p2 rest2), r2.state,
                r1.effs ++ r2.effs, rn⟩
      | s1 =>
        let c1f := setRootStatus r1.tree (some s1)
        .ok ⟨s1, .mk (.whileFlow (some s1)) (c1f :: sibApply p1 rest),
          r1.state, r1.effs, rn⟩
termination_by structural kids

/-- IfThen arm of tick_node: tick the condition; on Success tick and return
the then child; on Failure tick and return the else child if present,
otherwise fail; any other condition status bubbles up directly. -/
def tickIfThenKids (kids : List NodeTree) (pr rn : Bool) (ts : TickState)
    (btE tgtE : Nat) (p : List Nat) : Except PanicKind TickOut :=
  match kids with
  | [] => .error .ifThenNoCond
  | c1 :: rest =>
    match tick_node c1 pr ts btE tgtE (p ++ [0]) with
    | .error e => .error e
    | .ok r1 =>
      let p1 := pr || r1.resetSiblings
      match r1.status with
      | .success =>
        let c1f := setRootStatus r1.tree (some .success)
        match rest with
        | [] => .error .ifThenNoThen
        | c2 :: rest2 =>
          match tick_node c2 p1 r1.state btE tgtE (p ++ [1]) with
          | .error e => .error e
          | .ok r2 =>
            let p2 := p1 || r2.resetSiblings
            .ok ⟨r2.status, .mk (.ifThen (some r2.status))
              (c1f :: r2.tree :: sibApply p2 rest2), r2.state,
              r1.effs ++ r2.effs, rn⟩
      | .failure =>
        let c1f := setRootStatus r1.tree (some .failure)
        match rest with
        | [] => .error .ifThenArity
        | c2 :: rest2 =>
          match rest2 with
          | [] =>
            .ok ⟨.failure, .mk (.ifThen (some .failure))
              (c1f :: sibApply1 p1 c2 :: []), r1.state, r1.effs, rn⟩
          | c3 :: rest3 =>
            match tick_node c3 p1 r1.state btE tgtE (p ++ [2]) with
            | .error e => .error e
            | .ok r3 =>
              let p3 := p1 || r3.resetSiblings
              .ok ⟨r3.status, .mk (.ifThen (some r3.status))
                (c1f :: sibApply1 p1 c2 :: r3.tree :: sibApply p3 rest3),
                r3.state, r1.effs ++ r3.effs, rn⟩
      | s1 =>
        .ok ⟨s1, .mk (.ifThen (some s1)) (r1.tree :: sibApply p1 rest),
          r1.state, r1.effs, rn⟩
termination_by structural kids

/-- Forever arm of tick_node: panics on a missing or non-single child, ticks
the only child, and on a terminal child result marks itself PendingReset;
its own stored status otherwise stays Running. -/
def tickForeverKids (kids : List NodeTree) (pr rn : Bool) (ts : TickState)
    (btE tgtE : Nat) (p : List Nat) : Except PanicKind TickOut :=
  match kids with
  | [] => .error .foreverNoChild
  | _ :: _ :: _ => .error .foreverMultiChild
  | [c1] =>
    match tick_node c1 pr ts btE tgtE (p ++ [0]) with
    | .error e => .error e
    | .ok r1 =>
      match r1.status with
      | .success =>
        .ok ⟨.pendingReset, .mk (.forever (some .pendingReset)) [r1.tree],
          r1.state, r1.effs, rn⟩
      | .failure =>
        .ok ⟨.pendingReset, .mk (.forever (some .pendingReset)) [r1.tree],
          r1.state, r1.effs, rn⟩
      | s1 =>
        .ok ⟨s1, .mk (.forever (some .running)) [r1.tree], r1.state,
          r1.effs, rn⟩
termination_by structural kids

/-- Invert arm of tick_node: panics on a missing or non-single child, ticks
the only child and swaps Success and Failure, passing anything else
through. -/
def tickInvertKids (kids : List NodeTree) (pr rn : Bool) (ts : TickState)
    (btE tgtE : Nat) (p : List Nat) : Except PanicKind TickOut :=
  match kids with
  | [] => .error .invertNoChild
  | _ :: _ :: _ => .error .invertMultiChild
  | [c1] =>
    match tick_node c1 pr ts btE tgtE (p ++ [0]) with
    | .error e => .error e
    | .ok r1 =>
      let res := match r1.status with
        | .success => BehaveNodeStatus.failure
        | .failure => BehaveNodeStatus.success
        | s1 => s1
      .ok ⟨res, .mk (.invert (some res)) [r1.tree], r1.state, r1.effs, rn⟩
termination_by structural kids

/-- Child loop of the SequenceFlow arm of tick_node: tick children
left-to-right, advancing on Success, stopping on anything else. -/
def tickSeqChildren (cs : List NodeTree) (pending : Bool) (ts : TickState)
    (btE tgtE : Nat) (p : List Nat) (i : Nat) : Except PanicKind TickKidsOut :=
  match cs with
  | [] => .ok ⟨.success, [], ts, []⟩
  | c :: rest =>
    match tick_node c pending ts btE tgtE (p ++ [i]) with
    | .error e => .error e
    | .ok r =>
      let p1 := pending || r.resetSiblings
      match r.status with
      | .success =>
        match rest with
        | [] => .ok ⟨.success, [r.tree], r.state, r.effs⟩
        | _ :: _ =>
          match tickSeqChildren rest p1 r.state btE tgtE p (i + 1) with
          | .error e => .error e
          | .ok rr => .ok ⟨rr.status, r.tree :: rr.trees, rr.state, r.effs ++ rr.effs⟩
      | s => .ok ⟨s, r.tree :: sibApply p1 rest, r.state, r.effs⟩
termination_by structural cs

/-- Child loop of the FallbackFlow arm of tick_node: tick children
left-to-right, advancing on Failure, stopping on anything else. -/
def tickFallChildren (cs : List NodeTree) (pending : Bool) (ts : TickState)
    (btE tgtE : Nat) (p : List Nat) (i : Nat) : Except PanicKind TickKidsOut :=
  match cs with
  | [] => .ok ⟨.failure, [], ts, []⟩
  | c :: rest =>
    match tick_node c pending ts btE tgtE (p ++ [i]) with
    | .error e => .error e
    | .ok r =>
      let p1 := pending || r.resetSiblings
      match r.status with
      | .failure =>
        match rest with
        | [] => .ok ⟨.failure, [r.tree], r.state, r.effs⟩
        | _ :: _ =>
          match tickFallChildren rest p1 r.state btE tgtE p (i + 1) with
          | .error e => .error e
          | .ok rr => .ok ⟨rr.status, r.tree :: rr.trees, rr.state, r.effs ++ rr.effs⟩
      | s => .ok ⟨s, r.tree :: sibApply p1 rest, r.state, r.effs⟩
termination_by structural cs
end

/-- BehaveTree::tick from src/plugin.rs: tick the whole tree from the root. -/
def tickTree (t : NodeTree) (ts : TickState) (btE tgtE : Nat) :
    Except PanicKind TickOut :=
  tick_node t false ts btE tgtE []

/-- Look up the node (as a subtree) at a path; models Tree::get on an
ego_tree NodeId.  A path that names no node yields none. -/
def nodeAt : NodeTree → List Nat → Option NodeTree
  | t, [] => some t
  | .mk _ kids, i :: rest =>
    match kids.get? i with
    | some c => nodeAt c rest
    | none => none
termination_by structural _ pth => pth

/-- Panic site of BehaveTree::set_node_result in src/plugin.rs: the
self.tree.get_mut(node_id).unwrap() on a node id naming no node. -/
inductive ReportPanic where
  | unknownNodeId
deriving DecidableEq, Repr

/-- BehaveTree::set_node_result from src/plugin.rs.  Looks up the node named
by the report's correlation context, stores Complete(success) into a
DynamicEntity node (when the context is an entity context) or a TriggerReq
node, and returns the task entity to despawn (for a Started DynamicEntity
node).  A report for any other node kind is logged and dropped.  A node id
naming no node panics (the unwrap). -/
def set_node_result : NodeTree → List Nat → CtxType → Bool →
    Except ReportPanic (NodeTree × Option Nat)
  | .mk v kids, [], ct, success =>
    match v with
    | .dynamicEntity tk st b nm =>
      if ct = .entity then
        .ok (.mk (.dynamicEntity (.complete success) st b nm) kids,
          match tk with
          | .started e => some e
          | _ => none)
      else
        -- guard ctx.is_for_entity() fails: falls through to the catch-all
        -- arm, which logs an error and changes nothing
        .ok (.mk v kids, none)
    | .triggerReq st _ tr =>
      .ok (.mk (.triggerReq st (.complete success) tr) kids, none)
    | _ => .ok (.mk v kids, none)
  | .mk v kids, i :: rest, ct, success =>
    match kids.get? i with
    | none => .error .unknownNodeId
    | some c =>
      match set_node_result c rest ct success with
      | .error e => .error e
      | .ok (c2, te) => .ok (.mk v (kids.set i c2), te)
termination_by structural _ pth _ _ => pth

/-- Per-tree host bookkeeping: the runtime tree plus the marker components
tick_trees and on_behave_status_report manage on the tree entity
(BehaveAwaitingTrigger and BehaveFinished), and the entity counter. -/
structure HostConfig where
  tree : NodeTree
  awaiting : Bool
  finished : Option Bool
  nextEntity : Nat

/-- How tick_trees in src/plugin.rs interprets one root tick result:
AwaitingTrigger inserts BehaveAwaitingTrigger, Success and Failure insert
BehaveFinished, and Running, RunningTimer and PendingReset change no marker. -/
def tick_trees_apply (r : TickOut) (c : HostConfig) : HostConfig :=
  { tree := r.tree
    awaiting := decide (r.status = .awaitingTrigger)
    finished :=
      match r.status with
      | .success => some true
      | .failure => some false
      | _ => c.finished
    nextEntity := r.state.nextEntity }

/-- on_behave_status_report from src/ctx.rs: a report for a finished (or
despawned) tree entity is dropped; otherwise the BehaveAwaitingTrigger
marker is removed unconditionally and the result is stored through
set_node_result (whose unwrap can panic). -/
def on_behave_status_report (c : HostConfig) (pth : List Nat) (ct : CtxType)
    (success : Bool) : Except ReportPanic HostConfig :=
  match c.finished with
  | some _ => .ok c
  | none =>
    match set_node_result c.tree pth ct success with
    | .error e => .error e
    | .ok (t2, _) => .ok { c with tree := t2, awaiting := false }

/-- Template node authored by the user (enum Behave in src/lib.rs); the
DynamicEntity bundle and TriggerReq payload are opaque tags. -/
inductive Behave where
  | wait (secs : ℚ)
  | dynamicEntity (name : String) (bundle : Nat)
  | sequence
  | fallback
  | invert
  | alwaysSucceed
  | alwaysFail
  | triggerReq (trigger : Nat)
  | forever
  | whileB
  | ifThen
deriving DecidableEq, Repr

/-- usize::MAX on the 64-bit targets Bevy supports. -/
def usizeMax : Nat := 2 ^ 64 - 1

/-- Behave::permitted_children from src/lib.rs, as an inclusive range
(lo, hi). -/
def Behave.permitted_children : Behave → Nat × Nat
  | .sequence => (1, usizeMax)
  | .fallback => (1, usizeMax)
  | .forever => (1, usizeMax)
  | .whileB => (1, 2)
  | .ifThen => (2, 3)
  | .invert => (1, 1)
  | .wait _ => (0, 0)
  | .triggerReq _ => (0, 0)
  | .dynamicEntity _ _ => (0, 0)
  | .alwaysSucceed => (0, 0)
  | .alwaysFail => (0, 0)

/-- User-authored template tree (ego_tree Tree of Behave). -/
inductive TemplateTree where
  | mk (val : Behave) (children : List TemplateTree)

/-- BehaveNode::new from src/lib.rs: initial runtime state of one template
node. -/
def BehaveNode.new : Behave → BehaveNode
  | .forever => .forever none
  | .triggerReq tr => .triggerReq none .notTriggered tr
  | .wait secs => .wait none secs none
  | .dynamicEntity nm b => .dynamicEntity .notStarted none b nm
  | .whileB => .whileFlow none
  | .sequence => .sequenceFlow none
  | .fallback => .fallbackFlow none
  | .invert => .invert none
  | .alwaysSucceed => .alwaysSucceed none
  | .alwaysFail => .alwaysFail none
  | .ifThen => .ifThen none

mutual
/-- tree.map(BehaveNode::new) from BehaveTree::new in src/plugin.rs. -/
def toRuntime : TemplateTree → NodeTree
  | .mk v kids => .mk (BehaveNode.new v) (toRuntimeL kids)

/-- toRuntime mapped over a child list. -/
def toRuntimeL : List TemplateTree → List NodeTree
  | [] => []
  | t :: ts => toRuntime t :: toRuntimeL ts
end

/-- One logged arity violation (the error line in verify_tree in
src/plugin.rs): the offending node, its child count, and the permitted
range. -/
structure Violation where
  node : Behave
  actual : Nat
  lo : Nat
  hi : Nat
deriving DecidableEq, Repr

mutual
/-- verify_tree from src/plugin.rs, also collecting what it logs: checks a
node's child count against its kind's permitted range; on a violation it
logs one error and returns false without visiting anything else, otherwise
it recurses into the children and stops at the first failing child. -/
def verify_tree : TemplateTree → Bool × List Violation
  | .mk v kids =>
    let n := kids.length
    let r := v.permitted_children
    if r.1 ≤ n ∧ n ≤ r.2 then verifyChildren kids
    else (false, [⟨v, n, r.1, r.2⟩])

/-- Loop over the children in verify_tree: return false on the first child
whose subtree fails. -/
def verifyChildren : List TemplateTree → Bool × List Violation
  | [] => (true, [])
  | c :: rest =>
    match verify_tree c with
    | (false, vs) => (false, vs)
    | (true, vs) =>
      match verifyChildren rest with
      | (b, vs2) => (b, vs ++ vs2)
end

mutual
/-- Straightforward specification predicate: every node of the template has
a child count inside its kind's permitted range. -/
def arityOkAll : TemplateTree → Bool
  | .mk v kids =>
    decide ((v.permitted_children).1 ≤ kids.length ∧
      kids.length ≤ (v.permitted_children).2) && arityOkAllL kids

/-- arityOkAll over a child list. -/
def arityOkAllL : List TemplateTree → Bool
  | [] => true
  | t :: ts => arityOkAll t && arityOkAllL ts
end

/-- BehaveTree::new from src/plugin.rs: panics (here: none) on an invalid
tree, otherwise converts the template to the runtime tree. -/
def BehaveTree.new (t : TemplateTree) : Option NodeTree :=
  if (verify_tree t).1 then some (toRuntime t) else none

/-- Rust numeric cast from f32 to u64 (secs as u64 in
BehaveTimeout::from_secs, src/plugin.rs): truncation toward zero,
saturating at the bounds of u64.  The f32 argument is modelled as an exact
rational; NaN is not modelled. -/
def f32CastU64 (q : ℚ) : Nat :=
  if q ≤ 0 then 0 else min (Int.toNat ⌊q⌋) usizeMax

/-- BehaveTimeout from src/plugin.rs; the Duration is stored as rational
seconds (Duration::as_secs_f32 is the identity in this model). -/
structure BehaveTimeout where
  duration : ℚ
  shouldSucceed : Bool
  startTime : ℚ
deriving DecidableEq, Repr

/-- BehaveTimeout::new from src/plugin.rs. -/
def BehaveTimeout.new (duration : ℚ) (shouldSucceed : Bool) : BehaveTimeout :=
  ⟨duration, shouldSucceed, 0⟩

/-- BehaveTimeout::from_secs from src/plugin.rs:
Duration::from_secs(secs as u64). -/
def BehaveTimeout.from_secs (secs : ℚ) (shouldSucceed : Bool) : BehaveTimeout :=
  BehaveTimeout.new (f32CastU64 secs : Nat) shouldSucceed

/-- on_tick_timeout_added from src/plugin.rs: arms the timeout by recording
the current time as its start time. -/
def on_tick_timeout_added (tm : BehaveTimeout) (now : ℚ) : BehaveTimeout :=
  { tm with startTime := now }

/-- tick_timeout_components from src/plugin.rs, for one timeout component:
fires the predetermined outcome (as the status report the supervisor
triggers) once elapsed time reaches the duration, independent of any task
state. -/
def tick_timeout_components (tm : BehaveTimeout) (now : ℚ) : Option Bool :=
  if now - tm.startTime ≥ tm.duration then some tm.shouldSucceed else none

/-- Initial host state of a freshly inserted tree built from a template. -/
def initConfig (tpl : TemplateTree) : HostConfig :=
  ⟨toRuntime tpl, false, none, 0⟩

/-- One host transition as the code implements it: a tick of a
non-suspended, non-finished tree (tick_trees), or an incoming status
report routed through on_behave_status_report, which accepts any report
whose tree is not finished. -/
inductive UStep (btE tgtE : Nat) : HostConfig → HostConfig → Prop
  | tick (c : HostConfig) (τ : ℚ) (r : TickOut) :
      c.finished = none → c.awaiting = false →
      tickTree c.tree ⟨τ, c.nextEntity⟩ btE tgtE = .ok r →
      UStep btE tgtE c (tick_trees_apply r c)
  | report (c c2 : HostConfig) (pth : List Nat) (ct : CtxType) (b : Bool) :
      on_behave_status_report c pth ct b = .ok c2 →
      UStep btE tgtE c c2

/-- The node at pth is the single leaf the suspended tree is waiting on: a
Started DynamicEntity (entity context) or a fired TriggerReq (trigger
context) whose stored status is AwaitingTrigger. -/
def AwaitedLeafAt (t : NodeTree) (pth : List Nat) (ct : CtxType) : Prop :=
  ∃ n, nodeAt t pth = some n ∧
    ((∃ e b nm, n.val = .dynamicEntity (.started e) (some .awaitingTrigger) b nm
        ∧ ct = .entity) ∨
     (∃ tr, n.val = .triggerReq (some .awaitingTrigger) .triggered tr
        ∧ ct = .trigger))

/-- Protocol-respecting host transition: like UStep, but a report is only
applied while the tree is suspended and only for the awaited leaf, which is
the intended usage of the suspend and resume protocol. -/
inductive Step (btE tgtE : Nat) : HostConfig → HostConfig → Prop
  | tick (c : HostConfig) (τ : ℚ) (r : TickOut) :
      c.finished = none → c.awaiting = false →
      tickTree c.tree ⟨τ, c.nextEntity⟩ btE tgtE = .ok r →
      Step btE tgtE c (tick_trees_apply r c)
  | report (c : HostConfig) (pth : List Nat) (ct : CtxType) (b : Bool)
      (t2 : NodeTree) (te : Option Nat) :
      c.finished = none → c.awaiting = true →
      AwaitedLeafAt c.tree pth ct →
      set_node_result c.tree pth ct b = .ok (t2, te) →
      Step btE tgtE c { c with tree := t2, awaiting := false }

/-- Host states reachable from some freshly built tree by protocol-respecting
interleavings of ticks and reports. -/
def Reach (btE tgtE : Nat) (c : HostConfig) : Prop :=
  ∃ tpl, Relation.ReflTransGen (Step btE tgtE) (initConfig tpl) c

/-- Does one node value keep the Started invariant: a Started DynamicEntity
node must be stored as Running or AwaitingTrigger. -/
def sawV : BehaveNode → Bool
  | .dynamicEntity (.started _) st _ _ =>
      decide (st = some .running) || decide (st = some .awaitingTrigger)
  | _ => true

/-- Contribution of one node value to the count of awaited leaves: a Started
DynamicEntity or fired TriggerReq stored as AwaitingTrigger. -/
def countAWv : BehaveNode → Nat
  | .dynamicEntity (.started _) (some .awaitingTrigger) _ _ => 1
  | .triggerReq (some .awaitingTrigger) .triggered _ => 1
  | _ => 0

mutual
/-- sawV holds at every node of a subtree. -/
def sawB : NodeTree → Bool
  | .mk v kids => sawV v && sawL kids

/-- sawB over a list of subtrees. -/
def sawL : List NodeTree → Bool
  | [] => true
  | t :: ts => sawB t && sawL ts
end

mutual
/-- Number of awaited leaves in a subtree. -/
def countAW : NodeTree → Nat
  | .mk v kids => countAWv v + countAWL kids

/-- countAW summed over a list of subtrees. -/
def countAWL : List NodeTree → Nat
  | [] => 0
  | t :: ts => countAW t + countAWL ts
end

/-- Which node kinds cannot accept an incoming status report of a given
context type: only a DynamicEntity node addressed by an entity context or
a TriggerReq node can. -/
def cannotAcceptReport (v : BehaveNode) (ct : CtxType) : Prop :=
  match v with
  | .dynamicEntity _ _ _ _ => ct = .trigger
  | .triggerReq _ _ _ => False
  | _ => True

/-- Abbreviation for the resetSiblings flag a tick reports: true only when
the node itself was stored as PendingReset and no enclosing reset was
already in progress. -/
def rnOf (pending : Bool) (st : Option BehaveNodeStatus) : Bool :=
  !pending && decide (st = some .pendingReset)

/-- Abbreviation for the pending flag passed into the subtree. -/
def prOf (pending : Bool) (st : Option BehaveNodeStatus) : Bool :=
  pending || decide (st = some .pendingReset)

/-- Retag the resetSiblings flag of a tick result. -/
def withSib (b : Bool) (r : Except PanicKind TickOut) : Except PanicKind TickOut :=
  r.map fun o => ⟨o.status, o.tree, o.state, o.effs, b⟩

/-- Specification predicate for C7: every child of the list, ticked
left-to-right with the loop's actual state threading, returns Success. -/
inductive SeqAllSucceed (btE tgtE : Nat) (p : List Nat) :
    List NodeTree → Bool → TickState → Nat → TickState → Prop where
  | nil (pending : Bool) (ts : TickState) (i : Nat) :
      SeqAllSucceed btE tgtE p [] pending ts i ts
  | cons (c : NodeTree) (rest : List NodeTree) (pending : Bool)
      (ts : TickState) (i : Nat) (r : TickOut) (ts2 : TickState) :
      tick_node c pending ts btE tgtE (p ++ [i]) = Except.ok r →
      r.status = .success →
      SeqAllSucceed btE tgtE p rest (pending || r.resetSiblings) r.state (i + 1) ts2 →
      SeqAllSucceed btE tgtE p (c :: rest) pending ts i ts2

/-- The per-node tick invariant used for C4: ticking a subtree whose
started spawned-task nodes are all Running or AwaitingTrigger, and which
contains no awaiting leaf at all unless an enclosing reset is pending,
never reaches the unreachable Started-not-suspended arm; and the resulting
subtree satisfies the same shape bound, with at most one awaiting leaf and
only when the returned status is AwaitingTrigger. -/
def TickSafe (t : NodeTree) : Prop :=
  ∀ (pending : Bool) (ts : TickState) (btE tgtE : Nat) (p : List Nat),
    (pending = false → sawB t = true ∧ countAW t = 0) →
    tick_node t pending ts btE tgtE p ≠ .error .dynStartedNotSuspended
    ∧ ∀ r, tick_node t pending ts btE tgtE p = .ok r →
        sawB r.tree = true
        ∧ countAW r.tree ≤ (if r.status = .awaitingTrigger then 1 else 0)
        ∧ sawV (r.tree.val.setStatus (some r.status)) = true
        ∧ countAWv (r.tree.val.setStatus (some r.status)) = countAWv r.tree.val

/-- The host invariant maintained by the supervisor loop: the tree shape is
sound and it holds at most one awaiting leaf, and only while the config is
marked awaiting. -/
def Inv (c : HostConfig) : Prop :=
  sawB c.tree = true ∧ countAW c.tree ≤ (if c.awaiting then 1 else 0)

theorem resetSubtree_mk (v : BehaveNode) (kids : List NodeTree) :
    resetSubtree (.mk v kids) = .mk v.reset (resetSubtreeL kids) := rfl

theorem BehaveNode.reset_status (v : BehaveNode) : v.reset.status = none := by
  cases v <;> rfl

theorem BehaveNode.reset_reset (v : BehaveNode) : v.reset.reset = v.reset := by
  cases v <;> rfl

/-- Structural induction for NodeTree with hypotheses for all children. -/
theorem NodeTree.treeInductionOn (P : NodeTree → Prop)
    (h : ∀ v kids, (∀ c ∈ kids, P c) → P (.mk v kids)) : ∀ t, P t
  | .mk v kids => h v kids (fun c hc => NodeTree.treeInductionOn P h c)
termination_by t => sizeOf t
decreasing_by
  simp only [NodeTree.mk.sizeOf_spec]
  have := List.sizeOf_lt_of_mem hc
  omega

theorem sawV_reset (v : BehaveNode) : sawV v.reset = true := by
  cases v <;> rfl

theorem countAWv_reset (v : BehaveNode) : countAWv v.reset = 0 := by
  cases v <;> rfl

theorem sawL_resetSubtreeL_of (l : List NodeTree)
    (h : ∀ c ∈ l, sawB (resetSubtree c) = true) :
    sawL (resetSubtreeL l) = true := by
  induction l with
  | nil => rfl
  | cons t ts ih =>
    simp only [resetSubtreeL, sawL, Bool.and_eq_true]
    exact ⟨h t (List.mem_cons_self t ts), ih fun c hc => h c (List.mem_cons_of_mem t hc)⟩

theorem sawB_resetSubtree (t : NodeTree) : sawB (resetSubtree t) = true := by
  induction t using NodeTree.treeInductionOn with
  | _ v kids ih =>
    simp only [resetSubtree, sawB, Bool.and_eq_true]
    exact ⟨sawV_reset v, sawL_resetSubtreeL_of kids ih⟩

theorem sawL_resetSubtreeL (l : List NodeTree) : sawL (resetSubtreeL l) = true :=
  sawL_resetSubtreeL_of l fun c _ => sawB_resetSubtree c

theorem countAWL_resetSubtreeL_of (l : List NodeTree)
    (h : ∀ c ∈ l, countAW (resetSubtree c) = 0) :
    countAWL (resetSubtreeL l) = 0 := by
  induction l with
  | nil => rfl
  | cons t ts ih =>
    simp only [resetSubtreeL, countAWL]
    rw [h t (List.mem_cons_self t ts), ih fun c hc => h c (List.mem_cons_of_mem t hc)]

theorem countAW_resetSubtree (t : NodeTree) : countAW (resetSubtree t) = 0 := by
  induction t using NodeTree.treeInductionOn with
  | _ v kids ih =>
    simp only [resetSubtree, countAW]
    rw [countAWv_reset, countAWL_resetSubtreeL_of kids ih]

theorem countAWL_resetSubtreeL (l : List NodeTree) : countAWL (resetSubtreeL l) = 0 :=
  countAWL_resetSubtreeL_of l fun c _ => countAW_resetSubtree c

theorem sawL_sibApply (b : Bool) (l : List NodeTree) (h : sawL l = true) :
    sawL (sibApply b l) = true := by
  cases b with
  | false => exact h
  | true => exact sawL_resetSubtreeL l

theorem countAWL_sibApply (b : Bool) (l : List NodeTree) (h : countAWL l = 0) :
    countAWL (sibApply b l) = 0 := by
  cases b with
  | false => exact h
  | true => exact countAWL_resetSubtreeL l

/-- C1: for every tree and every node whose stored status is Success or
Failure, ticking the subtree rooted at that node returns exactly that
status, leaves every node of the subtree unchanged, changes no state,
issues no effect, and asks the caller to reset nothing, until an ancestor
resets it; repeated ticks are therefore idempotent. -/
theorem c1_finished_tick_is_noop (v : BehaveNode) (kids : List NodeTree)
    (ts : TickState) (btE tgtE : Nat) (p : List Nat) (s : BehaveNodeStatus)
    (hs : v.status = some s) (hterm : s = .success ∨ s = .failure) :
    tick_node (.mk v kids) false ts btE tgtE p = .ok ⟨s, .mk v kids, ts, [], false⟩ := by
  rcases hterm with h | h <;> subst h <;> cases v <;>
    simp only [BehaveNode.status] at hs <;> subst hs <;> rfl

/-- Witness for C1 at a concrete finished node. -/
theorem c1_witness :
    tick_node (.mk (.alwaysSucceed (some .success)) []) false ⟨0, 0⟩ 1 2 [] =
      .ok ⟨.success, .mk (.alwaysSucceed (some .success)) [], ⟨0, 0⟩, [], false⟩ :=
  c1_finished_tick_is_noop _ _ _ _ _ _ _ rfl (Or.inl rfl)

/-- C2: ticking a NotStarted DynamicEntity leaf spawns its task entity with
a fresh entity-typed correlation context carrying the tree entity, the
node's id and the target entity, records the entity handle, moves to
Started and returns Running; a subsequent tick that still finds it Started
with stored status Running moves it to AwaitingTrigger and returns
AwaitingTrigger with no further effects. -/
theorem c2_spawn_then_arm :
    ∀ (b : Nat) (nm : String) (e : Nat) (ts1 ts2 : TickState) (btE tgtE : Nat)
      (p : List Nat),
    tick_node (.mk (.dynamicEntity .notStarted none b nm) []) false ts1 btE tgtE p
      = .ok ⟨.running,
          .mk (.dynamicEntity (.started ts1.nextEntity) (some .running) b nm) [],
          ⟨ts1.time, ts1.nextEntity + 1⟩,
          [.spawnEntity ts1.nextEntity btE b ⟨btE, p, tgtE, .entity⟩], false⟩
    ∧ tick_node (.mk (.dynamicEntity (.started e) (some .running) b nm) []) false
        ts2 btE tgtE p
      = .ok ⟨.awaitingTrigger,
          .mk (.dynamicEntity (.started e) (some .awaitingTrigger) b nm) [],
          ts2, [], false⟩ := by
  intro b nm e ts1 ts2 btE tgtE p
  exact ⟨rfl, rfl⟩

/-- C9: a timeout supervisor armed at time t0 with duration D and a
predetermined outcome fires exactly that outcome once now - t0 has reached
D, and never fires before; what it fires does not depend on any task
state, which tick_timeout_components never reads. -/
theorem c9_timeout_fires_exactly_at_deadline (tm : BehaveTimeout) (t0 now : ℚ)
    (b : Bool) :
    (tick_timeout_components (on_tick_timeout_added tm t0) now = some b →
      b = tm.shouldSucceed ∧ tm.duration ≤ now - t0)
    ∧ (tm.duration ≤ now - t0 →
      tick_timeout_components (on_tick_timeout_added tm t0) now
        = some tm.shouldSucceed) := by
  constructor
  · intro h
    rw [tick_timeout_components, on_tick_timeout_added] at h
    by_cases hd : tm.duration ≤ now - t0
    · simp only [hd, if_pos, ge_iff_le] at h
      exact ⟨(Option.some.injEq _ _ ▸ h.symm ▸ rfl : b = tm.shouldSucceed), hd⟩
    · simp only [ge_iff_le, hd] at h
      simp at h
  · intro h
    rw [tick_timeout_components, on_tick_timeout_added]
    simp only [ge_iff_le, h, if_pos]

/-- Witness for C9: a 2-second timeout armed at 1 fires its outcome at 3. -/
theorem c9_witness :
    tick_timeout_components (on_tick_timeout_added (BehaveTimeout.new 2 false) 1) 3
      = some false :=
  (c9_timeout_fires_exactly_at_deadline (BehaveTimeout.new 2 false) 1 3 false).2
    (by norm_num [BehaveTimeout.new])

/-- Counterexample to C10 as stated: at the non-negative f32-representable
input 2 to the 64, the Rust float-to-int cast saturates at u64::MAX, so the
effective deadline is not the integer floor of the input. -/
theorem c10_counterexample :
    (BehaveTimeout.from_secs ((2 : ℚ) ^ 64) false).duration ≠ ((⌊(2 : ℚ) ^ 64⌋ : ℤ) : ℚ) := by
  have hfl : ⌊(2 : ℚ) ^ 64⌋ = 2 ^ 64 := by
    rw [show ((2 : ℚ) ^ 64) = ((2 ^ 64 : ℤ) : ℚ) by norm_num]
    exact Int.floor_intCast _
  rw [BehaveTimeout.from_secs, BehaveTimeout.new, f32CastU64, hfl]
  norm_num [usizeMax]

/-- C10 (amended): for every non-negative input below 2 to the 64 the
effective deadline is the integer floor of the seconds argument, so
fractional parts are discarded: 1.5 yields a 1-second deadline and 0.5 a
zero-length timeout that fires on the first supervisor check; inputs of
2 to the 64 and above saturate to u64::MAX instead. -/
theorem c10_trunc (q : ℚ) (b : Bool) (h0 : 0 ≤ q) (h1 : q < 2 ^ 64) :
    (BehaveTimeout.from_secs q b).duration = ((Int.toNat ⌊q⌋ : ℕ) : ℚ)
    ∧ (BehaveTimeout.from_secs (3 / 2 : ℚ) b).duration = 1
    ∧ (BehaveTimeout.from_secs (1 / 2 : ℚ) b).duration = 0
    ∧ ∀ t0 : ℚ, tick_timeout_components
        (on_tick_timeout_added (BehaveTimeout.from_secs (1 / 2 : ℚ) b) t0) t0 = some b := by
  refine ⟨?_, ?_, ?_, ?_⟩
  · rw [BehaveTimeout.from_secs, BehaveTimeout.new, f32CastU64]
    by_cases hz : q ≤ 0
    · have : q = 0 := le_antisymm hz h0
      subst this
      norm_num
    · simp only [hz, if_neg, if_false]
      have hle : ⌊q⌋ < 2 ^ 64 := by
        rw [Int.floor_lt]
        exact_mod_cast h1
      have : Int.toNat ⌊q⌋ ≤ usizeMax := by
        rw [usizeMax]
        omega
      rw [min_eq_left this]
  · rw [BehaveTimeout.from_secs, BehaveTimeout.new, f32CastU64]
    norm_num [usizeMax]
  · rw [BehaveTimeout.from_secs, BehaveTimeout.new, f32CastU64]
    norm_num
  · intro t0
    rw [tick_timeout_components, on_tick_timeout_added]
    have hd : (BehaveTimeout.from_secs (1 / 2 : ℚ) b).duration = 0 := by
      rw [BehaveTimeout.from_secs, BehaveTimeout.new, f32CastU64]
      norm_num
    simp only [BehaveTimeout.from_secs, BehaveTimeout.new] at hd ⊢
    rw [hd]
    norm_num

/-- Witness for C10 at 1.5 seconds. -/
theorem c10_witness :
    (BehaveTimeout.from_secs (3 / 2 : ℚ) true).duration = ((Int.toNat ⌊(3 / 2 : ℚ)⌋ : ℕ) : ℚ) :=
  (c10_trunc (3 / 2) true (by norm_num) (by norm_num)).1

/-- Structural induction for TemplateTree with hypotheses for all children. -/
theorem TemplateTree.tplInductionOn (P : TemplateTree → Prop)
    (h : ∀ v kids, (∀ c ∈ kids, P c) → P (.mk v kids)) : ∀ t, P t
  | .mk v kids => h v kids (fun c hc => TemplateTree.tplInductionOn P h c)
termination_by t => sizeOf t
decreasing_by
  simp only [TemplateTree.mk.sizeOf_spec]
  have := List.sizeOf_lt_of_mem hc
  omega

theorem verifyChildren_spec (cs : List TemplateTree)
    (h : ∀ c ∈ cs, (verify_tree c).1 = arityOkAll c ∧
      (verify_tree c).2.length = (if arityOkAll c then 0 else 1)) :
    (verifyChildren cs).1 = arityOkAllL cs ∧
      (verifyChildren cs).2.length = (if arityOkAllL cs then 0 else 1) := by
  induction cs with
  | nil => constructor <;> simp [verifyChildren, arityOkAllL]
  | cons c rest ih =>
    have hc := h c (List.mem_cons_self c rest)
    have ihr := ih fun x hx => h x (List.mem_cons_of_mem c hx)
    rw [verifyChildren]
    rcases hvc : verify_tree c with ⟨b1, vs1⟩
    rw [hvc] at hc
    have hb1 : b1 = arityOkAll c := hc.1
    subst hb1
    rcases hb : arityOkAll c with _ | _
    · rw [hb] at hc
      refine ⟨?_, ?_⟩ <;> simp [arityOkAllL, hb]
      simpa using hc.2
    · rw [hb] at hc
      have hv1 : vs1 = [] := by
        have := hc.2
        simp at this
        exact this
      subst hv1
      rcases hvr : verifyChildren rest with ⟨b2, vs2⟩
      rw [hvr] at ihr
      simp only [arityOkAllL, hb, Bool.true_and]
      simpa using ihr

/-- C8 (amended): validation checks every node's child count against its
kind's permitted range and rejects any tree containing at least one
violation, but it stops at the first violating node found depth-first: an
invalid tree reports exactly one violation, not one per offending node. -/
theorem c8_verify_stops_at_first (t : TemplateTree) :
    ((verify_tree t).1 = arityOkAll t ∧
      (verify_tree t).2.length = (if arityOkAll t then 0 else 1)) ∧
    (BehaveTree.new t = none ↔ arityOkAll t = false) := by
  have main : ∀ u : TemplateTree, (verify_tree u).1 = arityOkAll u ∧
      (verify_tree u).2.length = (if arityOkAll u then 0 else 1) := by
    intro u
    induction u using TemplateTree.tplInductionOn with
    | _ v kids ih =>
      rw [verify_tree, arityOkAll]
      by_cases harr : (v.permitted_children).1 ≤ kids.length ∧
          kids.length ≤ (v.permitted_children).2
      · simp only [harr, if_pos, decide_eq_true_eq, decide_True, Bool.true_and]
        exact verifyChildren_spec kids ih
      · simp only [harr, if_neg, decide_eq_true_eq]
        simp [harr]
  refine ⟨main t, ?_⟩
  rw [BehaveTree.new]
  rcases hb : arityOkAll t with _ | _
  · simp [(main t).1, hb]
  · simp [(main t).1, hb]

/-- Counterexample to C8 as stated: a Sequence with two childless Invert
children has two offending nodes, yet verification logs a single violation
and stops. -/
theorem c8_counterexample :
    verify_tree (.mk .sequence [.mk .invert [], .mk .invert []])
        = (false, [⟨.invert, 0, 1, 1⟩])
      ∧ arityOkAll (.mk .invert []) = false := by
  constructor
  · rfl
  · rfl

theorem list_set_self {α : Type} : ∀ (l : List α) (i : Nat) (c : α),
    l.get? i = some c → l.set i c = l
  | [], i, c, h => by cases h
  | a :: rest, 0, c, h => by
    simp only [List.get?] at h
    cases h
    rfl
  | a :: rest, i + 1, c, h => by
    simp only [List.get?] at h
    simp only [List.set]
    rw [list_set_self rest i c h]

/-- C3 (amended): a status report naming a node that exists but whose kind
cannot accept it (any node other than a TriggerReq, or a DynamicEntity
addressed with a trigger context) is logged and dropped: the tree is
unchanged, no task entity is returned, and no panic occurs.  A report whose
node id names no node of the tree panics instead of being dropped, and a
report for a tree that is not currently awaiting, or for a node other than
the awaited leaf, is applied rather than rejected. -/
theorem c3_drop : ∀ (pth : List Nat) (t : NodeTree) (ct : CtxType) (b : Bool)
    (n : NodeTree), nodeAt t pth = some n → cannotAcceptReport n.val ct →
    set_node_result t pth ct b = .ok (t, none) := by
  intro pth
  induction pth with
  | nil =>
    intro t ct b n hat hcan
    rcases t with ⟨v, kids⟩
    rw [nodeAt] at hat
    cases hat
    cases v with
    | dynamicEntity tk st bu nm =>
      rw [show (NodeTree.mk (.dynamicEntity tk st bu nm) kids).val
          = .dynamicEntity tk st bu nm from rfl, cannotAcceptReport] at hcan
      subst hcan
      rfl
    | triggerReq st tk tr =>
      rw [show (NodeTree.mk (.triggerReq st tk tr) kids).val
          = .triggerReq st tk tr from rfl, cannotAcceptReport] at hcan
      exact hcan.elim
    | forever st => rfl
    | wait a b c => rfl
    | sequenceFlow st => rfl
    | fallbackFlow st => rfl
    | invert st => rfl
    | alwaysSucceed st => rfl
    | alwaysFail st => rfl
    | whileFlow st => rfl
    | ifThen st => rfl
  | cons i rest ih =>
    intro t ct b n hat hcan
    rcases t with ⟨v, kids⟩
    rw [nodeAt] at hat
    rcases hg : kids.get? i with _ | c
    · rw [hg] at hat
      cases hat
    · rw [hg] at hat
      dsimp only at hat
      rw [set_node_result, hg]
      dsimp only
      rw [ih c ct b n hat hcan]
      dsimp only
      rw [list_set_self kids i c hg]

/-- Witness for C3 at a concrete control node. -/
theorem c3_witness :
    set_node_result (.mk (.sequenceFlow (some .running)) []) [] .trigger true
      = .ok (.mk (.sequenceFlow (some .running)) [], none) :=
  c3_drop [] (.mk (.sequenceFlow (some .running)) []) .trigger true
    (.mk (.sequenceFlow (some .running)) []) rfl trivial

/-- Counterexample to C3 as stated: a report whose node id names no node
panics through the unwrap in set_node_result instead of being logged and
dropped; a report arriving while the tree is not awaiting a trigger is
applied (the TriggerReq task state changes to Complete) instead of being
dropped; and a TriggerReq node addressed by an entity-style context also has
the report applied — its arm of set_node_result checks no context type. -/
theorem c3_counterexample :
    set_node_result (.mk (.alwaysSucceed none) []) [0] .entity true
        = .error .unknownNodeId
    ∧ on_behave_status_report ⟨.mk (.triggerReq none .notTriggered 3) [], false, none, 0⟩
        [] .trigger true
        = .ok ⟨.mk (.triggerReq none (.complete true) 3) [], false, none, 0⟩
    ∧ set_node_result (.mk (.triggerReq none .notTriggered 3) []) [] .entity true
        = .ok (.mk (.triggerReq none (.complete true) 3) [], none) :=
  ⟨rfl, rfl, rfl⟩

theorem sibApply_nil (b : Bool) : sibApply b [] = [] := by cases b <;> rfl

theorem sibApply1_def (b : Bool) (t : NodeTree) :
    sibApply1 b t = if b then resetSubtree t else t := rfl

theorem tick_mk_whileFlow (st : Option BehaveNodeStatus) (kids : List NodeTree)
    (pending : Bool) (ts : TickState) (btE tgtE : Nat) (p : List Nat)
    (h : pending = false → st ≠ some .success ∧ st ≠ some .failure) :
    tick_node (.mk (.whileFlow st) kids) pending ts btE tgtE p
      = tickWhileKids kids (prOf pending st) (rnOf pending st) ts btE tgtE p := by
  cases pending with
  | true => rcases st with _ | s
            · rfl
            · cases s <;> rfl
  | false =>
    rcases st with _ | s
    · rfl
    · cases s
      case success => exact absurd rfl (h rfl).1
      case failure => exact absurd rfl (h rfl).2
      all_goals rfl

theorem tick_mk_ifThen (st : Option BehaveNodeStatus) (kids : List NodeTree)
    (pending : Bool) (ts : TickState) (btE tgtE : Nat) (p : List Nat)
    (h : pending = false → st ≠ some .success ∧ st ≠ some .failure) :
    tick_node (.mk (.ifThen st) kids) pending ts btE tgtE p
      = tickIfThenKids kids (prOf pending st) (rnOf pending st) ts btE tgtE p := by
  cases pending with
  | true => rcases st with _ | s
            · rfl
            · cases s <;> rfl
  | false =>
    rcases st with _ | s
    · rfl
    · cases s
      case success => exact absurd rfl (h rfl).1
      case failure => exact absurd rfl (h rfl).2
      all_goals rfl

theorem tick_mk_forever (st : Option BehaveNodeStatus) (kids : List NodeTree)
    (pending : Bool) (ts : TickState) (btE tgtE : Nat) (p : List Nat)
    (h : pending = false → st ≠ some .success ∧ st ≠ some .failure) :
    tick_node (.mk (.forever st) kids) pending ts btE tgtE p
      = tickForeverKids kids (prOf pending st) (rnOf pending st) ts btE tgtE p := by
  cases pending with
  | true => rcases st with _ | s
            · rfl
            · cases s <;> rfl
  | false =>
    rcases st with _ | s
    · rfl
    · cases s
      case success => exact absurd rfl (h rfl).1
      case failure => exact absurd rfl (h rfl).2
      all_goals rfl

theorem tick_mk_invert (st : Option BehaveNodeStatus) (kids : List NodeTree)
    (pending : Bool) (ts : TickState) (btE tgtE : Nat) (p : List Nat)
    (h : pending = false → st ≠ some .success ∧ st ≠ some .failure) :
    tick_node (.mk (.invert st) kids) pending ts btE tgtE p
      = tickInvertKids kids (prOf pending st) (rnOf pending st) ts btE tgtE p := by
  cases pending with
  | true => rcases st with _ | s
            · rfl
            · cases s <;> rfl
  | false =>
    rcases st with _ | s
    · rfl
    · cases s
      case success => exact absurd rfl (h rfl).1
      case failure => exact absurd rfl (h rfl).2
      all_goals rfl

theorem tick_mk_sequenceFlow (st : Option BehaveNodeStatus) (kids : List NodeTree)
    (pending : Bool) (ts : TickState) (btE tgtE : Nat) (p : List Nat)
    (h : pending = false → st ≠ some .success ∧ st ≠ some .failure) :
    tick_node (.mk (.sequenceFlow st) kids) pending ts btE tgtE p
      = (if kids.isEmpty then
          .ok ⟨.success, .mk (.sequenceFlow (if prOf pending st then none else st)) [],
            ts, [], rnOf pending st⟩
        else
          match tickSeqChildren kids (prOf pending st) ts btE tgtE p 0 with
          | .error e => .error e
          | .ok rr => .ok ⟨rr.status, .mk (.sequenceFlow (some rr.status)) rr.trees,
              rr.state, rr.effs, rnOf pending st⟩) := by
  cases pending with
  | true => rcases st with _ | s
            · rfl
            · cases s <;> rfl
  | false =>
    rcases st with _ | s
    · rfl
    · cases s
      case success => exact absurd rfl (h rfl).1
      case failure => exact absurd rfl (h rfl).2
      all_goals rfl

theorem tick_mk_fallbackFlow (st : Option BehaveNodeStatus) (kids : List NodeTree)
    (pending : Bool) (ts : TickState) (btE tgtE : Nat) (p : List Nat)
    (h : pending = false → st ≠ some .success ∧ st ≠ some .failure) :
    tick_node (.mk (.fallbackFlow st) kids) pending ts btE tgtE p
      = (if kids.isEmpty then
          .ok ⟨.success, .mk (.fallbackFlow (if prOf pending st then none else st)) [],
            ts, [], rnOf pending st⟩
        else
          match tickFallChildren kids (prOf pending st) ts btE tgtE p 0 with
          | .error e => .error e
          | .ok rr => .ok ⟨rr.status, .mk (.fallbackFlow (some rr.status)) rr.trees,
              rr.state, rr.effs, rnOf pending st⟩) := by
  cases pending with
  | true => rcases st with _ | s
            · rfl
            · cases s <;> rfl
  | false =>
    rcases st with _ | s
    · rfl
    · cases s
      case success => exact absurd rfl (h rfl).1
      case failure => exact absurd rfl (h rfl).2
      all_goals rfl

theorem tick_mk_alwaysSucceed (st : Option BehaveNodeStatus) (kids : List NodeTree)
    (pending : Bool) (ts : TickState) (btE tgtE : Nat) (p : List Nat)
    (h : pending = false → st ≠ some .success ∧ st ≠ some .failure) :
    tick_node (.mk (.alwaysSucceed st) kids) pending ts btE tgtE p
      = .ok ⟨.success, .mk (.alwaysSucceed (some .success))
          (sibApply (prOf pending st) kids), ts, [], rnOf pending st⟩ := by
  cases pending with
  | true => rcases st with _ | s
            · rfl
            · cases s <;> rfl
  | false =>
    rcases st with _ | s
    · rfl
    · cases s
      case success => exact absurd rfl (h rfl).1
      case failure => exact absurd rfl (h rfl).2
      all_goals rfl

theorem tick_mk_alwaysFail (st : Option BehaveNodeStatus) (kids : List NodeTree)
    (pending : Bool) (ts : TickState) (btE tgtE : Nat) (p : List Nat)
    (h : pending = false → st ≠ some .success ∧ st ≠ some .failure) :
    tick_node (.mk (.alwaysFail st) kids) pending ts btE tgtE p
      = .ok ⟨.failure, .mk (.alwaysFail (some .failure))
          (sibApply (prOf pending st) kids), ts, [], rnOf pending st⟩ := by
  cases pending with
  | true => rcases st with _ | s
            · rfl
            · cases s <;> rfl
  | false =>
    rcases st with _ | s
    · rfl
    · cases s
      case success => exact absurd rfl (h rfl).1
      case failure => exact absurd rfl (h rfl).2
      all_goals rfl

theorem tick_finished (v : BehaveNode) (kids : List NodeTree)
    (ts : TickState) (btE tgtE : Nat) (p : List Nat) (s : BehaveNodeStatus)
    (hs : v.status = some s) (hterm : s = .success ∨ s = .failure) :
    tick_node (.mk v kids) false ts btE tgtE p = .ok ⟨s, .mk v kids, ts, [], false⟩ := by
  rcases hterm with h | h <;> subst h <;> cases v <;>
    simp only [BehaveNode.status] at hs <;> subst hs <;> rfl

theorem tick_mk_wait_reset (st0 : Option ℚ) (secs : ℚ) (st : Option BehaveNodeStatus)
    (kids : List NodeTree) (pending : Bool) (ts : TickState) (btE tgtE : Nat)
    (p : List Nat) (h : pending = true ∨ st = some .pendingReset) :
    tick_node (.mk (.wait st0 secs st) kids) pending ts btE tgtE p
      = .ok ⟨.running, .mk (.wait (some ts.time) secs (some .running))
          (resetSubtreeL kids), ts, [], rnOf pending st⟩ := by
  cases pending with
  | true => rcases st0 with _ | t0 <;> rcases st with _ | s <;> try cases s
            all_goals rfl
  | false =>
    rcases h with h | h
    · cases h
    · subst h
      rcases st0 with _ | t0 <;> rfl

theorem tick_mk_wait_plain (st0 : Option ℚ) (secs : ℚ) (st : Option BehaveNodeStatus)
    (kids : List NodeTree) (ts : TickState) (btE tgtE : Nat) (p : List Nat)
    (h : st ≠ some .success ∧ st ≠ some .failure ∧ st ≠ some .pendingReset) :
    tick_node (.mk (.wait st0 secs st) kids) false ts btE tgtE p
      = (match st0 with
        | none => .ok ⟨.running, .mk (.wait (some ts.time) secs (some .running)) kids,
            ts, [], false⟩
        | some t0 =>
          if ts.time - t0 > secs then
            .ok ⟨.success, .mk (.wait (some t0) secs (some .success)) kids, ts, [], false⟩
          else
            .ok ⟨.runningTimer, .mk (.wait (some t0) secs st) kids, ts, [], false⟩) := by
  rcases st with _ | s
  · rcases st0 with _ | t0 <;> rfl
  · cases s
    case success => exact absurd rfl h.1
    case failure => exact absurd rfl h.2.1
    case pendingReset => exact absurd rfl h.2.2
    all_goals rcases st0 with _ | t0 <;> rfl

theorem tick_mk_trig_reset (st : Option BehaveNodeStatus) (tk : TriggerTaskStatus)
    (tr : Nat) (kids : List NodeTree) (pending : Bool) (ts : TickState)
    (btE tgtE : Nat) (p : List Nat) (h : pending = true ∨ st = some .pendingReset) :
    tick_node (.mk (.triggerReq st tk tr) kids) pending ts btE tgtE p
      = .ok ⟨.running, .mk (.triggerReq (some .running) .triggered tr)
          (resetSubtreeL kids), ts, [.dynTrigger tr ⟨btE, p, tgtE, .trigger⟩],
          rnOf pending st⟩ := by
  cases pending with
  | true => rcases st with _ | s <;> try cases s
            all_goals cases tk <;> rfl
  | false =>
    rcases h with h | h
    · cases h
    · subst h
      cases tk <;> rfl

theorem tick_mk_trig_plain (st : Option BehaveNodeStatus) (tk : TriggerTaskStatus)
    (tr : Nat) (kids : List NodeTree) (ts : TickState) (btE tgtE : Nat)
    (p : List Nat)
    (h : st ≠ some .success ∧ st ≠ some .failure ∧ st ≠ some .pendingReset) :
    tick_node (.mk (.triggerReq st tk tr) kids) false ts btE tgtE p
      = (match tk with
        | .notTriggered =>
          .ok ⟨.running, .mk (.triggerReq (some .running) .triggered tr) kids,
            ts, [.dynTrigger tr ⟨btE, p, tgtE, .trigger⟩], false⟩
        | .complete true =>
          .ok ⟨.success, .mk (.triggerReq (some .success) (.complete true) tr) kids,
            ts, [], false⟩
        | .complete false =>
          .ok ⟨.failure, .mk (.triggerReq (some .failure) (.complete false) tr) kids,
            ts, [], false⟩
        | .triggered =>
          .ok ⟨.awaitingTrigger, .mk (.triggerReq (some .awaitingTrigger) .triggered tr)
            kids, ts, [], false⟩) := by
  rcases st with _ | s
  · cases tk <;> rfl
  · cases s
    case success => exact absurd rfl h.1
    case failure => exact absurd rfl h.2.1
    case pendingReset => exact absurd rfl h.2.2
    all_goals cases tk <;> rfl

theorem tick_mk_dyn_reset (tk : EntityTaskStatus) (st : Option BehaveNodeStatus)
    (bu : Nat) (nm : String) (kids : List NodeTree) (pending : Bool)
    (ts : TickState) (btE tgtE : Nat) (p : List Nat)
    (h : pending = true ∨ st = some .pendingReset) :
    tick_node (.mk (.dynamicEntity tk st bu nm) kids) pending ts btE tgtE p
      = .ok ⟨.running,
          .mk (.dynamicEntity (.started ts.nextEntity) (some .running) bu nm)
            (resetSubtreeL kids),
          ⟨ts.time, ts.nextEntity + 1⟩,
          [.spawnEntity ts.nextEntity btE bu ⟨btE, p, tgtE, .entity⟩],
          rnOf pending st⟩ := by
  cases pending with
  | true => rcases st with _ | s <;> try cases s
            all_goals cases tk <;> rfl
  | false =>
    rcases h with h | h
    · cases h
    · subst h
      cases tk <;> rfl

theorem tick_mk_dyn_notStarted (st : Option BehaveNodeStatus) (bu : Nat)
    (nm : String) (kids : List NodeTree) (ts : TickState) (btE tgtE : Nat)
    (p : List Nat)
    (h : st ≠ some .success ∧ st ≠ some .failure ∧ st ≠ some .pendingReset) :
    tick_node (.mk (.dynamicEntity .notStarted st bu nm) kids) false ts btE tgtE p
      = .ok ⟨.running,
          .mk (.dynamicEntity (.started ts.nextEntity) (some .running) bu nm) kids,
          ⟨ts.time, ts.nextEntity + 1⟩,
          [.spawnEntity ts.nextEntity btE bu ⟨btE, p, tgtE, .entity⟩], false⟩ := by
  rcases st with _ | s
  · rfl
  · cases s
    case success => exact absurd rfl h.1
    case failure => exact absurd rfl h.2.1
    case pendingReset => exact absurd rfl h.2.2
    all_goals rfl

theorem tick_mk_dyn_started (e : Nat) (st : Option BehaveNodeStatus) (bu : Nat)
    (nm : String) (kids : List NodeTree) (ts : TickState) (btE tgtE : Nat)
    (p : List Nat)
    (h : st ≠ some .success ∧ st ≠ some .failure ∧ st ≠ some .pendingReset) :
    tick_node (.mk (.dynamicEntity (.started e) st bu nm) kids) false ts btE tgtE p
      = (if st = some .running then
          .ok ⟨.awaitingTrigger,
            .mk (.dynamicEntity (.started e) (some .awaitingTrigger) bu nm) kids,
            ts, [], false⟩
        else .error .dynStartedNotSuspended) := by
  rcases st with _ | s
  · rfl
  · cases s
    case success => exact absurd rfl h.1
    case failure => exact absurd rfl h.2.1
    case pendingReset => exact absurd rfl h.2.2
    all_goals rfl

theorem tick_mk_dyn_complete (bb : Bool) (st : Option BehaveNodeStatus) (bu : Nat)
    (nm : String) (kids : List NodeTree) (ts : TickState) (btE tgtE : Nat)
    (p : List Nat)
    (h : st ≠ some .success ∧ st ≠ some .failure ∧ st ≠ some .pendingReset) :
    tick_node (.mk (.dynamicEntity (.complete bb) st bu nm) kids) false ts btE tgtE p
      = (if bb then
          .ok ⟨.success, .mk (.dynamicEntity (.complete true) (some .success) bu nm)
            kids, ts, [], false⟩
        else
          .ok ⟨.failure, .mk (.dynamicEntity (.complete false) (some .failure) bu nm)
            kids, ts, [], false⟩) := by
  rcases st with _ | s
  · cases bb <;> rfl
  · cases s
    case success => exact absurd rfl h.1
    case failure => exact absurd rfl h.2.1
    case pendingReset => exact absurd rfl h.2.2
    all_goals cases bb <;> rfl

theorem tickWhileKids_nil (pr rn : Bool) (ts : TickState) (btE tgtE : Nat)
    (p : List Nat) : tickWhileKids [] pr rn ts btE tgtE p = .error .whileNoChild := rfl

theorem tickWhileKids_one (c1 : NodeTree) (pr rn : Bool) (ts : TickState)
    (btE tgtE : Nat) (p : List Nat) :
    tickWhileKids [c1] pr rn ts btE tgtE p =
      match tick_node c1 pr ts btE tgtE (p ++ [0]) with
      | .error e => .error e
      | .ok r1 =>
        match r1.status with
        | .success =>
          .ok ⟨.pendingReset, .mk (.whileFlow (some .pendingReset))
            [setRootStatus r1.tree (some .success)], r1.state, r1.effs, rn⟩
        | s1 =>
          .ok ⟨s1, .mk (.whileFlow (some s1))
            (setRootStatus r1.tree (some s1) :: sibApply (pr || r1.resetSiblings) []),
            r1.state, r1.effs, rn⟩ := rfl

theorem tickWhileKids_cons2 (c1 c2 : NodeTree) (rest2 : List NodeTree)
    (pr rn : Bool) (ts : TickState) (btE tgtE : Nat) (p : List Nat) :
    tickWhileKids (c1 :: c2 :: rest2) pr rn ts btE tgtE p =
      match tick_node c1 pr ts btE tgtE (p ++ [0]) with
      | .error e => .error e
      | .ok r1 =>
        match r1.status with
        | .success =>
          match tick_node c2 (pr || r1.resetSiblings) r1.state btE tgtE (p ++ [1]) with
          | .error e => .error e
          | .ok r2 =>
            match r2.status with
            | .success =>
              .ok ⟨.pendingReset, .mk (.whileFlow (some .pendingReset))
                (setRootStatus r1.tree (some .success) ::
                  setRootStatus r2.tree (some .success) ::
                  sibApply (pr || r1.resetSiblings || r2.resetSiblings) rest2),
                r2.state, r1.effs ++ r2.effs, rn⟩
            | s2 =>
              .ok ⟨s2, .mk (.whileFlow (some s2))
                (setRootStatus r1.tree (some .success) :: r2.tree ::
                  sibApply (pr || r1.resetSiblings || r2.resetSiblings) rest2),
                r2.state, r1.effs ++ r2.effs, rn⟩
        | s1 =>
          .ok ⟨s1, .mk (.whileFlow (some s1))
            (setRootStatus r1.tree (some s1) ::
              sibApply (pr || r1.resetSiblings) (c2 :: rest2)),
            r1.state, r1.effs, rn⟩ := rfl

theorem tickIfThenKids_nil (pr rn : Bool) (ts : TickState) (btE tgtE : Nat)
    (p : List Nat) : tickIfThenKids [] pr rn ts btE tgtE p = .error .ifThenNoCond := rfl

theorem tickIfThenKids_one (c1 : NodeTree) (pr rn : Bool) (ts : TickState)
    (btE tgtE : Nat) (p : List Nat) :
    tickIfThenKids [c1] pr rn ts btE tgtE p =
      match tick_node c1 pr ts btE tgtE (p ++ [0]) with
      | .error e => .error e
      | .ok r1 =>
        match r1.status with
        | .success => .error .ifThenNoThen
        | .failure => .error .ifThenArity
        | s1 =>
          .ok ⟨s1, .mk (.ifThen (some s1))
            (r1.tree :: sibApply (pr || r1.resetSiblings) []), r1.state, r1.effs, rn⟩ := rfl

theorem tickIfThenKids_two (c1 c2 : NodeTree) (pr rn : Bool) (ts : TickState)
    (btE tgtE : Nat) (p : List Nat) :
    tickIfThenKids [c1, c2] pr rn ts btE tgtE p =
      match tick_node c1 pr ts btE tgtE (p ++ [0]) with
      | .error e => .error e
      | .ok r1 =>
        match r1.status with
        | .success =>
          match tick_node c2 (pr || r1.resetSiblings) r1.state btE tgtE (p ++ [1]) with
          | .error e => .error e
          | .ok r2 =>
            .ok ⟨r2.status, .mk (.ifThen (some r2.status))
              (setRootStatus r1.tree (some .success) :: r2.tree ::
                sibApply (pr || r1.resetSiblings || r2.resetSiblings) []),
              r2.state, r1.effs ++ r2.effs, rn⟩
        | .failure =>
          .ok ⟨.failure, .mk (.ifThen (some .failure))
            (setRootStatus r1.tree (some .failure) ::
              sibApply1 (pr || r1.resetSiblings) c2 :: []), r1.state, r1.effs, rn⟩
        | s1 =>
          .ok ⟨s1, .mk (.ifThen (some s1))
            (r1.tree :: sibApply (pr || r1.resetSiblings) [c2]), r1.state, r1.effs, rn⟩ := rfl

theorem tickIfThenKids_three (c1 c2 c3 : NodeTree) (rest3 : List NodeTree)
    (pr rn : Bool) (ts : TickState) (btE tgtE : Nat) (p : List Nat) :
    tickIfThenKids (c1 :: c2 :: c3 :: rest3) pr rn ts btE tgtE p =
      match tick_node c1 pr ts btE tgtE (p ++ [0]) with
      | .error e => .error e
      | .ok r1 =>
        match r1.status with
        | .success =>
          match tick_node c2 (pr || r1.resetSiblings) r1.state btE tgtE (p ++ [1]) with
          | .error e => .error e
          | .ok r2 =>
            .ok ⟨r2.status, .mk (.ifThen (some r2.status))
              (setRootStatus r1.tree (some .success) :: r2.tree ::
                sibApply (pr || r1.resetSiblings || r2.resetSiblings) (c3 :: rest3)),
              r2.state, r1.effs ++ r2.effs, rn⟩
        | .failure =>
          match tick_node c3 (pr || r1.resetSiblings) r1.state btE tgtE (p ++ [2]) with
          | .error e => .error e
          | .ok r3 =>
            .ok ⟨r3.status, .mk (.ifThen (some r3.status))
              (setRootStatus r1.tree (some .failure) ::
                sibApply1 (pr || r1.resetSiblings) c2 :: r3.tree ::
                sibApply (pr || r1.resetSiblings || r3.resetSiblings) rest3),
              r3.state, r1.effs ++ r3.effs, rn⟩
        | s1 =>
          .ok ⟨s1, .mk (.ifThen (some s1))
            (r1.tree :: sibApply (pr || r1.resetSiblings) (c2 :: c3 :: rest3)),
            r1.state, r1.effs, rn⟩ := rfl

theorem tickForeverKids_nil (pr rn : Bool) (ts : TickState) (btE tgtE : Nat)
    (p : List Nat) : tickForeverKids [] pr rn ts btE tgtE p = .error .foreverNoChild := rfl

theorem tickForeverKids_multi (c1 c2 : NodeTree) (rest : List NodeTree)
    (pr rn : Bool) (ts : TickState) (btE tgtE : Nat) (p : List Nat) :
    tickForeverKids (c1 :: c2 :: rest) pr rn ts btE tgtE p
      = .error .foreverMultiChild := rfl

theorem tickForeverKids_one (c1 : NodeTree) (pr rn : Bool) (ts : TickState)
    (btE tgtE : Nat) (p : List Nat) :
    tickForeverKids [c1] pr rn ts btE tgtE p =
      match tick_node c1 pr ts btE tgtE (p ++ [0]) with
      | .error e => .error e
      | .ok r1 =>
        match r1.status with
        | .success =>
          .ok ⟨.pendingReset, .mk (.forever (some .pendingReset)) [r1.tree],
            r1.state, r1.effs, rn⟩
        | .failure =>
          .ok ⟨.pendingReset, .mk (.forever (some .pendingReset)) [r1.tree],
            r1.state, r1.effs, rn⟩
        | s1 =>
          .ok ⟨s1, .mk (.forever (some .running)) [r1.tree], r1.state, r1.effs, rn⟩ := rfl

theorem tickInvertKids_nil (pr rn : Bool) (ts : TickState) (btE tgtE : Nat)
    (p : List Nat) : tickInvertKids [] pr rn ts btE tgtE p = .error .invertNoChild := rfl

theorem tickInvertKids_multi (c1 c2 : NodeTree) (rest : List NodeTree)
    (pr rn : Bool) (ts : TickState) (btE tgtE : Nat) (p : List Nat) :
    tickInvertKids (c1 :: c2 :: rest) pr rn ts btE tgtE p
      = .error .invertMultiChild := rfl

theorem tickSeqChildren_nil (pending : Bool) (ts : TickState) (btE tgtE : Nat)
    (p : List Nat) (i : Nat) :
    tickSeqChildren [] pending ts btE tgtE p i = .ok ⟨.success, [], ts, []⟩ := rfl

theorem tickSeqChildren_one (c : NodeTree) (pending : Bool) (ts : TickState)
    (btE tgtE : Nat) (p : List Nat) (i : Nat) :
    tickSeqChildren [c] pending ts btE tgtE p i =
      match tick_node c pending ts btE tgtE (p ++ [i]) with
      | .error e => .error e
      | .ok r =>
        match r.status with
        | .success => .ok ⟨.success, [r.tree], r.state, r.effs⟩
        | s => .ok ⟨s, r.tree :: sibApply (pending || r.resetSiblings) [], r.state, r.effs⟩ := rfl

theorem tickSeqChildren_cons2 (c c2 : NodeTree) (rest2 : List NodeTree)
    (pending : Bool) (ts : TickState) (btE tgtE : Nat) (p : List Nat) (i : Nat) :
    tickSeqChildren (c :: c2 :: rest2) pending ts btE tgtE p i =
      match tick_node c pending ts btE tgtE (p ++ [i]) with
      | .error e => .error e
      | .ok r =>
        match r.status with
        | .success =>
          match tickSeqChildren (c2 :: rest2) (pending || r.resetSiblings) r.state
              btE tgtE p (i + 1) with
          | .error e => .error e
          | .ok rr => .ok ⟨rr.status, r.tree :: rr.trees, rr.state, r.effs ++ rr.effs⟩
        | s => .ok ⟨s, r.tree :: sibApply (pending || r.resetSiblings) (c2 :: rest2),
            r.state, r.effs⟩ := rfl

theorem tickFallChildren_nil (pending : Bool) (ts : TickState) (btE tgtE : Nat)
    (p : List Nat) (i : Nat) :
    tickFallChildren [] pending ts btE tgtE p i = .ok ⟨.failure, [], ts, []⟩ := rfl

theorem tickFallChildren_one (c : NodeTree) (pending : Bool) (ts : TickState)
    (btE tgtE : Nat) (p : List Nat) (i : Nat) :
    tickFallChildren [c] pending ts btE tgtE p i =
      match tick_node c pending ts btE tgtE (p ++ [i]) with
      | .error e => .error e
      | .ok r =>
        match r.status with
        | .failure => .ok ⟨.failure, [r.tree], r.state, r.effs⟩
        | s => .ok ⟨s, r.tree :: sibApply (pending || r.resetSiblings) [], r.state, r.effs⟩ := rfl

theorem tickFallChildren_cons2 (c c2 : NodeTree) (rest2 : List NodeTree)
    (pending : Bool) (ts : TickState) (btE tgtE : Nat) (p : List Nat) (i : Nat) :
    tickFallChildren (c :: c2 :: rest2) pending ts btE tgtE p i =
      match tick_node c pending ts btE tgtE (p ++ [i]) with
      | .error e => .error e
      | .ok r =>
        match r.status with
        | .failure =>
          match tickFallChildren (c2 :: rest2) (pending || r.resetSiblings) r.state
              btE tgtE p (i + 1) with
          | .error e => .error e
          | .ok rr => .ok ⟨rr.status, r.tree :: rr.trees, rr.state, r.effs ++ rr.effs⟩
        | s => .ok ⟨s, r.tree :: sibApply (pending || r.resetSiblings) (c2 :: rest2),
            r.state, r.effs⟩ := rfl

theorem tickWhileKids_sib (kids : List NodeTree) (pr rn : Bool) (ts : TickState)
    (btE tgtE : Nat) (p : List Nat) :
    tickWhileKids kids pr rn ts btE tgtE p
      = withSib rn (tickWhileKids kids pr false ts btE tgtE p) := by
  match kids with
  | [] => rfl
  | [c1] =>
    rw [tickWhileKids_one, tickWhileKids_one]
    cases h1 : tick_node c1 pr ts btE tgtE (p ++ [0]) with
    | error e => rfl
    | ok r1 =>
      rcases r1 with ⟨s1, t1, st1, e1, rs1⟩
      cases s1 <;> rfl
  | c1 :: c2 :: rest2 =>
    rw [tickWhileKids_cons2, tickWhileKids_cons2]
    cases h1 : tick_node c1 pr ts btE tgtE (p ++ [0]) with
    | error e => rfl
    | ok r1 =>
      dsimp only
      cases hs1 : r1.status <;> try rfl
      case success =>
        cases h2 : tick_node c2 (pr || r1.resetSiblings) r1.state btE tgtE (p ++ [1]) with
        | error e => rfl
        | ok r2 =>
          dsimp only
          cases hs2 : r2.status <;> rfl

theorem tickIfThenKids_sib (kids : List NodeTree) (pr rn : Bool) (ts : TickState)
    (btE tgtE : Nat) (p : List Nat) :
    tickIfThenKids kids pr rn ts btE tgtE p
      = withSib rn (tickIfThenKids kids pr false ts btE tgtE p) := by
  match kids with
  | [] => rfl
  | [c1] =>
    rw [tickIfThenKids_one, tickIfThenKids_one]
    cases h1 : tick_node c1 pr ts btE tgtE (p ++ [0]) with
    | error e => rfl
    | ok r1 =>
      rcases r1 with ⟨s1, t1, st1, e1, rs1⟩
      cases s1 <;> rfl
  | [c1, c2] =>
    rw [tickIfThenKids_two, tickIfThenKids_two]
    cases h1 : tick_node c1 pr ts btE tgtE (p ++ [0]) with
    | error e => rfl
    | ok r1 =>
      dsimp only
      cases hs1 : r1.status <;> try rfl
      case success =>
        cases h2 : tick_node c2 (pr || r1.resetSiblings) r1.state btE tgtE (p ++ [1]) with
        | error e => rfl
        | ok r2 => rfl
  | c1 :: c2 :: c3 :: rest3 =>
    rw [tickIfThenKids_three, tickIfThenKids_three]
    cases h1 : tick_node c1 pr ts btE tgtE (p ++ [0]) with
    | error e => rfl
    | ok r1 =>
      dsimp only
      cases hs1 : r1.status <;> try rfl
      case success =>
        cases h2 : tick_node c2 (pr || r1.resetSiblings) r1.state btE tgtE (p ++ [1]) with
        | error e => rfl
        | ok r2 => rfl
      case failure =>
        cases h3 : tick_node c3 (pr || r1.resetSiblings) r1.state btE tgtE (p ++ [2]) with
        | error e => rfl
        | ok r3 => rfl

theorem tickForeverKids_sib (kids : List NodeTree) (pr rn : Bool) (ts : TickState)
    (btE tgtE : Nat) (p : List Nat) :
    tickForeverKids kids pr rn ts btE tgtE p
      = withSib rn (tickForeverKids kids pr false ts btE tgtE p) := by
  match kids with
  | [] => rfl
  | _ :: _ :: _ => rfl
  | [c1] =>
    rw [tickForeverKids_one, tickForeverKids_one]
    cases h1 : tick_node c1 pr ts btE tgtE (p ++ [0]) with
    | error e => rfl
    | ok r1 =>
      rcases r1 with ⟨s1, t1, st1, e1, rs1⟩
      cases s1 <;> rfl

theorem tickInvertKids_one (c1 : NodeTree) (pr rn : Bool) (ts : TickState)
    (btE tgtE : Nat) (p : List Nat) :
    tickInvertKids [c1] pr rn ts btE tgtE p =
      match tick_node c1 pr ts btE tgtE (p ++ [0]) with
      | .error e => .error e
      | .ok r1 =>
        let res := match r1.status with
          | .success => BehaveNodeStatus.failure
          | .failure => BehaveNodeStatus.success
          | s1 => s1
        .ok ⟨res, .mk (.invert (some res)) [r1.tree], r1.state, r1.effs, rn⟩ := rfl

theorem tickInvertKids_sib (kids : List NodeTree) (pr rn : Bool) (ts : TickState)
    (btE tgtE : Nat) (p : List Nat) :
    tickInvertKids kids pr rn ts btE tgtE p
      = withSib rn (tickInvertKids kids pr false ts btE tgtE p) := by
  match kids with
  | [] => rfl
  | _ :: _ :: _ => rfl
  | [c1] =>
    rw [tickInvertKids_one, tickInvertKids_one]
    cases h1 : tick_node c1 pr ts btE tgtE (p ++ [0]) with
    | error e => rfl
    | ok r1 =>
      rcases r1 with ⟨s1, t1, st1, e1, rs1⟩
      cases s1 <;> rfl

/-- Ticking a node stored as PendingReset behaves exactly like ticking the
same node under an enclosing reset (so the node and its whole subtree are
first restored to construction defaults), except that it additionally
instructs the caller to reset the node's following siblings. -/
theorem tick_pendingReset (v : BehaveNode) (kids : List NodeTree)
    (hv : v.status = some .pendingReset) (ts : TickState) (btE tgtE : Nat)
    (p : List Nat) :
    tick_node (.mk v kids) false ts btE tgtE p
      = withSib true (tick_node (.mk v kids) true ts btE tgtE p) := by
  cases v <;> simp only [BehaveNode.status] at hv <;> subst hv
  case forever =>
    rw [tick_mk_forever _ _ _ _ _ _ _ (fun _ => ⟨by simp, by simp⟩),
      tick_mk_forever _ _ _ _ _ _ _ (fun h => by cases h)]
    exact tickForeverKids_sib kids _ _ ts btE tgtE p
  case whileFlow =>
    rw [tick_mk_whileFlow _ _ _ _ _ _ _ (fun _ => ⟨by simp, by simp⟩),
      tick_mk_whileFlow _ _ _ _ _ _ _ (fun h => by cases h)]
    exact tickWhileKids_sib kids _ _ ts btE tgtE p
  case ifThen =>
    rw [tick_mk_ifThen _ _ _ _ _ _ _ (fun _ => ⟨by simp, by simp⟩),
      tick_mk_ifThen _ _ _ _ _ _ _ (fun h => by cases h)]
    exact tickIfThenKids_sib kids _ _ ts btE tgtE p
  case invert =>
    rw [tick_mk_invert _ _ _ _ _ _ _ (fun _ => ⟨by simp, by simp⟩),
      tick_mk_invert _ _ _ _ _ _ _ (fun h => by cases h)]
    exact tickInvertKids_sib kids _ _ ts btE tgtE p
  case sequenceFlow =>
    rw [tick_mk_sequenceFlow _ _ _ _ _ _ _ (fun _ => ⟨by simp, by simp⟩),
      tick_mk_sequenceFlow _ _ _ _ _ _ _ (fun h => by cases h)]
    cases kids with
    | nil => rfl
    | cons c1 rest =>
      have hp1 : prOf false (some .pendingReset) = true := rfl
      have hp2 : prOf true (some .pendingReset) = true := rfl
      rw [hp1, hp2]
      cases h : tickSeqChildren (c1 :: rest) true ts btE tgtE p 0 with
      | error e => rfl
      | ok rr => rfl
  case fallbackFlow =>
    rw [tick_mk_fallbackFlow _ _ _ _ _ _ _ (fun _ => ⟨by simp, by simp⟩),
      tick_mk_fallbackFlow _ _ _ _ _ _ _ (fun h => by cases h)]
    cases kids with
    | nil => rfl
    | cons c1 rest =>
      have hp1 : prOf false (some .pendingReset) = true := rfl
      have hp2 : prOf true (some .pendingReset) = true := rfl
      rw [hp1, hp2]
      cases h : tickFallChildren (c1 :: rest) true ts btE tgtE p 0 with
      | error e => rfl
      | ok rr => rfl
  case alwaysSucceed => rfl
  case alwaysFail => rfl
  case wait => rfl
  case dynamicEntity tk bu nm =>
    rw [tick_mk_dyn_reset _ _ _ _ _ _ _ _ _ _ (Or.inr rfl),
      tick_mk_dyn_reset _ _ _ _ _ _ _ _ _ _ (Or.inl rfl)]
    rfl
  case triggerReq tk tr =>
    rw [tick_mk_trig_reset _ _ _ _ _ _ _ _ _ (Or.inr rfl),
      tick_mk_trig_reset _ _ _ _ _ _ _ _ _ (Or.inl rfl)]
    rfl

theorem withSib_ok (b : Bool) (x : Except PanicKind TickOut) (r : TickOut)
    (h : withSib b x = Except.ok r) : r.resetSiblings = b := by
  cases x with
  | error e => cases h
  | ok o => cases h; rfl

/-- A tick performed under an enclosing reset never asks the caller to
reset its following siblings. -/
theorem tick_rs_false (t : NodeTree) (ts : TickState) (btE tgtE : Nat)
    (p : List Nat) (r : TickOut)
    (h : tick_node t true ts btE tgtE p = Except.ok r) :
    r.resetSiblings = false := by
  rcases t with ⟨v, kids⟩
  cases v
  case whileFlow st =>
    rw [tick_mk_whileFlow _ _ _ _ _ _ _ (fun hh => by cases hh),
      tickWhileKids_sib] at h
    exact withSib_ok _ _ _ h
  case ifThen st =>
    rw [tick_mk_ifThen _ _ _ _ _ _ _ (fun hh => by cases hh),
      tickIfThenKids_sib] at h
    exact withSib_ok _ _ _ h
  case forever st =>
    rw [tick_mk_forever _ _ _ _ _ _ _ (fun hh => by cases hh),
      tickForeverKids_sib] at h
    exact withSib_ok _ _ _ h
  case invert st =>
    rw [tick_mk_invert _ _ _ _ _ _ _ (fun hh => by cases hh),
      tickInvertKids_sib] at h
    exact withSib_ok _ _ _ h
  case sequenceFlow st =>
    rw [tick_mk_sequenceFlow _ _ _ _ _ _ _ (fun hh => by cases hh)] at h
    cases kids with
    | nil => cases h; rfl
    | cons c1 rest =>
      rw [if_neg (by simp)] at h
      cases hq : tickSeqChildren (c1 :: rest) (prOf true st) ts btE tgtE p 0 with
      | error e => rw [hq] at h; cases h
      | ok rr => rw [hq] at h; cases h; rfl
  case fallbackFlow st =>
    rw [tick_mk_fallbackFlow _ _ _ _ _ _ _ (fun hh => by cases hh)] at h
    cases kids with
    | nil => cases h; rfl
    | cons c1 rest =>
      rw [if_neg (by simp)] at h
      cases hq : tickFallChildren (c1 :: rest) (prOf true st) ts btE tgtE p 0 with
      | error e => rw [hq] at h; cases h
      | ok rr => rw [hq] at h; cases h; rfl
  case alwaysSucceed st => cases h; rfl
  case alwaysFail st => cases h; rfl
  case wait st0 secs st =>
    rw [tick_mk_wait_reset _ _ _ _ _ _ _ _ _ (Or.inl rfl)] at h
    cases h; rfl
  case dynamicEntity tk st bu nm =>
    rw [tick_mk_dyn_reset _ _ _ _ _ _ _ _ _ _ (Or.inl rfl)] at h
    cases h; rfl
  case triggerReq st tk tr =>
    rw [tick_mk_trig_reset _ _ _ _ _ _ _ _ _ (Or.inl rfl)] at h
    cases h; rfl

theorem tickWhileKids_fresh (kids : List NodeTree)
    (H : ∀ c ∈ kids, ∀ (ts : TickState) (btE tgtE : Nat) (p : List Nat),
      tick_node c true ts btE tgtE p = tick_node (resetSubtree c) false ts btE tgtE p)
    (ts : TickState) (btE tgtE : Nat) (p : List Nat) :
    tickWhileKids kids true false ts btE tgtE p
      = tickWhileKids (resetSubtreeL kids) false false ts btE tgtE p := by
  match kids with
  | [] => rfl
  | [c1] =>
    have h1 := H c1 (by simp)
    rw [tickWhileKids_one, show resetSubtreeL [c1] = [resetSubtree c1] from rfl,
      tickWhileKids_one, h1 ts btE tgtE (p ++ [0])]
    cases hq : tick_node (resetSubtree c1) false ts btE tgtE (p ++ [0]) with
    | error e => rfl
    | ok r1 =>
      dsimp only
      have hrs : r1.resetSiblings = false :=
        tick_rs_false c1 ts btE tgtE (p ++ [0]) r1 (by rw [h1, hq])
      rw [hrs]
      cases hs : r1.status <;> rfl
  | c1 :: c2 :: rest2 =>
    have h1 := H c1 (by simp)
    have h2 := H c2 (by simp)
    rw [tickWhileKids_cons2,
      show resetSubtreeL (c1 :: c2 :: rest2)
        = resetSubtree c1 :: resetSubtree c2 :: resetSubtreeL rest2 from rfl,
      tickWhileKids_cons2, h1 ts btE tgtE (p ++ [0])]
    cases hq1 : tick_node (resetSubtree c1) false ts btE tgtE (p ++ [0]) with
    | error e => rfl
    | ok r1 =>
      dsimp only
      have hrs1 : r1.resetSiblings = false :=
        tick_rs_false c1 ts btE tgtE (p ++ [0]) r1 (by rw [h1, hq1])
      rw [hrs1]
      simp only [Bool.or_false]
      cases hs1 : r1.status <;> try rfl
      case success =>
        rw [h2 r1.state btE tgtE (p ++ [1])]
        cases hq2 : tick_node (resetSubtree c2) false r1.state btE tgtE (p ++ [1]) with
        | error e => rfl
        | ok r2 =>
          dsimp only
          have hrs2 : r2.resetSiblings = false :=
            tick_rs_false c2 r1.state btE tgtE (p ++ [1]) r2 (by rw [h2, hq2])
          rw [hrs2]
          cases hs2 : r2.status <;> rfl

theorem tickIfThenKids_fresh (kids : List NodeTree)
    (H : ∀ c ∈ kids, ∀ (ts : TickState) (btE tgtE : Nat) (p : List Nat),
      tick_node c true ts btE tgtE p = tick_node (resetSubtree c) false ts btE tgtE p)
    (ts : TickState) (btE tgtE : Nat) (p : List Nat) :
    tickIfThenKids kids true false ts btE tgtE p
      = tickIfThenKids (resetSubtreeL kids) false false ts btE tgtE p := by
  match kids with
  | [] => rfl
  | [c1] =>
    have h1 := H c1 (by simp)
    rw [tickIfThenKids_one, show resetSubtreeL [c1] = [resetSubtree c1] from rfl,
      tickIfThenKids_one, h1 ts btE tgtE (p ++ [0])]
    cases hq : tick_node (resetSubtree c1) false ts btE tgtE (p ++ [0]) with
    | error e => rfl
    | ok r1 =>
      dsimp only
      have hrs : r1.resetSiblings = false :=
        tick_rs_false c1 ts btE tgtE (p ++ [0]) r1 (by rw [h1, hq])
      rw [hrs]
      cases hs : r1.status <;> rfl
  | [c1, c2] =>
    have h1 := H c1 (by simp)
    have h2 := H c2 (by simp)
    rw [tickIfThenKids_two,
      show resetSubtreeL [c1, c2] = [resetSubtree c1, resetSubtree c2] from rfl,
      tickIfThenKids_two, h1 ts btE tgtE (p ++ [0])]
    cases hq1 : tick_node (resetSubtree c1) false ts btE tgtE (p ++ [0]) with
    | error e => rfl
    | ok r1 =>
      dsimp only
      have hrs1 : r1.resetSiblings = false :=
        tick_rs_false c1 ts btE tgtE (p ++ [0]) r1 (by rw [h1, hq1])
      rw [hrs1]
      simp only [Bool.or_false]
      cases hs1 : r1.status <;> try rfl
      case success =>
        rw [h2 r1.state btE tgtE (p ++ [1])]
        cases hq2 : tick_node (resetSubtree c2) false r1.state btE tgtE (p ++ [1]) with
        | error e => rfl
        | ok r2 =>
          dsimp only
          have hrs2 : r2.resetSiblings = false :=
            tick_rs_false c2 r1.state btE tgtE (p ++ [1]) r2 (by rw [h2, hq2])
          rw [hrs2]
          rfl
  | c1 :: c2 :: c3 :: rest3 =>
    have h1 := H c1 (by simp)
    have h2 := H c2 (by simp)
    have h3 := H c3 (by simp)
    rw [tickIfThenKids_three,
      show resetSubtreeL (c1 :: c2 :: c3 :: rest3)
        = resetSubtree c1 :: resetSubtree c2 :: resetSubtree c3
          :: resetSubtreeL rest3 from rfl,
      tickIfThenKids_three, h1 ts btE tgtE (p ++ [0])]
    cases hq1 : tick_node (resetSubtree c1) false ts btE tgtE (p ++ [0]) with
    | error e => rfl
    | ok r1 =>
      dsimp only
      have hrs1 : r1.resetSiblings = false :=
        tick_rs_false c1 ts btE tgtE (p ++ [0]) r1 (by rw [h1, hq1])
      rw [hrs1]
      simp only [Bool.or_false]
      cases hs1 : r1.status <;> try rfl
      case success =>
        rw [h2 r1.state btE tgtE (p ++ [1])]
        cases hq2 : tick_node (resetSubtree c2) false r1.state btE tgtE (p ++ [1]) with
        | error e => rfl
        | ok r2 =>
          dsimp only
          have hrs2 : r2.resetSiblings = false :=
            tick_rs_false c2 r1.state btE tgtE (p ++ [1]) r2 (by rw [h2, hq2])
          rw [hrs2]
          rfl
      case failure =>
        rw [h3 r1.state btE tgtE (p ++ [2])]
        cases hq3 : tick_node (resetSubtree c3) false r1.state btE tgtE (p ++ [2]) with
        | error e => rfl
        | ok r3 =>
          dsimp only
          have hrs3 : r3.resetSiblings = false :=
            tick_rs_false c3 r1.state btE tgtE (p ++ [2]) r3 (by rw [h3, hq3])
          rw [hrs3]
          rfl

theorem tickForeverKids_fresh (kids : List NodeTree)
    (H : ∀ c ∈ kids, ∀ (ts : TickState) (btE tgtE : Nat) (p : List Nat),
      tick_node c true ts btE tgtE p = tick_node (resetSubtree c) false ts btE tgtE p)
    (ts : TickState) (btE tgtE : Nat) (p : List Nat) :
    tickForeverKids kids true false ts btE tgtE p
      = tickForeverKids (resetSubtreeL kids) false false ts btE tgtE p := by
  match kids with
  | [] => rfl
  | _ :: _ :: _ => rfl
  | [c1] =>
    have h1 := H c1 (by simp)
    rw [tickForeverKids_one, show resetSubtreeL [c1] = [resetSubtree c1] from rfl,
      tickForeverKids_one, h1 ts btE tgtE (p ++ [0])]

theorem tickInvertKids_fresh (kids : List NodeTree)
    (H : ∀ c ∈ kids, ∀ (ts : TickState) (btE tgtE : Nat) (p : List Nat),
      tick_node c true ts btE tgtE p = tick_node (resetSubtree c) false ts btE tgtE p)
    (ts : TickState) (btE tgtE : Nat) (p : List Nat) :
    tickInvertKids kids true false ts btE tgtE p
      = tickInvertKids (resetSubtreeL kids) false false ts btE tgtE p := by
  match kids with
  | [] => rfl
  | _ :: _ :: _ => rfl
  | [c1] =>
    have h1 := H c1 (by simp)
    rw [tickInvertKids_one, show resetSubtreeL [c1] = [resetSubtree c1] from rfl,
      tickInvertKids_one, h1 ts btE tgtE (p ++ [0])]

theorem tickSeqChildren_fresh (cs : List NodeTree) :
    ∀ (H : ∀ c ∈ cs, ∀ (ts : TickState) (btE tgtE : Nat) (p : List Nat),
        tick_node c true ts btE tgtE p = tick_node (resetSubtree c) false ts btE tgtE p)
      (ts : TickState) (btE tgtE : Nat) (p : List Nat) (i : Nat),
    tickSeqChildren cs true ts btE tgtE p i
      = tickSeqChildren (resetSubtreeL cs) false ts btE tgtE p i := by
  induction cs with
  | nil => intro H ts btE tgtE p i; rfl
  | cons c rest ih =>
    intro H ts btE tgtE p i
    cases rest with
    | nil =>
      rw [tickSeqChildren_one, show resetSubtreeL [c] = [resetSubtree c] from rfl,
        tickSeqChildren_one, H c (by simp) ts btE tgtE (p ++ [i])]
      cases hq : tick_node (resetSubtree c) false ts btE tgtE (p ++ [i]) with
      | error e => rfl
      | ok r =>
        dsimp only
        have hrs : r.resetSiblings = false :=
          tick_rs_false c ts btE tgtE (p ++ [i]) r
            (by rw [H c (by simp) ts btE tgtE (p ++ [i]), hq])
        rw [hrs]
        cases hs : r.status <;> rfl
    | cons c2 rest2 =>
      rw [tickSeqChildren_cons2,
        show resetSubtreeL (c :: c2 :: rest2)
          = resetSubtree c :: resetSubtree c2 :: resetSubtreeL rest2 from rfl,
        tickSeqChildren_cons2, H c (by simp) ts btE tgtE (p ++ [i])]
      cases hq : tick_node (resetSubtree c) false ts btE tgtE (p ++ [i]) with
      | error e => rfl
      | ok r =>
        dsimp only
        have hrs : r.resetSiblings = false :=
          tick_rs_false c ts btE tgtE (p ++ [i]) r
            (by rw [H c (by simp) ts btE tgtE (p ++ [i]), hq])
        rw [hrs]
        simp only [Bool.or_false]
        cases hs : r.status <;> try rfl
        case success =>
          rw [ih (fun d hd => H d (by simp [hd])) r.state btE tgtE p (i + 1),
            show resetSubtreeL (c2 :: rest2)
              = resetSubtree c2 :: resetSubtreeL rest2 from rfl]

theorem tickFallChildren_fresh (cs : List NodeTree) :
    ∀ (H : ∀ c ∈ cs, ∀ (ts : TickState) (btE tgtE : Nat) (p : List Nat),
        tick_node c true ts btE tgtE p = tick_node (resetSubtree c) false ts btE tgtE p)
      (ts : TickState) (btE tgtE : Nat) (p : List Nat) (i : Nat),
    tickFallChildren cs true ts btE tgtE p i
      = tickFallChildren (resetSubtreeL cs) false ts btE tgtE p i := by
  induction cs with
  | nil => intro H ts btE tgtE p i; rfl
  | cons c rest ih =>
    intro H ts btE tgtE p i
    cases rest with
    | nil =>
      rw [tickFallChildren_one, show resetSubtreeL [c] = [resetSubtree c] from rfl,
        tickFallChildren_one, H c (by simp) ts btE tgtE (p ++ [i])]
      cases hq : tick_node (resetSubtree c) false ts btE tgtE (p ++ [i]) with
      | error e => rfl
      | ok r =>
        dsimp only
        have hrs : r.resetSiblings = false :=
          tick_rs_false c ts btE tgtE (p ++ [i]) r
            (by rw [H c (by simp) ts btE tgtE (p ++ [i]), hq])
        rw [hrs]
        cases hs : r.status <;> rfl
    | cons c2 rest2 =>
      rw [tickFallChildren_cons2,
        show resetSubtreeL (c :: c2 :: rest2)
          = resetSubtree c :: resetSubtree c2 :: resetSubtreeL rest2 from rfl,
        tickFallChildren_cons2, H c (by simp) ts btE tgtE (p ++ [i])]
      cases hq : tick_node (resetSubtree c) false ts btE tgtE (p ++ [i]) with
      | error e => rfl
      | ok r =>
        dsimp only
        have hrs : r.resetSiblings = false :=
          tick_rs_false c ts btE tgtE (p ++ [i]) r
            (by rw [H c (by simp) ts btE tgtE (p ++ [i]), hq])
        rw [hrs]
        simp only [Bool.or_false]
        cases hs : r.status <;> try rfl
        case failure =>
          rw [ih (fun d hd => H d (by simp [hd])) r.state btE tgtE p (i + 1),
            show resetSubtreeL (c2 :: rest2)
              = resetSubtree c2 :: resetSubtreeL rest2 from rfl]

/-- Ticking any subtree under an enclosing reset is the same as explicitly
resetting the whole subtree to construction defaults first and ticking the
fresh subtree. -/
theorem tick_fresh (t : NodeTree) : ∀ (ts : TickState) (btE tgtE : Nat)
    (p : List Nat),
    tick_node t true ts btE tgtE p
      = tick_node (resetSubtree t) false ts btE tgtE p := by
  refine NodeTree.treeInductionOn
    (fun t => ∀ (ts : TickState) (btE tgtE : Nat) (p : List Nat),
      tick_node t true ts btE tgtE p
        = tick_node (resetSubtree t) false ts btE tgtE p) ?_ t
  intro v kids IH ts btE tgtE p
  cases v
  case whileFlow st =>
    rw [show resetSubtree (.mk (.whileFlow st) kids)
        = .mk (.whileFlow none) (resetSubtreeL kids) from rfl,
      tick_mk_whileFlow st kids true ts btE tgtE p (fun hh => by cases hh),
      tick_mk_whileFlow none (resetSubtreeL kids) false ts btE tgtE p
        (fun _ => ⟨by simp, by simp⟩)]
    exact tickWhileKids_fresh kids IH ts btE tgtE p
  case ifThen st =>
    rw [show resetSubtree (.mk (.ifThen st) kids)
        = .mk (.ifThen none) (resetSubtreeL kids) from rfl,
      tick_mk_ifThen st kids true ts btE tgtE p (fun hh => by cases hh),
      tick_mk_ifThen none (resetSubtreeL kids) false ts btE tgtE p
        (fun _ => ⟨by simp, by simp⟩)]
    exact tickIfThenKids_fresh kids IH ts btE tgtE p
  case forever st =>
    rw [show resetSubtree (.mk (.forever st) kids)
        = .mk (.forever none) (resetSubtreeL kids) from rfl,
      tick_mk_forever st kids true ts btE tgtE p (fun hh => by cases hh),
      tick_mk_forever none (resetSubtreeL kids) false ts btE tgtE p
        (fun _ => ⟨by simp, by simp⟩)]
    exact tickForeverKids_fresh kids IH ts btE tgtE p
  case invert st =>
    rw [show resetSubtree (.mk (.invert st) kids)
        = .mk (.invert none) (resetSubtreeL kids) from rfl,
      tick_mk_invert st kids true ts btE tgtE p (fun hh => by cases hh),
      tick_mk_invert none (resetSubtreeL kids) false ts btE tgtE p
        (fun _ => ⟨by simp, by simp⟩)]
    exact tickInvertKids_fresh kids IH ts btE tgtE p
  case sequenceFlow st =>
    rw [show resetSubtree (.mk (.sequenceFlow st) kids)
        = .mk (.sequenceFlow none) (resetSubtreeL kids) from rfl,
      tick_mk_sequenceFlow st kids true ts btE tgtE p (fun hh => by cases hh),
      tick_mk_sequenceFlow none (resetSubtreeL kids) false ts btE tgtE p
        (fun _ => ⟨by simp, by simp⟩)]
    cases kids with
    | nil => rfl
    | cons c1 rest =>
      rw [show resetSubtreeL (c1 :: rest)
          = resetSubtree c1 :: resetSubtreeL rest from rfl,
        if_neg (by simp), if_neg (by simp),
        show prOf true st = true from rfl, show prOf false none = false from rfl,
        show rnOf true st = false from rfl, show rnOf false none = false from rfl,
        tickSeqChildren_fresh (c1 :: rest) IH ts btE tgtE p 0,
        show resetSubtreeL (c1 :: rest)
          = resetSubtree c1 :: resetSubtreeL rest from rfl]
  case fallbackFlow st =>
    rw [show resetSubtree (.mk (.fallbackFlow st) kids)
        = .mk (.fallbackFlow none) (resetSubtreeL kids) from rfl,
      tick_mk_fallbackFlow st kids true ts btE tgtE p (fun hh => by cases hh),
      tick_mk_fallbackFlow none (resetSubtreeL kids) false ts btE tgtE p
        (fun _ => ⟨by simp, by simp⟩)]
    cases kids with
    | nil => rfl
    | cons c1 rest =>
      rw [show resetSubtreeL (c1 :: rest)
          = resetSubtree c1 :: resetSubtreeL rest from rfl,
        if_neg (by simp), if_neg (by simp),
        show prOf true st = true from rfl, show prOf false none = false from rfl,
        show rnOf true st = false from rfl, show rnOf false none = false from rfl,
        tickFallChildren_fresh (c1 :: rest) IH ts btE tgtE p 0,
        show resetSubtreeL (c1 :: rest)
          = resetSubtree c1 :: resetSubtreeL rest from rfl]
  case alwaysSucceed st => rfl
  case alwaysFail st => rfl
  case wait st0 secs st => rfl
  case dynamicEntity tk st bu nm => rfl
  case triggerReq st tk tr => rfl

/-- C5 counterexample: in a Sequence whose first child is marked
PendingReset, ticking the parent resets the second child — a node outside
the PendingReset node's subtree — clearing its timer and stored status. -/
theorem c5_counterexample :
    tick_node
      (.mk (.sequenceFlow none)
        [.mk (.alwaysFail (some .pendingReset)) [],
         .mk (.wait (some 1) 5 (some .running)) []])
      false ⟨10, 0⟩ 0 0 []
      = .ok ⟨.failure,
          .mk (.sequenceFlow (some .failure))
            [.mk (.alwaysFail (some .failure)) [],
             .mk (.wait none 5 none) []],
          ⟨10, 0⟩, [], false⟩
    ∧ (NodeTree.mk (.wait none 5 none) [] ≠ .mk (.wait (some 1) 5 (some .running)) []) :=
  ⟨rfl, by simp⟩

/-- C5 (amended): ticking a node whose stored status is PendingReset first
restores the node and its entire subtree to construction-time defaults
(resetSubtree, which clears timers, task handles and stored statuses on
every descendant) and evaluates the fresh subtree; but in addition it
reports resetSiblings to its parent, which the parent materialises by
resetting every following sibling subtree — nodes outside the PendingReset
node's subtree are therefore also modified. -/
theorem c5_reset_scope (v : BehaveNode) (kids : List NodeTree)
    (hv : v.status = some .pendingReset) (ts : TickState) (btE tgtE : Nat)
    (p : List Nat) :
    tick_node (.mk v kids) false ts btE tgtE p
      = withSib true (tick_node (resetSubtree (.mk v kids)) false ts btE tgtE p)
    ∧ resetSubtree (.mk v kids) = .mk v.reset (resetSubtreeL kids)
    ∧ (∀ l : List NodeTree, sibApply true l = resetSubtreeL l) := by
  refine ⟨?_, rfl, fun l => rfl⟩
  rw [tick_pendingReset v kids hv ts btE tgtE p,
    tick_fresh (.mk v kids) ts btE tgtE p]

theorem c5_witness :
    (BehaveNode.alwaysSucceed (some .pendingReset)).status = some .pendingReset
    ∧ (tick_node (.mk (.alwaysSucceed (some .pendingReset)) []) false ⟨0, 0⟩ 0 0 []
        = withSib true
            (tick_node (resetSubtree (.mk (.alwaysSucceed (some .pendingReset)) []))
              false ⟨0, 0⟩ 0 0 [])
      ∧ resetSubtree (.mk (.alwaysSucceed (some .pendingReset)) [])
          = .mk (BehaveNode.alwaysSucceed (some .pendingReset)).reset (resetSubtreeL [])
      ∧ (∀ l : List NodeTree, sibApply true l = resetSubtreeL l)) :=
  ⟨rfl, c5_reset_scope (.alwaysSucceed (some .pendingReset)) [] rfl ⟨0, 0⟩ 0 0 []⟩

/-- Head child of a Sequence returned PendingReset: the child loop stops
there and hands the PendingReset status to the Sequence. -/
theorem seqChildren_headPendingReset (c1 : NodeTree) (rest : List NodeTree)
    (ts : TickState) (btE tgtE : Nat) (p : List Nat) (r1 : TickOut)
    (h1 : tick_node c1 false ts btE tgtE (p ++ [0]) = .ok r1)
    (hs : r1.status = .pendingReset) :
    ∃ rr, tickSeqChildren (c1 :: rest) false ts btE tgtE p 0 = .ok rr
      ∧ rr.status = .pendingReset := by
  cases rest with
  | nil =>
    rw [tickSeqChildren_one, h1]
    dsimp only
    rw [hs]
    exact ⟨_, rfl, rfl⟩
  | cons c2 rest2 =>
    rw [tickSeqChildren_cons2, h1]
    dsimp only
    rw [hs]
    exact ⟨_, rfl, rfl⟩

/-- C6 (amended): PendingReset is not confined below looping ancestors — a
Sequence (a non-looping ancestor) whose first child reports PendingReset
returns PendingReset as its own result, so the host-visible root tick can
yield PendingReset; the host loop however treats a root PendingReset as a
no-op on completion bookkeeping: it neither finishes the tree nor suspends
it. -/
theorem c6_pending_reset_bubbles (st : Option BehaveNodeStatus)
    (hst : st ≠ some .success ∧ st ≠ some .failure ∧ st ≠ some .pendingReset)
    (c1 : NodeTree) (rest : List NodeTree) (ts : TickState) (btE tgtE : Nat)
    (p : List Nat) (r1 : TickOut)
    (h1 : tick_node c1 false ts btE tgtE (p ++ [0]) = .ok r1)
    (hs : r1.status = .pendingReset) :
    (∃ out, tick_node (.mk (.sequenceFlow st) (c1 :: rest)) false ts btE tgtE p
        = .ok out ∧ out.status = .pendingReset)
    ∧ (∀ (r : TickOut) (c : HostConfig), r.status = .pendingReset →
        (tick_trees_apply r c).finished = c.finished
        ∧ (tick_trees_apply r c).awaiting = false) := by
  constructor
  · obtain ⟨rr, hq, hqs⟩ := seqChildren_headPendingReset c1 rest ts btE tgtE p r1 h1 hs
    have hpr : prOf false st = false := by
      simp only [prOf, Bool.false_or]
      exact decide_eq_false hst.2.2
    rw [tick_mk_sequenceFlow st (c1 :: rest) false ts btE tgtE p
        (fun _ => ⟨hst.1, hst.2.1⟩),
      if_neg (by simp), hpr, hq]
    exact ⟨_, rfl, hqs⟩
  · intro r c hr
    constructor
    · simp [tick_trees_apply, hr]
    · simp [tick_trees_apply, hr]

/-- C6 counterexample: the fresh tree Sequence[While[AlwaysSucceed]] has its
loop below a non-looping Sequence ancestor, yet the host-visible root tick
returns PendingReset. -/
theorem c6_counterexample :
    tickTree
      (.mk (.sequenceFlow none)
        [.mk (.whileFlow none) [.mk (.alwaysSucceed none) []]]) ⟨0, 0⟩ 0 0
      = .ok ⟨.pendingReset,
          .mk (.sequenceFlow (some .pendingReset))
            [.mk (.whileFlow (some .pendingReset))
              [.mk (.alwaysSucceed (some .success)) []]],
          ⟨0, 0⟩, [], false⟩ := rfl

theorem c6_witness :
    ((none : Option BehaveNodeStatus) ≠ some .success
      ∧ (none : Option BehaveNodeStatus) ≠ some .failure
      ∧ (none : Option BehaveNodeStatus) ≠ some .pendingReset)
    ∧ tick_node (.mk (.whileFlow none) [.mk (.alwaysSucceed none) []])
        false ⟨0, 0⟩ 0 0 ([] ++ [0])
        = .ok ⟨.pendingReset,
            .mk (.whileFlow (some .pendingReset))
              [.mk (.alwaysSucceed (some .success)) []], ⟨0, 0⟩, [], false⟩
    ∧ ((⟨.pendingReset,
          .mk (.whileFlow (some .pendingReset))
            [.mk (.alwaysSucceed (some .success)) []],
          ⟨0, 0⟩, [], false⟩ : TickOut).status = .pendingReset)
    ∧ ((∃ out, tick_node
          (.mk (.sequenceFlow none)
            [.mk (.whileFlow none) [.mk (.alwaysSucceed none) []]])
          false ⟨0, 0⟩ 0 0 [] = .ok out ∧ out.status = .pendingReset)
        ∧ (∀ (r : TickOut) (c : HostConfig), r.status = .pendingReset →
            (tick_trees_apply r c).finished = c.finished
            ∧ (tick_trees_apply r c).awaiting = false)) :=
  ⟨⟨by simp, by simp, by simp⟩, rfl, rfl,
    c6_pending_reset_bubbles none ⟨by simp, by simp, by simp⟩
      (.mk (.whileFlow none) [.mk (.alwaysSucceed none) []]) [] ⟨0, 0⟩ 0 0 []
      ⟨.pendingReset,
        .mk (.whileFlow (some .pendingReset))
          [.mk (.alwaysSucceed (some .success)) []], ⟨0, 0⟩, [], false⟩
      rfl rfl⟩

theorem tickSeqChildren_success_iff (cs : List NodeTree) (btE tgtE : Nat)
    (p : List Nat) :
    ∀ (pending : Bool) (ts : TickState) (i : Nat),
    (∃ rr, tickSeqChildren cs pending ts btE tgtE p i = .ok rr
      ∧ rr.status = .success)
      ↔ ∃ ts2, SeqAllSucceed btE tgtE p cs pending ts i ts2 := by
  induction cs with
  | nil =>
    intro pending ts i
    constructor
    · intro _; exact ⟨ts, .nil pending ts i⟩
    · intro _; exact ⟨⟨.success, [], ts, []⟩, rfl, rfl⟩
  | cons c rest ih =>
    intro pending ts i
    constructor
    · rintro ⟨rr, hq, hs⟩
      cases rest with
      | nil =>
        rw [tickSeqChildren_one] at hq
        cases h1 : tick_node c pending ts btE tgtE (p ++ [i]) with
        | error e => rw [h1] at hq; cases hq
        | ok r =>
          rw [h1] at hq
          dsimp only at hq
          cases hs1 : r.status
          all_goals rw [hs1] at hq
          all_goals dsimp only at hq
          case success =>
            cases hq
            exact ⟨r.state, .cons c [] pending ts i r r.state h1 hs1
              (.nil (pending || r.resetSiblings) r.state (i + 1))⟩
          all_goals cases hq
          all_goals simp at hs
      | cons c2 rest2 =>
        rw [tickSeqChildren_cons2] at hq
        cases h1 : tick_node c pending ts btE tgtE (p ++ [i]) with
        | error e => rw [h1] at hq; cases hq
        | ok r =>
          rw [h1] at hq
          dsimp only at hq
          cases hs1 : r.status
          all_goals rw [hs1] at hq
          all_goals dsimp only at hq
          case success =>
            cases hq2 : tickSeqChildren (c2 :: rest2) (pending || r.resetSiblings)
                r.state btE tgtE p (i + 1) with
            | error e => rw [hq2] at hq; cases hq
            | ok rr2 =>
              rw [hq2] at hq
              dsimp only at hq
              cases hq
              obtain ⟨ts2, hrest⟩ :=
                (ih (pending || r.resetSiblings) r.state (i + 1)).mp ⟨rr2, hq2, hs⟩
              exact ⟨ts2, .cons c (c2 :: rest2) pending ts i r ts2 h1 hs1 hrest⟩
          all_goals cases hq
          all_goals simp at hs
    · rintro ⟨ts2, hall⟩
      cases hall
      rename_i r hs1 h1 hrest
      cases rest with
      | nil =>
        rw [tickSeqChildren_one, h1]
        dsimp only
        rw [hs1]
        exact ⟨_, rfl, rfl⟩
      | cons c2 rest2 =>
        rw [tickSeqChildren_cons2, h1]
        dsimp only
        rw [hs1]
        obtain ⟨rr2, hq2, hs2⟩ :=
          (ih (pending || r.resetSiblings) r.state (i + 1)).mpr ⟨ts2, hrest⟩
        rw [hq2]
        dsimp only
        exact ⟨_, rfl, hs2⟩

/-- C7: a fresh Sequence with no children returns Success with no effects; a
fresh Sequence returns Success iff every child, ticked left-to-right within
the single tick, returns Success; and the first child returning any
non-Success status halts the loop: that status is stored and returned as
the Sequence's own result, and the later siblings appear untouched in the
output with no further effects or state changes. -/
theorem c7_sequence_semantics (btE tgtE : Nat) (p : List Nat) :
    (∀ (ts : TickState),
      tick_node (.mk (.sequenceFlow none) []) false ts btE tgtE p
        = .ok ⟨.success, .mk (.sequenceFlow none) [], ts, [], false⟩)
    ∧ (∀ (kids : List NodeTree) (ts : TickState),
        (∃ r, tick_node (.mk (.sequenceFlow none) kids) false ts btE tgtE p
            = .ok r ∧ r.status = .success)
          ↔ ∃ ts2, SeqAllSucceed btE tgtE p kids false ts 0 ts2)
    ∧ (∀ (c : NodeTree) (rest : List NodeTree) (ts : TickState) (r : TickOut)
        (s : BehaveNodeStatus),
        tick_node c false ts btE tgtE (p ++ [0]) = .ok r →
        r.status = s → s ≠ .success → r.resetSiblings = false →
        tick_node (.mk (.sequenceFlow none) (c :: rest)) false ts btE tgtE p
          = .ok ⟨s, .mk (.sequenceFlow (some s)) (r.tree :: rest),
              r.state, r.effs, false⟩) := by
  refine ⟨fun ts => rfl, ?_, ?_⟩
  · intro kids ts
    rw [tick_mk_sequenceFlow none kids false ts btE tgtE p
        (fun _ => ⟨by simp, by simp⟩)]
    cases kids with
    | nil =>
      constructor
      · intro _; exact ⟨ts, .nil false ts 0⟩
      · intro _; exact ⟨_, rfl, rfl⟩
    | cons c1 rest =>
      rw [if_neg (by simp), show prOf false none = false from rfl]
      constructor
      · rintro ⟨r, hq, hs⟩
        cases hq' : tickSeqChildren (c1 :: rest) false ts btE tgtE p 0 with
        | error e => rw [hq'] at hq; cases hq
        | ok rr =>
          rw [hq'] at hq
          dsimp only at hq
          cases hq
          exact (tickSeqChildren_success_iff (c1 :: rest) btE tgtE p false ts 0).mp
            ⟨rr, hq', hs⟩
      · rintro ⟨ts2, hall⟩
        obtain ⟨rr, hq, hs⟩ :=
          (tickSeqChildren_success_iff (c1 :: rest) btE tgtE p false ts 0).mpr
            ⟨ts2, hall⟩
        rw [hq]
        exact ⟨_, rfl, hs⟩
  · intro c rest ts r s h hsr hne hrs
    subst hsr
    rw [tick_mk_sequenceFlow none (c :: rest) false ts btE tgtE p
        (fun _ => ⟨by simp, by simp⟩),
      if_neg (by simp), show prOf false none = false from rfl]
    have hq : tickSeqChildren (c :: rest) false ts btE tgtE p 0
        = .ok ⟨r.status, r.tree :: rest, r.state, r.effs⟩ := by
      cases rest with
      | nil =>
        rw [tickSeqChildren_one, h]
        dsimp only
        rw [hrs]
        cases hs' : r.status
        case success => exact absurd hs' hne
        all_goals rfl
      | cons c2 rest2 =>
        rw [tickSeqChildren_cons2, h]
        dsimp only
        rw [hrs]
        cases hs' : r.status
        case success => exact absurd hs' hne
        all_goals rfl
    rw [hq]
    rfl

theorem c7_witness :
    (tick_node (.mk (.sequenceFlow none) []) false ⟨0, 0⟩ 0 0 []
      = .ok ⟨.success, .mk (.sequenceFlow none) [], ⟨0, 0⟩, [], false⟩)
    ∧ (tick_node (.mk (.alwaysFail none) []) false ⟨0, 0⟩ 0 0 ([] ++ [0])
        = .ok ⟨.failure, .mk (.alwaysFail (some .failure)) [], ⟨0, 0⟩, [], false⟩)
    ∧ ((⟨.failure, .mk (.alwaysFail (some .failure)) [], ⟨0, 0⟩, [], false⟩
        : TickOut).status = .failure)
    ∧ (BehaveNodeStatus.failure ≠ .success)
    ∧ ((⟨.failure, .mk (.alwaysFail (some .failure)) [], ⟨0, 0⟩, [], false⟩
        : TickOut).resetSiblings = false)
    ∧ tick_node (.mk (.sequenceFlow none) [.mk (.alwaysFail none) []])
        false ⟨0, 0⟩ 0 0 []
        = .ok ⟨.failure,
            .mk (.sequenceFlow (some .failure)) [.mk (.alwaysFail (some .failure)) []],
            ⟨0, 0⟩, [], false⟩ :=
  ⟨(c7_sequence_semantics 0 0 []).1 ⟨0, 0⟩, rfl, rfl, by simp, rfl,
    (c7_sequence_semantics 0 0 []).2.2 (.mk (.alwaysFail none) []) [] ⟨0, 0⟩
      ⟨.failure, .mk (.alwaysFail (some .failure)) [], ⟨0, 0⟩, [], false⟩
      .failure rfl rfl (by simp) rfl⟩

theorem sawL_sibApply2 (b : Bool) (l : List NodeTree)
    (h : b = false → sawL l = true) : sawL (sibApply b l) = true := by
  cases b with
  | false => exact h rfl
  | true => exact sawL_resetSubtreeL l

theorem countAWL_sibApply2 (b : Bool) (l : List NodeTree)
    (h : b = false → countAWL l = 0) : countAWL (sibApply b l) = 0 := by
  cases b with
  | false => exact h rfl
  | true => exact countAWL_resetSubtreeL l

theorem sawB_sibApply1 (b : Bool) (t : NodeTree)
    (h : b = false → sawB t = true) : sawB (sibApply1 b t) = true := by
  cases b with
  | false => exact h rfl
  | true => exact sawB_resetSubtree t

theorem countAW_sibApply1 (b : Bool) (t : NodeTree)
    (h : b = false → countAW t = 0) : countAW (sibApply1 b t) = 0 := by
  cases b with
  | false => exact h rfl
  | true => exact countAW_resetSubtree t

theorem sawB_setRoot (t : NodeTree) (s : BehaveNodeStatus)
    (h1 : sawB t = true) (h2 : sawV (t.val.setStatus (some s)) = true) :
    sawB (setRootStatus t (some s)) = true := by
  rcases t with ⟨v, kids⟩
  simp only [setRootStatus, sawB, Bool.and_eq_true]
  simp only [sawB, Bool.and_eq_true] at h1
  exact ⟨h2, h1.2⟩

theorem countAW_setRoot (t : NodeTree) (s : BehaveNodeStatus)
    (h : countAWv (t.val.setStatus (some s)) = countAWv t.val) :
    countAW (setRootStatus t (some s)) = countAW t := by
  rcases t with ⟨v, kids⟩
  simp only [setRootStatus, countAW]
  dsimp only [NodeTree.val] at h
  omega

theorem hyp_head (c : NodeTree) (rest : List NodeTree) (pr : Bool)
    (h : pr = false → sawL (c :: rest) = true ∧ countAWL (c :: rest) = 0) :
    pr = false → sawB c = true ∧ countAW c = 0 := by
  intro hp
  obtain ⟨h1, h2⟩ := h hp
  simp only [sawL, Bool.and_eq_true] at h1
  simp only [countAWL] at h2
  exact ⟨h1.1, by omega⟩

theorem hyp_tail (c : NodeTree) (rest : List NodeTree) (pr : Bool)
    (h : pr = false → sawL (c :: rest) = true ∧ countAWL (c :: rest) = 0) :
    pr = false → sawL rest = true ∧ countAWL rest = 0 := by
  intro hp
  obtain ⟨h1, h2⟩ := h hp
  simp only [sawL, Bool.and_eq_true] at h1
  simp only [countAWL] at h2
  exact ⟨h1.2, by omega⟩

theorem hyp_or {P : Prop} (pr rs : Bool) (h : pr = false → P) :
    (pr || rs) = false → P := by
  intro hp
  cases pr with
  | false => exact h rfl
  | true => cases hp

theorem tickForeverKids_safe (kids : List NodeTree) (H : ∀ c ∈ kids, TickSafe c)
    (pr rn : Bool) (ts : TickState) (btE tgtE : Nat) (p : List Nat)
    (hk : pr = false → sawL kids = true ∧ countAWL kids = 0) :
    tickForeverKids kids pr rn ts btE tgtE p ≠ .error .dynStartedNotSuspended
    ∧ ∀ r, tickForeverKids kids pr rn ts btE tgtE p = .ok r →
        sawB r.tree = true
        ∧ countAW r.tree ≤ (if r.status = .awaitingTrigger then 1 else 0)
        ∧ sawV (r.tree.val.setStatus (some r.status)) = true
        ∧ countAWv (r.tree.val.setStatus (some r.status)) = countAWv r.tree.val := by
  match kids with
  | [] =>
    rw [tickForeverKids_nil]
    exact ⟨by simp, fun r h => by cases h⟩
  | c1 :: c2 :: rest2 =>
    rw [tickForeverKids_multi]
    exact ⟨by simp, fun r h => by cases h⟩
  | [c1] =>
    obtain ⟨hE1, hO1⟩ := H c1 (by simp) pr ts btE tgtE (p ++ [0]) (hyp_head c1 [] pr hk)
    rw [tickForeverKids_one]
    cases hq1 : tick_node c1 pr ts btE tgtE (p ++ [0]) with
    | error e =>
      refine ⟨?_, fun r h => by cases h⟩
      intro h
      injection h with h2
      subst h2
      exact hE1 hq1
    | ok r1 =>
      obtain ⟨hB1, hC1, hA1, hA2⟩ := hO1 r1 hq1
      dsimp only
      cases hs1 : r1.status
      all_goals refine ⟨by simp, fun r h => ?_⟩
      all_goals cases h
      case intro.ok.intro.intro.intro.success.refl =>
        have hc : countAW r1.tree ≤ 0 := by rw [hs1] at hC1; simpa using hC1
        refine ⟨?_, ?_, rfl, rfl⟩
        · show (true && (sawB r1.tree && true)) = true
          rw [hB1]
          rfl
        · show 0 + (countAW r1.tree + 0) ≤ 0
          omega
      case intro.ok.intro.intro.intro.failure.refl =>
        have hc : countAW r1.tree ≤ 0 := by rw [hs1] at hC1; simpa using hC1
        refine ⟨?_, ?_, rfl, rfl⟩
        · show (true && (sawB r1.tree && true)) = true
          rw [hB1]
          rfl
        · show 0 + (countAW r1.tree + 0) ≤ 0
          omega
      case intro.ok.intro.intro.intro.running.refl =>
        have hc : countAW r1.tree ≤ 0 := by rw [hs1] at hC1; simpa using hC1
        refine ⟨?_, ?_, rfl, rfl⟩
        · show (true && (sawB r1.tree && true)) = true
          rw [hB1]
          rfl
        · show 0 + (countAW r1.tree + 0) ≤ 0
          omega
      case intro.ok.intro.intro.intro.runningTimer.refl =>
        have hc : countAW r1.tree ≤ 0 := by rw [hs1] at hC1; simpa using hC1
        refine ⟨?_, ?_, rfl, rfl⟩
        · show (true && (sawB r1.tree && true)) = true
          rw [hB1]
          rfl
        · show 0 + (countAW r1.tree + 0) ≤ 0
          omega
      case intro.ok.intro.intro.intro.awaitingTrigger.refl =>
        have hc : countAW r1.tree ≤ 1 := by rw [hs1] at hC1; simpa using hC1
        refine ⟨?_, ?_, rfl, rfl⟩
        · show (true && (sawB r1.tree && true)) = true
          rw [hB1]
          rfl
        · show 0 + (countAW r1.tree + 0) ≤ 1
          omega
      case intro.ok.intro.intro.intro.pendingReset.refl =>
        have hc : countAW r1.tree ≤ 0 := by rw [hs1] at hC1; simpa using hC1
        refine ⟨?_, ?_, rfl, rfl⟩
        · show (true && (sawB r1.tree && true)) = true
          rw [hB1]
          rfl
        · show 0 + (countAW r1.tree + 0) ≤ 0
          omega

theorem tickInvertKids_safe (kids : List NodeTree) (H : ∀ c ∈ kids, TickSafe c)
    (pr rn : Bool) (ts : TickState) (btE tgtE : Nat) (p : List Nat)
    (hk : pr = false → sawL kids = true ∧ countAWL kids = 0) :
    tickInvertKids kids pr rn ts btE tgtE p ≠ .error .dynStartedNotSuspended
    ∧ ∀ r, tickInvertKids kids pr rn ts btE tgtE p = .ok r →
        sawB r.tree = true
        ∧ countAW r.tree ≤ (if r.status = .awaitingTrigger then 1 else 0)
        ∧ sawV (r.tree.val.setStatus (some r.status)) = true
        ∧ countAWv (r.tree.val.setStatus (some r.status)) = countAWv r.tree.val := by
  match kids with
  | [] =>
    rw [tickInvertKids_nil]
    exact ⟨by simp, fun r h => by cases h⟩
  | c1 :: c2 :: rest2 =>
    rw [tickInvertKids_multi]
    exact ⟨by simp, fun r h => by cases h⟩
  | [c1] =>
    obtain ⟨hE1, hO1⟩ := H c1 (by simp) pr ts btE tgtE (p ++ [0]) (hyp_head c1 [] pr hk)
    rw [tickInvertKids_one]
    cases hq1 : tick_node c1 pr ts btE tgtE (p ++ [0]) with
    | error e =>
      refine ⟨?_, fun r h => by cases h⟩
      intro h
      injection h with h2
      subst h2
      exact hE1 hq1
    | ok r1 =>
      obtain ⟨hB1, hC1, hA1, hA2⟩ := hO1 r1 hq1
      dsimp only
      cases hs1 : r1.status
      all_goals refine ⟨by simp, fun r h => ?_⟩
      all_goals cases h
      case intro.ok.intro.intro.intro.success.refl =>
        have hc : countAW r1.tree ≤ 0 := by rw [hs1] at hC1; simpa using hC1
        refine ⟨?_, ?_, rfl, rfl⟩
        · show (true && (sawB r1.tree && true)) = true
          rw [hB1]
          rfl
        · show 0 + (countAW r1.tree + 0) ≤ 0
          omega
      case intro.ok.intro.intro.intro.failure.refl =>
        have hc : countAW r1.tree ≤ 0 := by rw [hs1] at hC1; simpa using hC1
        refine ⟨?_, ?_, rfl, rfl⟩
        · show (true && (sawB r1.tree && true)) = true
          rw [hB1]
          rfl
        · show 0 + (countAW r1.tree + 0) ≤ 0
          omega
      case intro.ok.intro.intro.intro.running.refl =>
        have hc : countAW r1.tree ≤ 0 := by rw [hs1] at hC1; simpa using hC1
        refine ⟨?_, ?_, rfl, rfl⟩
        · show (true && (sawB r1.tree && true)) = true
          rw [hB1]
          rfl
        · show 0 + (countAW r1.tree + 0) ≤ 0
          omega
      case intro.ok.intro.intro.intro.runningTimer.refl =>
        have hc : countAW r1.tree ≤ 0 := by rw [hs1] at hC1; simpa using hC1
        refine ⟨?_, ?_, rfl, rfl⟩
        · show (true && (sawB r1.tree && true)) = true
          rw [hB1]
          rfl
        · show 0 + (countAW r1.tree + 0) ≤ 0
          omega
      case intro.ok.intro.intro.intro.awaitingTrigger.refl =>
        have hc : countAW r1.tree ≤ 1 := by rw [hs1] at hC1; simpa using hC1
        refine ⟨?_, ?_, rfl, rfl⟩
        · show (true && (sawB r1.tree && true)) = true
          rw [hB1]
          rfl
        · show 0 + (countAW r1.tree + 0) ≤ 1
          omega
      case intro.ok.intro.intro.intro.pendingReset.refl =>
        have hc : countAW r1.tree ≤ 0 := by rw [hs1] at hC1; simpa using hC1
        refine ⟨?_, ?_, rfl, rfl⟩
        · show (true && (sawB r1.tree && true)) = true
          rw [hB1]
          rfl
        · show 0 + (countAW r1.tree + 0) ≤ 0
          omega

theorem tickWhileKids_safe (kids : List NodeTree) (H : ∀ c ∈ kids, TickSafe c)
    (pr rn : Bool) (ts : TickState) (btE tgtE : Nat) (p : List Nat)
    (hk : pr = false → sawL kids = true ∧ countAWL kids = 0) :
    tickWhileKids kids pr rn ts btE tgtE p ≠ .error .dynStartedNotSuspended
    ∧ ∀ r, tickWhileKids kids pr rn ts btE tgtE p = .ok r →
        sawB r.tree = true
        ∧ countAW r.tree ≤ (if r.status = .awaitingTrigger then 1 else 0)
        ∧ sawV (r.tree.val.setStatus (some r.status)) = true
        ∧ countAWv (r.tree.val.setStatus (some r.status)) = countAWv r.tree.val := by
  match kids with
  | [] =>
    rw [tickWhileKids_nil]
    exact ⟨by simp, fun r h => by cases h⟩
  | [c1] =>
    obtain ⟨hE1, hO1⟩ := H c1 (by simp) pr ts btE tgtE (p ++ [0]) (hyp_head c1 [] pr hk)
    rw [tickWhileKids_one]
    cases hq1 : tick_node c1 pr ts btE tgtE (p ++ [0]) with
    | error e =>
      refine ⟨?_, fun r h => by cases h⟩
      intro h
      injection h with h2
      subst h2
      exact hE1 hq1
    | ok r1 =>
      obtain ⟨hB1, hC1, hA1, hA2⟩ := hO1 r1 hq1
      dsimp only
      cases hs1 : r1.status
      · rw [hs1] at hC1 hA1 hA2
        have hc : countAW r1.tree ≤ 0 := by simpa using hC1
        have hb := sawB_setRoot r1.tree .success hB1 hA1
        have hn := countAW_setRoot r1.tree .success hA2
        refine ⟨by simp, fun r h => ?_⟩
        cases h
        refine ⟨?_, ?_, rfl, rfl⟩
        · show (true && (sawB (setRootStatus r1.tree (some .success)) && true)) = true
          rw [hb]
          rfl
        · show 0 + (countAW (setRootStatus r1.tree (some .success)) + 0) ≤ 0
          omega
      · rw [hs1] at hC1 hA1 hA2
        have hc : countAW r1.tree ≤ 0 := by simpa using hC1
        have hb := sawB_setRoot r1.tree .failure hB1 hA1
        have hn := countAW_setRoot r1.tree .failure hA2
        refine ⟨by simp, fun r h => ?_⟩
        cases h
        refine ⟨?_, ?_, rfl, rfl⟩
        · show (true && (sawB (setRootStatus r1.tree (some .failure)) &&
            sawL (sibApply (pr || r1.resetSiblings) []))) = true
          rw [hb, sawL_sibApply2 (pr || r1.resetSiblings) [] (fun _ => rfl)]
          rfl
        · show 0 + (countAW (setRootStatus r1.tree (some .failure)) +
            countAWL (sibApply (pr || r1.resetSiblings) [])) ≤ 0
          rw [countAWL_sibApply2 (pr || r1.resetSiblings) [] (fun _ => rfl)]
          omega
      · rw [hs1] at hC1 hA1 hA2
        have hc : countAW r1.tree ≤ 0 := by simpa using hC1
        have hb := sawB_setRoot r1.tree .running hB1 hA1
        have hn := countAW_setRoot r1.tree .running hA2
        refine ⟨by simp, fun r h => ?_⟩
        cases h
        refine ⟨?_, ?_, rfl, rfl⟩
        · show (true && (sawB (setRootStatus r1.tree (some .running)) &&
            sawL (sibApply (pr || r1.resetSiblings) []))) = true
          rw [hb, sawL_sibApply2 (pr || r1.resetSiblings) [] (fun _ => rfl)]
          rfl
        · show 0 + (countAW (setRootStatus r1.tree (some .running)) +
            countAWL (sibApply (pr || r1.resetSiblings) [])) ≤ 0
          rw [countAWL_sibApply2 (pr || r1.resetSiblings) [] (fun _ => rfl)]
          omega
      · rw [hs1] at hC1 hA1 hA2
        have hc : countAW r1.tree ≤ 0 := by simpa using hC1
        have hb := sawB_setRoot r1.tree .runningTimer hB1 hA1
        have hn := countAW_setRoot r1.tree .runningTimer hA2
        refine ⟨by simp, fun r h => ?_⟩
        cases h
        refine ⟨?_, ?_, rfl, rfl⟩
        · show (true && (sawB (setRootStatus r1.tree (some .runningTimer)) &&
            sawL (sibApply (pr || r1.resetSiblings) []))) = true
          rw [hb, sawL_sibApply2 (pr || r1.resetSiblings) [] (fun _ => rfl)]
          rfl
        · show 0 + (countAW (setRootStatus r1.tree (some .runningTimer)) +
            countAWL (sibApply (pr || r1.resetSiblings) [])) ≤ 0
          rw [countAWL_sibApply2 (pr || r1.resetSiblings) [] (fun _ => rfl)]
          omega
      · rw [hs1] at hC1 hA1 hA2
        have hc : countAW r1.tree ≤ 1 := by simpa using hC1
        have hb := sawB_setRoot r1.tree .awaitingTrigger hB1 hA1
        have hn := countAW_setRoot r1.tree .awaitingTrigger hA2
        refine ⟨by simp, fun r h => ?_⟩
        cases h
        refine ⟨?_, ?_, rfl, rfl⟩
        · show (true && (sawB (setRootStatus r1.tree (some .awaitingTrigger)) &&
            sawL (sibApply (pr || r1.resetSiblings) []))) = true
          rw [hb, sawL_sibApply2 (pr || r1.resetSiblings) [] (fun _ => rfl)]
          rfl
        · show 0 + (countAW (setRootStatus r1.tree (some .awaitingTrigger)) +
            countAWL (sibApply (pr || r1.resetSiblings) [])) ≤ 1
          rw [countAWL_sibApply2 (pr || r1.resetSiblings) [] (fun _ => rfl)]
          omega
      · rw [hs1] at hC1 hA1 hA2
        have hc : countAW r1.tree ≤ 0 := by simpa using hC1
        have hb := sawB_setRoot r1.tree .pendingReset hB1 hA1
        have hn := countAW_setRoot r1.tree .pendingReset hA2
        refine ⟨by simp, fun r h => ?_⟩
        cases h
        refine ⟨?_, ?_, rfl, rfl⟩
        · show (true && (sawB (setRootStatus r1.tree (some .pendingReset)) &&
            sawL (sibApply (pr || r1.resetSiblings) []))) = true
          rw [hb, sawL_sibApply2 (pr || r1.resetSiblings) [] (fun _ => rfl)]
          rfl
        · show 0 + (countAW (setRootStatus r1.tree (some .pendingReset)) +
            countAWL (sibApply (pr || r1.resetSiblings) [])) ≤ 0
          rw [countAWL_sibApply2 (pr || r1.resetSiblings) [] (fun _ => rfl)]
          omega
  | c1 :: c2 :: rest2 =>
    obtain ⟨hE1, hO1⟩ := H c1 (by simp) pr ts btE tgtE (p ++ [0])
      (hyp_head c1 (c2 :: rest2) pr hk)
    rw [tickWhileKids_cons2]
    cases hq1 : tick_node c1 pr ts btE tgtE (p ++ [0]) with
    | error e =>
      refine ⟨?_, fun r h => by cases h⟩
      intro h
      injection h with h2
      subst h2
      exact hE1 hq1
    | ok r1 =>
      obtain ⟨hB1, hC1, hA1, hA2⟩ := hO1 r1 hq1
      dsimp only
      cases hs1 : r1.status
      · rw [hs1] at hC1 hA1 hA2
        have hc1 : countAW r1.tree ≤ 0 := by simpa using hC1
        have hb1 := sawB_setRoot r1.tree .success hB1 hA1
        have hn1 := countAW_setRoot r1.tree .success hA2
        obtain ⟨hE2, hO2⟩ := H c2 (by simp) (pr || r1.resetSiblings) r1.state btE tgtE
          (p ++ [1])
          (hyp_or pr r1.resetSiblings
            (hyp_head c2 rest2 pr (hyp_tail c1 (c2 :: rest2) pr hk)))
        cases hq2 : tick_node c2 (pr || r1.resetSiblings) r1.state btE tgtE (p ++ [1]) with
        | error e =>
          refine ⟨?_, fun r h => by cases h⟩
          intro h
          injection h with h2
          subst h2
          exact hE2 hq2
        | ok r2 =>
          obtain ⟨hB2, hC2, hA1b, hA2b⟩ := hO2 r2 hq2
          have hrest2 := hyp_or (pr || r1.resetSiblings) r2.resetSiblings
            (hyp_or pr r1.resetSiblings
              (hyp_tail c2 rest2 pr (hyp_tail c1 (c2 :: rest2) pr hk)))
          dsimp only
          cases hs2 : r2.status
          · rw [hs2] at hC2 hA1b hA2b
            have hc2 : countAW r2.tree ≤ 0 := by simpa using hC2
            have hb2 := sawB_setRoot r2.tree .success hB2 hA1b
            have hn2 := countAW_setRoot r2.tree .success hA2b
            refine ⟨by simp, fun r h => ?_⟩
            cases h
            refine ⟨?_, ?_, rfl, rfl⟩
            · show (true && (sawB (setRootStatus r1.tree (some .success)) &&
                (sawB (setRootStatus r2.tree (some .success)) &&
                  sawL (sibApply (pr || r1.resetSiblings || r2.resetSiblings) rest2)))) = true
              rw [hb1, hb2, sawL_sibApply2 (pr || r1.resetSiblings || r2.resetSiblings)
                rest2 (fun hp => (hrest2 hp).1)]
              rfl
            · show 0 + (countAW (setRootStatus r1.tree (some .success)) +
                (countAW (setRootStatus r2.tree (some .success)) +
                  countAWL (sibApply (pr || r1.resetSiblings || r2.resetSiblings) rest2))) ≤ 0
              rw [countAWL_sibApply2 (pr || r1.resetSiblings || r2.resetSiblings)
                rest2 (fun hp => (hrest2 hp).2)]
              omega
          · rw [hs2] at hC2
            have hc2 : countAW r2.tree ≤ 0 := by simpa using hC2
            refine ⟨by simp, fun r h => ?_⟩
            cases h
            refine ⟨?_, ?_, rfl, rfl⟩
            · show (true && (sawB (setRootStatus r1.tree (some .success)) &&
                (sawB r2.tree &&
                  sawL (sibApply (pr || r1.resetSiblings || r2.resetSiblings) rest2)))) = true
              rw [hb1, hB2, sawL_sibApply2 (pr || r1.resetSiblings || r2.resetSiblings)
                rest2 (fun hp => (hrest2 hp).1)]
              rfl
            · show 0 + (countAW (setRootStatus r1.tree (some .success)) +
                (countAW r2.tree +
                  countAWL (sibApply (pr || r1.resetSiblings || r2.resetSiblings) rest2))) ≤ 0
              rw [countAWL_sibApply2 (pr || r1.resetSiblings || r2.resetSiblings)
                rest2 (fun hp => (hrest2 hp).2)]
              omega
          · rw [hs2] at hC2
            have hc2 : countAW r2.tree ≤ 0 := by simpa using hC2
            refine ⟨by simp, fun r h => ?_⟩
            cases h
            refine ⟨?_, ?_, rfl, rfl⟩
            · show (true && (sawB (setRootStatus r1.tree (some .success)) &&
                (sawB r2.tree &&
                  sawL (sibApply (pr || r1.resetSiblings || r2.resetSiblings) rest2)))) = true
              rw [hb1, hB2, sawL_sibApply2 (pr || r1.resetSiblings || r2.resetSiblings)
                rest2 (fun hp => (hrest2 hp).1)]
              rfl
            · show 0 + (countAW (setRootStatus r1.tree (some .success)) +
                (countAW r2.tree +
                  countAWL (sibApply (pr || r1.resetSiblings || r2.resetSiblings) rest2))) ≤ 0
              rw [countAWL_sibApply2 (pr || r1.resetSiblings || r2.resetSiblings)
                rest2 (fun hp => (hrest2 hp).2)]
              omega
          · rw [hs2] at hC2
            have hc2 : countAW r2.tree ≤ 0 := by simpa using hC2
            refine ⟨by simp, fun r h => ?_⟩
            cases h
            refine ⟨?_, ?_, rfl, rfl⟩
            · show (true && (sawB (setRootStatus r1.tree (some .success)) &&
                (sawB r2.tree &&
                  sawL (sibApply (pr || r1.resetSiblings || r2.resetSiblings) rest2)))) = true
              rw [hb1, hB2, sawL_sibApply2 (pr || r1.resetSiblings || r2.resetSiblings)
                rest2 (fun hp => (hrest2 hp).1)]
              rfl
            · show 0 + (countAW (setRootStatus r1.tree (some .success)) +
                (countAW r2.tree +
                  countAWL (sibApply (pr || r1.resetSiblings || r2.resetSiblings) rest2))) ≤ 0
              rw [countAWL_sibApply2 (pr || r1.resetSiblings || r2.resetSiblings)
                rest2 (fun hp => (hrest2 hp).2)]
              omega
          · rw [hs2] at hC2
            have hc2 : countAW r2.tree ≤ 1 := by simpa using hC2
            refine ⟨by simp, fun r h => ?_⟩
            cases h
            refine ⟨?_, ?_, rfl, rfl⟩
            · show (true && (sawB (setRootStatus r1.tree (some .success)) &&
                (sawB r2.tree &&
                  sawL (sibApply (pr || r1.resetSiblings || r2.resetSiblings) rest2)))) = true
              rw [hb1, hB2, sawL_sibApply2 (pr || r1.resetSiblings || r2.resetSiblings)
                rest2 (fun hp => (hrest2 hp).1)]
              rfl
            · show 0 + (countAW (setRootStatus r1.tree (some .success)) +
                (countAW r2.tree +
                  countAWL (sibApply (pr || r1.resetSiblings || r2.resetSiblings) rest2))) ≤ 1
              rw [countAWL_sibApply2 (pr || r1.resetSiblings || r2.resetSiblings)
                rest2 (fun hp => (hrest2 hp).2)]
              omega
          · rw [hs2] at hC2
            have hc2 : countAW r2.tree ≤ 0 := by simpa using hC2
            refine ⟨by simp, fun r h => ?_⟩
            cases h
            refine ⟨?_, ?_, rfl, rfl⟩
            · show (true && (sawB (setRootStatus r1.tree (some .success)) &&
                (sawB r2.tree &&
                  sawL (sibApply (pr || r1.resetSiblings || r2.resetSiblings) rest2)))) = true
              rw [hb1, hB2, sawL_sibApply2 (pr || r1.resetSiblings || r2.resetSiblings)
                rest2 (fun hp => (hrest2 hp).1)]
              rfl
            · show 0 + (countAW (setRootStatus r1.tree (some .success)) +
                (countAW r2.tree +
                  countAWL (sibApply (pr || r1.resetSiblings || r2.resetSiblings) rest2))) ≤ 0
              rw [countAWL_sibApply2 (pr || r1.resetSiblings || r2.resetSiblings)
                rest2 (fun hp => (hrest2 hp).2)]
              omega
      · rw [hs1] at hC1 hA1 hA2
        have hc : countAW r1.tree ≤ 0 := by simpa using hC1
        have hb := sawB_setRoot r1.tree .failure hB1 hA1
        have hn := countAW_setRoot r1.tree .failure hA2
        have hrest := hyp_or pr r1.resetSiblings (hyp_tail c1 (c2 :: rest2) pr hk)
        refine ⟨by simp, fun r h => ?_⟩
        cases h
        refine ⟨?_, ?_, rfl, rfl⟩
        · show (true && (sawB (setRootStatus r1.tree (some .failure)) &&
            sawL (sibApply (pr || r1.resetSiblings) (c2 :: rest2)))) = true
          rw [hb, sawL_sibApply2 (pr || r1.resetSiblings) (c2 :: rest2)
            (fun hp => (hrest hp).1)]
          rfl
        · show 0 + (countAW (setRootStatus r1.tree (some .failure)) +
            countAWL (sibApply (pr || r1.resetSiblings) (c2 :: rest2))) ≤ 0
          rw [countAWL_sibApply2 (pr || r1.resetSiblings) (c2 :: rest2)
            (fun hp => (hrest hp).2)]
          omega
      · rw [hs1] at hC1 hA1 hA2
        have hc : countAW r1.tree ≤ 0 := by simpa using hC1
        have hb := sawB_setRoot r1.tree .running hB1 hA1
        have hn := countAW_setRoot r1.tree .running hA2
        have hrest := hyp_or pr r1.resetSiblings (hyp_tail c1 (c2 :: rest2) pr hk)
        refine ⟨by simp, fun r h => ?_⟩
        cases h
        refine ⟨?_, ?_, rfl, rfl⟩
        · show (true && (sawB (setRootStatus r1.tree (some .running)) &&
            sawL (sibApply (pr || r1.resetSiblings) (c2 :: rest2)))) = true
          rw [hb, sawL_sibApply2 (pr || r1.resetSiblings) (c2 :: rest2)
            (fun hp => (hrest hp).1)]
          rfl
        · show 0 + (countAW (setRootStatus r1.tree (some .running)) +
            countAWL (sibApply (pr || r1.resetSiblings) (c2 :: rest2))) ≤ 0
          rw [countAWL_sibApply2 (pr || r1.resetSiblings) (c2 :: rest2)
            (fun hp => (hrest hp).2)]
          omega
      · rw [hs1] at hC1 hA1 hA2
        have hc : countAW r1.tree ≤ 0 := by simpa using hC1
        have hb := sawB_setRoot r1.tree .runningTimer hB1 hA1
        have hn := countAW_setRoot r1.tree .runningTimer hA2
        have hrest := hyp_or pr r1.resetSiblings (hyp_tail c1 (c2 :: rest2) pr hk)
        refine ⟨by simp, fun r h => ?_⟩
        cases h
        refine ⟨?_, ?_, rfl, rfl⟩
        · show (true && (sawB (setRootStatus r1.tree (some .runningTimer)) &&
            sawL (sibApply (pr || r1.resetSiblings) (c2 :: rest2)))) = true
          rw [hb, sawL_sibApply2 (pr || r1.resetSiblings) (c2 :: rest2)
            (fun hp => (hrest hp).1)]
          rfl
        · show 0 + (countAW (setRootStatus r1.tree (some .runningTimer)) +
            countAWL (sibApply (pr || r1.resetSiblings) (c2 :: rest2))) ≤ 0
          rw [countAWL_sibApply2 (pr || r1.resetSiblings) (c2 :: rest2)
            (fun hp => (hrest hp).2)]
          omega
      · rw [hs1] at hC1 hA1 hA2
        have hc : countAW r1.tree ≤ 1 := by simpa using hC1
        have hb := sawB_setRoot r1.tree .awaitingTrigger hB1 hA1
        have hn := countAW_setRoot r1.tree .awaitingTrigger hA2
        have hrest := hyp_or pr r1.resetSiblings (hyp_tail c1 (c2 :: rest2) pr hk)
        refine ⟨by simp, fun r h => ?_⟩
        cases h
        refine ⟨?_, ?_, rfl, rfl⟩
        · show (true && (sawB (setRootStatus r1.tree (some .awaitingTrigger)) &&
            sawL (sibApply (pr || r1.resetSiblings) (c2 :: rest2)))) = true
          rw [hb, sawL_sibApply2 (pr || r1.resetSiblings) (c2 :: rest2)
            (fun hp => (hrest hp).1)]
          rfl
        · show 0 + (countAW (setRootStatus r1.tree (some .awaitingTrigger)) +
            countAWL (sibApply (pr || r1.resetSiblings) (c2 :: rest2))) ≤ 1
          rw [countAWL_sibApply2 (pr || r1.resetSiblings) (c2 :: rest2)
            (fun hp => (hrest hp).2)]
          omega
      · rw [hs1] at hC1 hA1 hA2
        have hc : countAW r1.tree ≤ 0 := by simpa using hC1
        have hb := sawB_setRoot r1.tree .pendingReset hB1 hA1
        have hn := countAW_setRoot r1.tree .pendingReset hA2
        have hrest := hyp_or pr r1.resetSiblings (hyp_tail c1 (c2 :: rest2) pr hk)
        refine ⟨by simp, fun r h => ?_⟩
        cases h
        refine ⟨?_, ?_, rfl, rfl⟩
        · show (true && (sawB (setRootStatus r1.tree (some .pendingReset)) &&
            sawL (sibApply (pr || r1.resetSiblings) (c2 :: rest2)))) = true
          rw [hb, sawL_sibApply2 (pr || r1.resetSiblings) (c2 :: rest2)
            (fun hp => (hrest hp).1)]
          rfl
        · show 0 + (countAW (setRootStatus r1.tree (some .pendingReset)) +
            countAWL (sibApply (pr || r1.resetSiblings) (c2 :: rest2))) ≤ 0
          rw [countAWL_sibApply2 (pr || r1.resetSiblings) (c2 :: rest2)
            (fun hp => (hrest hp).2)]
          omega

theorem tickIfThenKids_safe (kids : List NodeTree) (H : ∀ c ∈ kids, TickSafe c)
    (pr rn : Bool) (ts : TickState) (btE tgtE : Nat) (p : List Nat)
    (hk : pr = false → sawL kids = true ∧ countAWL kids = 0) :
    tickIfThenKids kids pr rn ts btE tgtE p ≠ .error .dynStartedNotSuspended
    ∧ ∀ r, tickIfThenKids kids pr rn ts btE tgtE p = .ok r →
        sawB r.tree = true
        ∧ countAW r.tree ≤ (if r.status = .awaitingTrigger then 1 else 0)
        ∧ sawV (r.tree.val.setStatus (some r.status)) = true
        ∧ countAWv (r.tree.val.setStatus (some r.status)) = countAWv r.tree.val := by
  match kids with
  | [] =>
    rw [tickIfThenKids_nil]
    exact ⟨by simp, fun r h => by cases h⟩
  | [c1] =>
    obtain ⟨hE1, hO1⟩ := H c1 (by simp) pr ts btE tgtE (p ++ [0]) (hyp_head c1 [] pr hk)
    rw [tickIfThenKids_one]
    cases hq1 : tick_node c1 pr ts btE tgtE (p ++ [0]) with
    | error e =>
      refine ⟨?_, fun r h => by cases h⟩
      intro h
      injection h with h2
      subst h2
      exact hE1 hq1
    | ok r1 =>
      obtain ⟨hB1, hC1, hA1, hA2⟩ := hO1 r1 hq1
      dsimp only
      cases hs1 : r1.status
      · exact ⟨by simp, fun r h => by cases h⟩
      · exact ⟨by simp, fun r h => by cases h⟩
      · rw [hs1] at hC1
        have hc : countAW r1.tree ≤ 0 := by simpa using hC1
        refine ⟨by simp, fun r h => ?_⟩
        cases h
        refine ⟨?_, ?_, rfl, rfl⟩
        · show (true && (sawB r1.tree && sawL (sibApply (pr || r1.resetSiblings) []))) = true
          rw [hB1, sawL_sibApply2 (pr || r1.resetSiblings) [] (fun _ => rfl)]
          rfl
        · show 0 + (countAW r1.tree + countAWL (sibApply (pr || r1.resetSiblings) [])) ≤ 0
          rw [countAWL_sibApply2 (pr || r1.resetSiblings) [] (fun _ => rfl)]
          omega
      · rw [hs1] at hC1
        have hc : countAW r1.tree ≤ 0 := by simpa using hC1
        refine ⟨by simp, fun r h => ?_⟩
        cases h
        refine ⟨?_, ?_, rfl, rfl⟩
        · show (true && (sawB r1.tree && sawL (sibApply (pr || r1.resetSiblings) []))) = true
          rw [hB1, sawL_sibApply2 (pr || r1.resetSiblings) [] (fun _ => rfl)]
          rfl
        · show 0 + (countAW r1.tree + countAWL (sibApply (pr || r1.resetSiblings) [])) ≤ 0
          rw [countAWL_sibApply2 (pr || r1.resetSiblings) [] (fun _ => rfl)]
          omega
      · rw [hs1] at hC1
        have hc : countAW r1.tree ≤ 1 := by simpa using hC1
        refine ⟨by simp, fun r h => ?_⟩
        cases h
        refine ⟨?_, ?_, rfl, rfl⟩
        · show (true && (sawB r1.tree && sawL (sibApply (pr || r1.resetSiblings) []))) = true
          rw [hB1, sawL_sibApply2 (pr || r1.resetSiblings) [] (fun _ => rfl)]
          rfl
        · show 0 + (countAW r1.tree + countAWL (sibApply (pr || r1.resetSiblings) [])) ≤ 1
          rw [countAWL_sibApply2 (pr || r1.resetSiblings) [] (fun _ => rfl)]
          omega
      · rw [hs1] at hC1
        have hc : countAW r1.tree ≤ 0 := by simpa using hC1
        refine ⟨by simp, fun r h => ?_⟩
        cases h
        refine ⟨?_, ?_, rfl, rfl⟩
        · show (true && (sawB r1.tree && sawL (sibApply (pr || r1.resetSiblings) []))) = true
          rw [hB1, sawL_sibApply2 (pr || r1.resetSiblings) [] (fun _ => rfl)]
          rfl
        · show 0 + (countAW r1.tree + countAWL (sibApply (pr || r1.resetSiblings) [])) ≤ 0
          rw [countAWL_sibApply2 (pr || r1.resetSiblings) [] (fun _ => rfl)]
          omega
  | [c1, c2] =>
    obtain ⟨hE1, hO1⟩ := H c1 (by simp) pr ts btE tgtE (p ++ [0]) (hyp_head c1 [c2] pr hk)
    rw [tickIfThenKids_two]
    cases hq1 : tick_node c1 pr ts btE tgtE (p ++ [0]) with
    | error e =>
      refine ⟨?_, fun r h => by cases h⟩
      intro h
      injection h with h2
      subst h2
      exact hE1 hq1
    | ok r1 =>
      obtain ⟨hB1, hC1, hA1, hA2⟩ := hO1 r1 hq1
      dsimp only
      cases hs1 : r1.status
      · rw [hs1] at hC1 hA1 hA2
        have hc1 : countAW r1.tree ≤ 0 := by simpa using hC1
        have hb1 := sawB_setRoot r1.tree .success hB1 hA1
        have hn1 := countAW_setRoot r1.tree .success hA2
        obtain ⟨hE2, hO2⟩ := H c2 (by simp) (pr || r1.resetSiblings) r1.state btE tgtE
          (p ++ [1])
          (hyp_or pr r1.resetSiblings (hyp_head c2 [] pr (hyp_tail c1 [c2] pr hk)))
        cases hq2 : tick_node c2 (pr || r1.resetSiblings) r1.state btE tgtE (p ++ [1]) with
        | error e =>
          refine ⟨?_, fun r h => by cases h⟩
          intro h
          injection h with h2
          subst h2
          exact hE2 hq2
        | ok r2 =>
          obtain ⟨hB2, hC2, hx1, hx2⟩ := hO2 r2 hq2
          dsimp only
          refine ⟨by simp, fun r h => ?_⟩
          cases h
          refine ⟨?_, ?_, rfl, rfl⟩
          · show (true && (sawB (setRootStatus r1.tree (some .success)) &&
              (sawB r2.tree &&
                sawL (sibApply (pr || r1.resetSiblings || r2.resetSiblings) [])))) = true
            rw [hb1, hB2, sawL_sibApply2 (pr || r1.resetSiblings || r2.resetSiblings) []
              (fun _ => rfl)]
            rfl
          · show 0 + (countAW (setRootStatus r1.tree (some .success)) +
              (countAW r2.tree +
                countAWL (sibApply (pr || r1.resetSiblings || r2.resetSiblings) [])))
              ≤ (if r2.status = BehaveNodeStatus.awaitingTrigger then 1 else 0)
            rw [countAWL_sibApply2 (pr || r1.resetSiblings || r2.resetSiblings) []
              (fun _ => rfl)]
            omega
      · rw [hs1] at hC1 hA1 hA2
        have hc1 : countAW r1.tree ≤ 0 := by simpa using hC1
        have hb1 := sawB_setRoot r1.tree .failure hB1 hA1
        have hn1 := countAW_setRoot r1.tree .failure hA2
        have hc2h := hyp_or pr r1.resetSiblings (hyp_head c2 [] pr (hyp_tail c1 [c2] pr hk))
        refine ⟨by simp, fun r h => ?_⟩
        cases h
        refine ⟨?_, ?_, rfl, rfl⟩
        · show (true && (sawB (setRootStatus r1.tree (some .failure)) &&
            (sawB (sibApply1 (pr || r1.resetSiblings) c2) && true))) = true
          rw [hb1, sawB_sibApply1 (pr || r1.resetSiblings) c2 (fun hp => (hc2h hp).1)]
          rfl
        · show 0 + (countAW (setRootStatus r1.tree (some .failure)) +
            (countAW (sibApply1 (pr || r1.resetSiblings) c2) + 0)) ≤ 0
          rw [countAW_sibApply1 (pr || r1.resetSiblings) c2 (fun hp => (hc2h hp).2)]
          omega
      · rw [hs1] at hC1
        have hc : countAW r1.tree ≤ 0 := by simpa using hC1
        have htl := hyp_or pr r1.resetSiblings (hyp_tail c1 [c2] pr hk)
        refine ⟨by simp, fun r h => ?_⟩
        cases h
        refine ⟨?_, ?_, rfl, rfl⟩
        · show (true && (sawB r1.tree && sawL (sibApply (pr || r1.resetSiblings) [c2]))) = true
          rw [hB1, sawL_sibApply2 (pr || r1.resetSiblings) [c2] (fun hp => (htl hp).1)]
          rfl
        · show 0 + (countAW r1.tree + countAWL (sibApply (pr || r1.resetSiblings) [c2])) ≤ 0
          rw [countAWL_sibApply2 (pr || r1.resetSiblings) [c2] (fun hp => (htl hp).2)]
          omega
      · rw [hs1] at hC1
        have hc : countAW r1.tree ≤ 0 := by simpa using hC1
        have htl := hyp_or pr r1.resetSiblings (hyp_tail c1 [c2] pr hk)
        refine ⟨by simp, fun r h => ?_⟩
        cases h
        refine ⟨?_, ?_, rfl, rfl⟩
        · show (true && (sawB r1.tree && sawL (sibApply (pr || r1.resetSiblings) [c2]))) = true
          rw [hB1, sawL_sibApply2 (pr || r1.resetSiblings) [c2] (fun hp => (htl hp).1)]
          rfl
        · show 0 + (countAW r1.tree + countAWL (sibApply (pr || r1.resetSiblings) [c2])) ≤ 0
          rw [countAWL_sibApply2 (pr || r1.resetSiblings) [c2] (fun hp => (htl hp).2)]
          omega
      · rw [hs1] at hC1
        have hc : countAW r1.tree ≤ 1 := by simpa using hC1
        have htl := hyp_or pr r1.resetSiblings (hyp_tail c1 [c2] pr hk)
        refine ⟨by simp, fun r h => ?_⟩
        cases h
        refine ⟨?_, ?_, rfl, rfl⟩
        · show (true && (sawB r1.tree && sawL (sibApply (pr || r1.resetSiblings) [c2]))) = true
          rw [hB1, sawL_sibApply2 (pr || r1.resetSiblings) [c2] (fun hp => (htl hp).1)]
          rfl
        · show 0 + (countAW r1.tree + countAWL (sibApply (pr || r1.resetSiblings) [c2])) ≤ 1
          rw [countAWL_sibApply2 (pr || r1.resetSiblings) [c2] (fun hp => (htl hp).2)]
          omega
      · rw [hs1] at hC1
        have hc : countAW r1.tree ≤ 0 := by simpa using hC1
        have htl := hyp_or pr r1.resetSiblings (hyp_tail c1 [c2] pr hk)
        refine ⟨by simp, fun r h => ?_⟩
        cases h
        refine ⟨?_, ?_, rfl, rfl⟩
        · show (true && (sawB r1.tree && sawL (sibApply (pr || r1.resetSiblings) [c2]))) = true
          rw [hB1, sawL_sibApply2 (pr || r1.resetSiblings) [c2] (fun hp => (htl hp).1)]
          rfl
        · show 0 + (countAW r1.tree + countAWL (sibApply (pr || r1.resetSiblings) [c2])) ≤ 0
          rw [countAWL_sibApply2 (pr || r1.resetSiblings) [c2] (fun hp => (htl hp).2)]
          omega
  | c1 :: c2 :: c3 :: rest3 =>
    obtain ⟨hE1, hO1⟩ := H c1 (by simp) pr ts btE tgtE (p ++ [0]) (hyp_head c1 (c2 :: c3 :: rest3) pr hk)
    rw [tickIfThenKids_three]
    cases hq1 : tick_node c1 pr ts btE tgtE (p ++ [0]) with
    | error e =>
      refine ⟨?_, fun r h => by cases h⟩
      intro h
      injection h with h2
      subst h2
      exact hE1 hq1
    | ok r1 =>
      obtain ⟨hB1, hC1, hA1, hA2⟩ := hO1 r1 hq1
      dsimp only
      cases hs1 : r1.status
      · rw [hs1] at hC1 hA1 hA2
        have hc1 : countAW r1.tree ≤ 0 := by simpa using hC1
        have hb1 := sawB_setRoot r1.tree .success hB1 hA1
        have hn1 := countAW_setRoot r1.tree .success hA2
        obtain ⟨hE2, hO2⟩ := H c2 (by simp) (pr || r1.resetSiblings) r1.state btE tgtE
          (p ++ [1])
          (hyp_or pr r1.resetSiblings
            (hyp_head c2 (c3 :: rest3) pr (hyp_tail c1 (c2 :: c3 :: rest3) pr hk)))
        cases hq2 : tick_node c2 (pr || r1.resetSiblings) r1.state btE tgtE (p ++ [1]) with
        | error e =>
          refine ⟨?_, fun r h => by cases h⟩
          intro h
          injection h with h2
          subst h2
          exact hE2 hq2
        | ok r2 =>
          obtain ⟨hB2, hC2, hx1, hx2⟩ := hO2 r2 hq2
          have htl := hyp_or (pr || r1.resetSiblings) r2.resetSiblings
            (hyp_or pr r1.resetSiblings
              (hyp_tail c2 (c3 :: rest3) pr (hyp_tail c1 (c2 :: c3 :: rest3) pr hk)))
          dsimp only
          refine ⟨by simp, fun r h => ?_⟩
          cases h
          refine ⟨?_, ?_, rfl, rfl⟩
          · show (true && (sawB (setRootStatus r1.tree (some .success)) &&
              (sawB r2.tree &&
                sawL (sibApply (pr || r1.resetSiblings || r2.resetSiblings) (c3 :: rest3))))) = true
            rw [hb1, hB2, sawL_sibApply2 (pr || r1.resetSiblings || r2.resetSiblings)
              (c3 :: rest3) (fun hp => (htl hp).1)]
            rfl
          · show 0 + (countAW (setRootStatus r1.tree (some .success)) +
              (countAW r2.tree +
                countAWL (sibApply (pr || r1.resetSiblings || r2.resetSiblings) (c3 :: rest3))))
              ≤ (if r2.status = BehaveNodeStatus.awaitingTrigger then 1 else 0)
            rw [countAWL_sibApply2 (pr || r1.resetSiblings || r2.resetSiblings)
              (c3 :: rest3) (fun hp => (htl hp).2)]
            omega
      · rw [hs1] at hC1 hA1 hA2
        have hc1 : countAW r1.tree ≤ 0 := by simpa using hC1
        have hb1 := sawB_setRoot r1.tree .failure hB1 hA1
        have hn1 := countAW_setRoot r1.tree .failure hA2
        have hc2h := hyp_or pr r1.resetSiblings
          (hyp_head c2 (c3 :: rest3) pr (hyp_tail c1 (c2 :: c3 :: rest3) pr hk))
        obtain ⟨hE3, hO3⟩ := H c3 (by simp) (pr || r1.resetSiblings) r1.state btE tgtE
          (p ++ [2])
          (hyp_or pr r1.resetSiblings
            (hyp_head c3 rest3 pr
              (hyp_tail c2 (c3 :: rest3) pr (hyp_tail c1 (c2 :: c3 :: rest3) pr hk))))
        cases hq2 : tick_node c3 (pr || r1.resetSiblings) r1.state btE tgtE (p ++ [2]) with
        | error e =>
          refine ⟨?_, fun r h => by cases h⟩
          intro h
          injection h with h2
          subst h2
          exact hE3 hq2
        | ok r3 =>
          obtain ⟨hB3, hC3, hx1, hx2⟩ := hO3 r3 hq2
          have htl := hyp_or (pr || r1.resetSiblings) r3.resetSiblings
            (hyp_or pr r1.resetSiblings
              (hyp_tail c3 rest3 pr
                (hyp_tail c2 (c3 :: rest3) pr (hyp_tail c1 (c2 :: c3 :: rest3) pr hk))))
          dsimp only
          refine ⟨by simp, fun r h => ?_⟩
          cases h
          refine ⟨?_, ?_, rfl, rfl⟩
          · show (true && (sawB (setRootStatus r1.tree (some .failure)) &&
              (sawB (sibApply1 (pr || r1.resetSiblings) c2) &&
                (sawB r3.tree &&
                  sawL (sibApply (pr || r1.resetSiblings || r3.resetSiblings) rest3))))) = true
            rw [hb1, sawB_sibApply1 (pr || r1.resetSiblings) c2 (fun hp => (hc2h hp).1),
              hB3, sawL_sibApply2 (pr || r1.resetSiblings || r3.resetSiblings) rest3
                (fun hp => (htl hp).1)]
            rfl
          · show 0 + (countAW (setRootStatus r1.tree (some .failure)) +
              (countAW (sibApply1 (pr || r1.resetSiblings) c2) +
                (countAW r3.tree +
                  countAWL (sibApply (pr || r1.resetSiblings || r3.resetSiblings) rest3))))
              ≤ (if r3.status = BehaveNodeStatus.awaitingTrigger then 1 else 0)
            rw [countAW_sibApply1 (pr || r1.resetSiblings) c2 (fun hp => (hc2h hp).2),
              countAWL_sibApply2 (pr || r1.resetSiblings || r3.resetSiblings) rest3
                (fun hp => (htl hp).2)]
            omega
      · rw [hs1] at hC1
        have hc : countAW r1.tree ≤ 0 := by simpa using hC1
        have htl := hyp_or pr r1.resetSiblings (hyp_tail c1 (c2 :: c3 :: rest3) pr hk)
        refine ⟨by simp, fun r h => ?_⟩
        cases h
        refine ⟨?_, ?_, rfl, rfl⟩
        · show (true && (sawB r1.tree && sawL (sibApply (pr || r1.resetSiblings) (c2 :: c3 :: rest3)))) = true
          rw [hB1, sawL_sibApply2 (pr || r1.resetSiblings) (c2 :: c3 :: rest3) (fun hp => (htl hp).1)]
          rfl
        · show 0 + (countAW r1.tree + countAWL (sibApply (pr || r1.resetSiblings) (c2 :: c3 :: rest3))) ≤ 0
          rw [countAWL_sibApply2 (pr || r1.resetSiblings) (c2 :: c3 :: rest3) (fun hp => (htl hp).2)]
          omega
      · rw [hs1] at hC1
        have hc : countAW r1.tree ≤ 0 := by simpa using hC1
        have htl := hyp_or pr r1.resetSiblings (hyp_tail c1 (c2 :: c3 :: rest3) pr hk)
        refine ⟨by simp, fun r h => ?_⟩
        cases h
        refine ⟨?_, ?_, rfl, rfl⟩
        · show (true && (sawB r1.tree && sawL (sibApply (pr || r1.resetSiblings) (c2 :: c3 :: rest3)))) = true
          rw [hB1, sawL_sibApply2 (pr || r1.resetSiblings) (c2 :: c3 :: rest3) (fun hp => (htl hp).1)]
          rfl
        · show 0 + (countAW r1.tree + countAWL (sibApply (pr || r1.resetSiblings) (c2 :: c3 :: rest3))) ≤ 0
          rw [countAWL_sibApply2 (pr || r1.resetSiblings) (c2 :: c3 :: rest3) (fun hp => (htl hp).2)]
          omega
      · rw [hs1] at hC1
        have hc : countAW r1.tree ≤ 1 := by simpa using hC1
        have htl := hyp_or pr r1.resetSiblings (hyp_tail c1 (c2 :: c3 :: rest3) pr hk)
        refine ⟨by simp, fun r h => ?_⟩
        cases h
        refine ⟨?_, ?_, rfl, rfl⟩
        · show (true && (sawB r1.tree && sawL (sibApply (pr || r1.resetSiblings) (c2 :: c3 :: rest3)))) = true
          rw [hB1, sawL_sibApply2 (pr || r1.resetSiblings) (c2 :: c3 :: rest3) (fun hp => (htl hp).1)]
          rfl
        · show 0 + (countAW r1.tree + countAWL (sibApply (pr || r1.resetSiblings) (c2 :: c3 :: rest3))) ≤ 1
          rw [countAWL_sibApply2 (pr || r1.resetSiblings) (c2 :: c3 :: rest3) (fun hp => (htl hp).2)]
          omega
      · rw [hs1] at hC1
        have hc : countAW r1.tree ≤ 0 := by simpa using hC1
        have htl := hyp_or pr r1.resetSiblings (hyp_tail c1 (c2 :: c3 :: rest3) pr hk)
        refine ⟨by simp, fun r h => ?_⟩
        cases h
        refine ⟨?_, ?_, rfl, rfl⟩
        · show (true && (sawB r1.tree && sawL (sibApply (pr || r1.resetSiblings) (c2 :: c3 :: rest3)))) = true
          rw [hB1, sawL_sibApply2 (pr || r1.resetSiblings) (c2 :: c3 :: rest3) (fun hp => (htl hp).1)]
          rfl
        · show 0 + (countAW r1.tree + countAWL (sibApply (pr || r1.resetSiblings) (c2 :: c3 :: rest3))) ≤ 0
          rw [countAWL_sibApply2 (pr || r1.resetSiblings) (c2 :: c3 :: rest3) (fun hp => (htl hp).2)]
          omega

theorem tickSeqChildren_safe (cs : List NodeTree) :
    ∀ (H : ∀ c ∈ cs, TickSafe c) (pending : Bool) (ts : TickState)
      (btE tgtE : Nat) (p : List Nat) (i : Nat),
    (pending = false → sawL cs = true ∧ countAWL cs = 0) →
    tickSeqChildren cs pending ts btE tgtE p i ≠ .error .dynStartedNotSuspended
    ∧ ∀ rr, tickSeqChildren cs pending ts btE tgtE p i = .ok rr →
        sawL rr.trees = true
        ∧ countAWL rr.trees ≤ (if rr.status = .awaitingTrigger then 1 else 0) := by
  induction cs with
  | nil =>
    intro H pending ts btE tgtE p i hk
    rw [tickSeqChildren_nil]
    refine ⟨by simp, fun rr h => ?_⟩
    cases h
    exact ⟨rfl, Nat.le_refl 0⟩
  | cons c rest ih =>
    intro H pending ts btE tgtE p i hk
    obtain ⟨hE1, hO1⟩ := H c (by simp) pending ts btE tgtE (p ++ [i])
      (hyp_head c rest pending hk)
    cases rest with
    | nil =>
      rw [tickSeqChildren_one]
      cases hq1 : tick_node c pending ts btE tgtE (p ++ [i]) with
      | error e =>
        refine ⟨?_, fun rr h => by cases h⟩
        intro h
        injection h with h2
        subst h2
        exact hE1 hq1
      | ok r =>
        obtain ⟨hB1, hC1, hx1, hx2⟩ := hO1 r hq1
        dsimp only
        cases hs1 : r.status
        · rw [hs1] at hC1
          have hc : countAW r.tree ≤ 0 := by simpa using hC1
          refine ⟨by simp, fun rr h => ?_⟩
          cases h
          refine ⟨?_, ?_⟩
          · show (sawB r.tree && true) = true
            rw [hB1]
            rfl
          · show countAW r.tree + 0 ≤ 0
            omega
        · rw [hs1] at hC1
          have hc : countAW r.tree ≤ 0 := by simpa using hC1
          refine ⟨by simp, fun rr h => ?_⟩
          cases h
          refine ⟨?_, ?_⟩
          · show (sawB r.tree && sawL (sibApply (pending || r.resetSiblings) [])) = true
            rw [hB1, sawL_sibApply2 (pending || r.resetSiblings) [] (fun _ => rfl)]
            rfl
          · show countAW r.tree + countAWL (sibApply (pending || r.resetSiblings) []) ≤ 0
            rw [countAWL_sibApply2 (pending || r.resetSiblings) [] (fun _ => rfl)]
            omega
        · rw [hs1] at hC1
          have hc : countAW r.tree ≤ 0 := by simpa using hC1
          refine ⟨by simp, fun rr h => ?_⟩
          cases h
          refine ⟨?_, ?_⟩
          · show (sawB r.tree && sawL (sibApply (pending || r.resetSiblings) [])) = true
            rw [hB1, sawL_sibApply2 (pending || r.resetSiblings) [] (fun _ => rfl)]
            rfl
          · show countAW r.tree + countAWL (sibApply (pending || r.resetSiblings) []) ≤ 0
            rw [countAWL_sibApply2 (pending || r.resetSiblings) [] (fun _ => rfl)]
            omega
        · rw [hs1] at hC1
          have hc : countAW r.tree ≤ 0 := by simpa using hC1
          refine ⟨by simp, fun rr h => ?_⟩
          cases h
          refine ⟨?_, ?_⟩
          · show (sawB r.tree && sawL (sibApply (pending || r.resetSiblings) [])) = true
            rw [hB1, sawL_sibApply2 (pending || r.resetSiblings) [] (fun _ => rfl)]
            rfl
          · show countAW r.tree + countAWL (sibApply (pending || r.resetSiblings) []) ≤ 0
            rw [countAWL_sibApply2 (pending || r.resetSiblings) [] (fun _ => rfl)]
            omega
        · rw [hs1] at hC1
          have hc : countAW r.tree ≤ 1 := by simpa using hC1
          refine ⟨by simp, fun rr h => ?_⟩
          cases h
          refine ⟨?_, ?_⟩
          · show (sawB r.tree && sawL (sibApply (pending || r.resetSiblings) [])) = true
            rw [hB1, sawL_sibApply2 (pending || r.resetSiblings) [] (fun _ => rfl)]
            rfl
          · show countAW r.tree + countAWL (sibApply (pending || r.resetSiblings) []) ≤ 1
            rw [countAWL_sibApply2 (pending || r.resetSiblings) [] (fun _ => rfl)]
            omega
        · rw [hs1] at hC1
          have hc : countAW r.tree ≤ 0 := by simpa using hC1
          refine ⟨by simp, fun rr h => ?_⟩
          cases h
          refine ⟨?_, ?_⟩
          · show (sawB r.tree && sawL (sibApply (pending || r.resetSiblings) [])) = true
            rw [hB1, sawL_sibApply2 (pending || r.resetSiblings) [] (fun _ => rfl)]
            rfl
          · show countAW r.tree + countAWL (sibApply (pending || r.resetSiblings) []) ≤ 0
            rw [countAWL_sibApply2 (pending || r.resetSiblings) [] (fun _ => rfl)]
            omega
    | cons c2 rest2 =>
      rw [tickSeqChildren_cons2]
      cases hq1 : tick_node c pending ts btE tgtE (p ++ [i]) with
      | error e =>
        refine ⟨?_, fun rr h => by cases h⟩
        intro h
        injection h with h2
        subst h2
        exact hE1 hq1
      | ok r =>
        obtain ⟨hB1, hC1, hx1, hx2⟩ := hO1 r hq1
        dsimp only
        cases hs1 : r.status
        · rw [hs1] at hC1
          have hc : countAW r.tree ≤ 0 := by simpa using hC1
          obtain ⟨hE2, hO2⟩ := ih (fun d hd => H d (by simp [hd]))
            (pending || r.resetSiblings) r.state btE tgtE p (i + 1)
            (hyp_or pending r.resetSiblings (hyp_tail c (c2 :: rest2) pending hk))
          cases hq2 : tickSeqChildren (c2 :: rest2) (pending || r.resetSiblings) r.state
              btE tgtE p (i + 1) with
          | error e =>
            refine ⟨?_, fun rr h => by cases h⟩
            intro h
            injection h with h2
            subst h2
            exact hE2 hq2
          | ok rr2 =>
            obtain ⟨hL2, hC2⟩ := hO2 rr2 hq2
            dsimp only
            refine ⟨by simp, fun rr h => ?_⟩
            cases h
            refine ⟨?_, ?_⟩
            · show (sawB r.tree && sawL rr2.trees) = true
              rw [hB1, hL2]
              rfl
            · show countAW r.tree + countAWL rr2.trees
                ≤ (if rr2.status = BehaveNodeStatus.awaitingTrigger then 1 else 0)
              omega
        · rw [hs1] at hC1
          have hc : countAW r.tree ≤ 0 := by simpa using hC1
          have htl := hyp_or pending r.resetSiblings (hyp_tail c (c2 :: rest2) pending hk)
          refine ⟨by simp, fun rr h => ?_⟩
          cases h
          refine ⟨?_, ?_⟩
          · show (sawB r.tree && sawL (sibApply (pending || r.resetSiblings) (c2 :: rest2))) = true
            rw [hB1, sawL_sibApply2 (pending || r.resetSiblings) (c2 :: rest2)
              (fun hp => (htl hp).1)]
            rfl
          · show countAW r.tree +
              countAWL (sibApply (pending || r.resetSiblings) (c2 :: rest2)) ≤ 0
            rw [countAWL_sibApply2 (pending || r.resetSiblings) (c2 :: rest2)
              (fun hp => (htl hp).2)]
            omega
        · rw [hs1] at hC1
          have hc : countAW r.tree ≤ 0 := by simpa using hC1
          have htl := hyp_or pending r.resetSiblings (hyp_tail c (c2 :: rest2) pending hk)
          refine ⟨by simp, fun rr h => ?_⟩
          cases h
          refine ⟨?_, ?_⟩
          · show (sawB r.tree && sawL (sibApply (pending || r.resetSiblings) (c2 :: rest2))) = true
            rw [hB1, sawL_sibApply2 (pending || r.resetSiblings) (c2 :: rest2)
              (fun hp => (htl hp).1)]
            rfl
          · show countAW r.tree +
              countAWL (sibApply (pending || r.resetSiblings) (c2 :: rest2)) ≤ 0
            rw [countAWL_sibApply2 (pending || r.resetSiblings) (c2 :: rest2)
              (fun hp => (htl hp).2)]
            omega
        · rw [hs1] at hC1
          have hc : countAW r.tree ≤ 0 := by simpa using hC1
          have htl := hyp_or pending r.resetSiblings (hyp_tail c (c2 :: rest2) pending hk)
          refine ⟨by simp, fun rr h => ?_⟩
          cases h
          refine ⟨?_, ?_⟩
          · show (sawB r.tree && sawL (sibApply (pending || r.resetSiblings) (c2 :: rest2))) = true
            rw [hB1, sawL_sibApply2 (pending || r.resetSiblings) (c2 :: rest2)
              (fun hp => (htl hp).1)]
            rfl
          · show countAW r.tree +
              countAWL (sibApply (pending || r.resetSiblings) (c2 :: rest2)) ≤ 0
            rw [countAWL_sibApply2 (pending || r.resetSiblings) (c2 :: rest2)
              (fun hp => (htl hp).2)]
            omega
        · rw [hs1] at hC1
          have hc : countAW r.tree ≤ 1 := by simpa using hC1
          have htl := hyp_or pending r.resetSiblings (hyp_tail c (c2 :: rest2) pending hk)
          refine ⟨by simp, fun rr h => ?_⟩
          cases h
          refine ⟨?_, ?_⟩
          · show (sawB r.tree && sawL (sibApply (pending || r.resetSiblings) (c2 :: rest2))) = true
            rw [hB1, sawL_sibApply2 (pending || r.resetSiblings) (c2 :: rest2)
              (fun hp => (htl hp).1)]
            rfl
          · show countAW r.tree +
              countAWL (sibApply (pending || r.resetSiblings) (c2 :: rest2)) ≤ 1
            rw [countAWL_sibApply2 (pending || r.resetSiblings) (c2 :: rest2)
              (fun hp => (htl hp).2)]
            omega
        · rw [hs1] at hC1
          have hc : countAW r.tree ≤ 0 := by simpa using hC1
          have htl := hyp_or pending r.resetSiblings (hyp_tail c (c2 :: rest2) pending hk)
          refine ⟨by simp, fun rr h => ?_⟩
          cases h
          refine ⟨?_, ?_⟩
          · show (sawB r.tree && sawL (sibApply (pending || r.resetSiblings) (c2 :: rest2))) = true
            rw [hB1, sawL_sibApply2 (pending || r.resetSiblings) (c2 :: rest2)
              (fun hp => (htl hp).1)]
            rfl
          · show countAW r.tree +
              countAWL (sibApply (pending || r.resetSiblings) (c2 :: rest2)) ≤ 0
            rw [countAWL_sibApply2 (pending || r.resetSiblings) (c2 :: rest2)
              (fun hp => (htl hp).2)]
            omega

theorem tickFallChildren_safe (cs : List NodeTree) :
    ∀ (H : ∀ c ∈ cs, TickSafe c) (pending : Bool) (ts : TickState)
      (btE tgtE : Nat) (p : List Nat) (i : Nat),
    (pending = false → sawL cs = true ∧ countAWL cs = 0) →
    tickFallChildren cs pending ts btE tgtE p i ≠ .error .dynStartedNotSuspended
    ∧ ∀ rr, tickFallChildren cs pending ts btE tgtE p i = .ok rr →
        sawL rr.trees = true
        ∧ countAWL rr.trees ≤ (if rr.status = .awaitingTrigger then 1 else 0) := by
  induction cs with
  | nil =>
    intro H pending ts btE tgtE p i hk
    rw [tickFallChildren_nil]
    refine ⟨by simp, fun rr h => ?_⟩
    cases h
    exact ⟨rfl, Nat.le_refl 0⟩
  | cons c rest ih =>
    intro H pending ts btE tgtE p i hk
    obtain ⟨hE1, hO1⟩ := H c (by simp) pending ts btE tgtE (p ++ [i])
      (hyp_head c rest pending hk)
    cases rest with
    | nil =>
      rw [tickFallChildren_one]
      cases hq1 : tick_node c pending ts btE tgtE (p ++ [i]) with
      | error e =>
        refine ⟨?_, fun rr h => by cases h⟩
        intro h
        injection h with h2
        subst h2
        exact hE1 hq1
      | ok r =>
        obtain ⟨hB1, hC1, hx1, hx2⟩ := hO1 r hq1
        dsimp only
        cases hs1 : r.status
        · rw [hs1] at hC1
          have hc : countAW r.tree ≤ 0 := by simpa using hC1
          refine ⟨by simp, fun rr h => ?_⟩
          cases h
          refine ⟨?_, ?_⟩
          · show (sawB r.tree && sawL (sibApply (pending || r.resetSiblings) [])) = true
            rw [hB1, sawL_sibApply2 (pending || r.resetSiblings) [] (fun _ => rfl)]
            rfl
          · show countAW r.tree + countAWL (sibApply (pending || r.resetSiblings) []) ≤ 0
            rw [countAWL_sibApply2 (pending || r.resetSiblings) [] (fun _ => rfl)]
            omega
        · rw [hs1] at hC1
          have hc : countAW r.tree ≤ 0 := by simpa using hC1
          refine ⟨by simp, fun rr h => ?_⟩
          cases h
          refine ⟨?_, ?_⟩
          · show (sawB r.tree && true) = true
            rw [hB1]
            rfl
          · show countAW r.tree + 0 ≤ 0
            omega
        · rw [hs1] at hC1
          have hc : countAW r.tree ≤ 0 := by simpa using hC1
          refine ⟨by simp, fun rr h => ?_⟩
          cases h
          refine ⟨?_, ?_⟩
          · show (sawB r.tree && sawL (sibApply (pending || r.resetSiblings) [])) = true
            rw [hB1, sawL_sibApply2 (pending || r.resetSiblings) [] (fun _ => rfl)]
            rfl
          · show countAW r.tree + countAWL (sibApply (pending || r.resetSiblings) []) ≤ 0
            rw [countAWL_sibApply2 (pending || r.resetSiblings) [] (fun _ => rfl)]
            omega
        · rw [hs1] at hC1
          have hc : countAW r.tree ≤ 0 := by simpa using hC1
          refine ⟨by simp, fun rr h => ?_⟩
          cases h
          refine ⟨?_, ?_⟩
          · show (sawB r.tree && sawL (sibApply (pending || r.resetSiblings) [])) = true
            rw [hB1, sawL_sibApply2 (pending || r.resetSiblings) [] (fun _ => rfl)]
            rfl
          · show countAW r.tree + countAWL (sibApply (pending || r.resetSiblings) []) ≤ 0
            rw [countAWL_sibApply2 (pending || r.resetSiblings) [] (fun _ => rfl)]
            omega
        · rw [hs1] at hC1
          have hc : countAW r.tree ≤ 1 := by simpa using hC1
          refine ⟨by simp, fun rr h => ?_⟩
          cases h
          refine ⟨?_, ?_⟩
          · show (sawB r.tree && sawL (sibApply (pending || r.resetSiblings) [])) = true
            rw [hB1, sawL_sibApply2 (pending || r.resetSiblings) [] (fun _ => rfl)]
            rfl
          · show countAW r.tree + countAWL (sibApply (pending || r.resetSiblings) []) ≤ 1
            rw [countAWL_sibApply2 (pending || r.resetSiblings) [] (fun _ => rfl)]
            omega
        · rw [hs1] at hC1
          have hc : countAW r.tree ≤ 0 := by simpa using hC1
          refine ⟨by simp, fun rr h => ?_⟩
          cases h
          refine ⟨?_, ?_⟩
          · show (sawB r.tree && sawL (sibApply (pending || r.resetSiblings) [])) = true
            rw [hB1, sawL_sibApply2 (pending || r.resetSiblings) [] (fun _ => rfl)]
            rfl
          · show countAW r.tree + countAWL (sibApply (pending || r.resetSiblings) []) ≤ 0
            rw [countAWL_sibApply2 (pending || r.resetSiblings) [] (fun _ => rfl)]
            omega
    | cons c2 rest2 =>
      rw [tickFallChildren_cons2]
      cases hq1 : tick_node c pending ts btE tgtE (p ++ [i]) with
      | error e =>
        refine ⟨?_, fun rr h => by cases h⟩
        intro h
        injection h with h2
        subst h2
        exact hE1 hq1
      | ok r =>
        obtain ⟨hB1, hC1, hx1, hx2⟩ := hO1 r hq1
        dsimp only
        cases hs1 : r.status
        · rw [hs1] at hC1
          have hc : countAW r.tree ≤ 0 := by simpa using hC1
          have htl := hyp_or pending r.resetSiblings (hyp_tail c (c2 :: rest2) pending hk)
          refine ⟨by simp, fun rr h => ?_⟩
          cases h
          refine ⟨?_, ?_⟩
          · show (sawB r.tree && sawL (sibApply (pending || r.resetSiblings) (c2 :: rest2))) = true
            rw [hB1, sawL_sibApply2 (pending || r.resetSiblings) (c2 :: rest2)
              (fun hp => (htl hp).1)]
            rfl
          · show countAW r.tree +
              countAWL (sibApply (pending || r.resetSiblings) (c2 :: rest2)) ≤ 0
            rw [countAWL_sibApply2 (pending || r.resetSiblings) (c2 :: rest2)
              (fun hp => (htl hp).2)]
            omega
        · rw [hs1] at hC1
          have hc : countAW r.tree ≤ 0 := by simpa using hC1
          obtain ⟨hE2, hO2⟩ := ih (fun d hd => H d (by simp [hd]))
            (pending || r.resetSiblings) r.state btE tgtE p (i + 1)
            (hyp_or pending r.resetSiblings (hyp_tail c (c2 :: rest2) pending hk))
          cases hq2 : tickFallChildren (c2 :: rest2) (pending || r.resetSiblings) r.state
              btE tgtE p (i + 1) with
          | error e =>
            refine ⟨?_, fun rr h => by cases h⟩
            intro h
            injection h with h2
            subst h2
            exact hE2 hq2
          | ok rr2 =>
            obtain ⟨hL2, hC2⟩ := hO2 rr2 hq2
            dsimp only
            refine ⟨by simp, fun rr h => ?_⟩
            cases h
            refine ⟨?_, ?_⟩
            · show (sawB r.tree && sawL rr2.trees) = true
              rw [hB1, hL2]
              rfl
            · show countAW r.tree + countAWL rr2.trees
                ≤ (if rr2.status = BehaveNodeStatus.awaitingTrigger then 1 else 0)
              omega
        · rw [hs1] at hC1
          have hc : countAW r.tree ≤ 0 := by simpa using hC1
          have htl := hyp_or pending r.resetSiblings (hyp_tail c (c2 :: rest2) pending hk)
          refine ⟨by simp, fun rr h => ?_⟩
          cases h
          refine ⟨?_, ?_⟩
          · show (sawB r.tree && sawL (sibApply (pending || r.resetSiblings) (c2 :: rest2))) = true
            rw [hB1, sawL_sibApply2 (pending || r.resetSiblings) (c2 :: rest2)
              (fun hp => (htl hp).1)]
            rfl
          · show countAW r.tree +
              countAWL (sibApply (pending || r.resetSiblings) (c2 :: rest2)) ≤ 0
            rw [countAWL_sibApply2 (pending || r.resetSiblings) (c2 :: rest2)
              (fun hp => (htl hp).2)]
            omega
        · rw [hs1] at hC1
          have hc : countAW r.tree ≤ 0 := by simpa using hC1
          have htl := hyp_or pending r.resetSiblings (hyp_tail c (c2 :: rest2) pending hk)
          refine ⟨by simp, fun rr h => ?_⟩
          cases h
          refine ⟨?_, ?_⟩
          · show (sawB r.tree && sawL (sibApply (pending || r.resetSiblings) (c2 :: rest2))) = true
            rw [hB1, sawL_sibApply2 (pending || r.resetSiblings) (c2 :: rest2)
              (fun hp => (htl hp).1)]
            rfl
          · show countAW r.tree +
              countAWL (sibApply (pending || r.resetSiblings) (c2 :: rest2)) ≤ 0
            rw [countAWL_sibApply2 (pending || r.resetSiblings) (c2 :: rest2)
              (fun hp => (htl hp).2)]
            omega
        · rw [hs1] at hC1
          have hc : countAW r.tree ≤ 1 := by simpa using hC1
          have htl := hyp_or pending r.resetSiblings (hyp_tail c (c2 :: rest2) pending hk)
          refine ⟨by simp, fun rr h => ?_⟩
          cases h
          refine ⟨?_, ?_⟩
          · show (sawB r.tree && sawL (sibApply (pending || r.resetSiblings) (c2 :: rest2))) = true
            rw [hB1, sawL_sibApply2 (pending || r.resetSiblings) (c2 :: rest2)
              (fun hp => (htl hp).1)]
            rfl
          · show countAW r.tree +
              countAWL (sibApply (pending || r.resetSiblings) (c2 :: rest2)) ≤ 1
            rw [countAWL_sibApply2 (pending || r.resetSiblings) (c2 :: rest2)
              (fun hp => (htl hp).2)]
            omega
        · rw [hs1] at hC1
          have hc : countAW r.tree ≤ 0 := by simpa using hC1
          have htl := hyp_or pending r.resetSiblings (hyp_tail c (c2 :: rest2) pending hk)
          refine ⟨by simp, fun rr h => ?_⟩
          cases h
          refine ⟨?_, ?_⟩
          · show (sawB r.tree && sawL (sibApply (pending || r.resetSiblings) (c2 :: rest2))) = true
            rw [hB1, sawL_sibApply2 (pending || r.resetSiblings) (c2 :: rest2)
              (fun hp => (htl hp).1)]
            rfl
          · show countAW r.tree +
              countAWL (sibApply (pending || r.resetSiblings) (c2 :: rest2)) ≤ 0
            rw [countAWL_sibApply2 (pending || r.resetSiblings) (c2 :: rest2)
              (fun hp => (htl hp).2)]
            omega

theorem setStatus_self (v : BehaveNode) (s : BehaveNodeStatus)
    (h : v.status = some s) : v.setStatus (some s) = v := by
  cases v <;> simp only [BehaveNode.status] at h <;> subst h <;> rfl

theorem hinv_kids (v : BehaveNode) (kids : List NodeTree)
    (h : sawB (.mk v kids) = true ∧ countAW (.mk v kids) = 0) :
    sawL kids = true ∧ countAWL kids = 0 := by
  obtain ⟨h1, h2⟩ := h
  simp only [sawB, Bool.and_eq_true] at h1
  simp only [countAW] at h2
  exact ⟨h1.2, by omega⟩

/-- Master tick invariant: every runtime subtree is TickSafe. -/
theorem tickSafe_all (t : NodeTree) : TickSafe t := by
  refine NodeTree.treeInductionOn TickSafe ?_ t
  intro v kids IH pending ts btE tgtE p hinv
  cases pending with
  | false =>
    by_cases hsucc : v.status = some .success
    · rw [tick_finished v kids ts btE tgtE p .success hsucc (Or.inl rfl)]
      refine ⟨by simp, fun r h => ?_⟩
      cases h
      obtain ⟨h1, h2⟩ := hinv rfl
      have hsv : sawV v = true := by
        simp only [sawB, Bool.and_eq_true] at h1
        exact h1.1
      refine ⟨h1, Nat.le_of_eq h2, ?_, ?_⟩
      · show sawV (v.setStatus (some .success)) = true
        rw [setStatus_self v .success hsucc]
        exact hsv
      · show countAWv (v.setStatus (some .success)) = countAWv v
        rw [setStatus_self v .success hsucc]
    · by_cases hfail : v.status = some .failure
      · rw [tick_finished v kids ts btE tgtE p .failure hfail (Or.inr rfl)]
        refine ⟨by simp, fun r h => ?_⟩
        cases h
        obtain ⟨h1, h2⟩ := hinv rfl
        have hsv : sawV v = true := by
          simp only [sawB, Bool.and_eq_true] at h1
          exact h1.1
        refine ⟨h1, Nat.le_of_eq h2, ?_, ?_⟩
        · show sawV (v.setStatus (some .failure)) = true
          rw [setStatus_self v .failure hfail]
          exact hsv
        · show countAWv (v.setStatus (some .failure)) = countAWv v
          rw [setStatus_self v .failure hfail]
      · cases v with
        | whileFlow st =>
          rw [tick_mk_whileFlow st kids false ts btE tgtE p (fun _ => ⟨hsucc, hfail⟩)]
          exact tickWhileKids_safe kids IH (prOf false st) (rnOf false st) ts btE tgtE p
            (fun _ => hinv_kids _ _ (hinv rfl))
        | ifThen st =>
          rw [tick_mk_ifThen st kids false ts btE tgtE p (fun _ => ⟨hsucc, hfail⟩)]
          exact tickIfThenKids_safe kids IH (prOf false st) (rnOf false st) ts btE tgtE p
            (fun _ => hinv_kids _ _ (hinv rfl))
        | forever st =>
          rw [tick_mk_forever st kids false ts btE tgtE p (fun _ => ⟨hsucc, hfail⟩)]
          exact tickForeverKids_safe kids IH (prOf false st) (rnOf false st) ts btE tgtE p
            (fun _ => hinv_kids _ _ (hinv rfl))
        | invert st =>
          rw [tick_mk_invert st kids false ts btE tgtE p (fun _ => ⟨hsucc, hfail⟩)]
          exact tickInvertKids_safe kids IH (prOf false st) (rnOf false st) ts btE tgtE p
            (fun _ => hinv_kids _ _ (hinv rfl))
        | sequenceFlow st =>
          rw [tick_mk_sequenceFlow st kids false ts btE tgtE p (fun _ => ⟨hsucc, hfail⟩)]
          cases kids with
          | nil =>
            refine ⟨by simp, fun r h => ?_⟩
            cases h
            exact ⟨rfl, Nat.le_refl 0, rfl, rfl⟩
          | cons c1 rest =>
            have hk2 : (prOf false st) = false →
                sawL (c1 :: rest) = true ∧ countAWL (c1 :: rest) = 0 := fun _ => hinv_kids _ _ (hinv rfl)
            obtain ⟨hE, hO⟩ := tickSeqChildren_safe (c1 :: rest) IH (prOf false st) ts btE tgtE p 0 hk2
            rw [if_neg (by simp)]
            cases hq : tickSeqChildren (c1 :: rest) (prOf false st) ts btE tgtE p 0 with
            | error e =>
              refine ⟨?_, fun r h => by cases h⟩
              intro h
              injection h with h2
              subst h2
              exact hE hq
            | ok rr =>
              obtain ⟨hL, hC⟩ := hO rr hq
              dsimp only
              refine ⟨by simp, fun r h => ?_⟩
              cases h
              refine ⟨?_, ?_, rfl, rfl⟩
              · show (true && sawL rr.trees) = true
                rw [hL]
                rfl
              · show 0 + countAWL rr.trees
                  ≤ (if rr.status = BehaveNodeStatus.awaitingTrigger then 1 else 0)
                omega
        | fallbackFlow st =>
          rw [tick_mk_fallbackFlow st kids false ts btE tgtE p (fun _ => ⟨hsucc, hfail⟩)]
          cases kids with
          | nil =>
            refine ⟨by simp, fun r h => ?_⟩
            cases h
            exact ⟨rfl, Nat.le_refl 0, rfl, rfl⟩
          | cons c1 rest =>
            have hk2 : (prOf false st) = false →
                sawL (c1 :: rest) = true ∧ countAWL (c1 :: rest) = 0 := fun _ => hinv_kids _ _ (hinv rfl)
            obtain ⟨hE, hO⟩ := tickFallChildren_safe (c1 :: rest) IH (prOf false st) ts btE tgtE p 0 hk2
            rw [if_neg (by simp)]
            cases hq : tickFallChildren (c1 :: rest) (prOf false st) ts btE tgtE p 0 with
            | error e =>
              refine ⟨?_, fun r h => by cases h⟩
              intro h
              injection h with h2
              subst h2
              exact hE hq
            | ok rr =>
              obtain ⟨hL, hC⟩ := hO rr hq
              dsimp only
              refine ⟨by simp, fun r h => ?_⟩
              cases h
              refine ⟨?_, ?_, rfl, rfl⟩
              · show (true && sawL rr.trees) = true
                rw [hL]
                rfl
              · show 0 + countAWL rr.trees
                  ≤ (if rr.status = BehaveNodeStatus.awaitingTrigger then 1 else 0)
                omega
        | alwaysSucceed st =>
          rw [tick_mk_alwaysSucceed st kids false ts btE tgtE p (fun _ => ⟨hsucc, hfail⟩)]
          refine ⟨by simp, fun r h => ?_⟩
          cases h
          refine ⟨?_, ?_, rfl, rfl⟩
          · show (true && sawL (sibApply (prOf false st) kids)) = true
            rw [sawL_sibApply2 (prOf false st) kids (fun _ => (hinv_kids _ _ (hinv rfl)).1)]
            rfl
          · show 0 + countAWL (sibApply (prOf false st) kids) ≤ 0
            have hx := countAWL_sibApply2 (prOf false st) kids (fun _ => (hinv_kids _ _ (hinv rfl)).2)
            omega
        | alwaysFail st =>
          rw [tick_mk_alwaysFail st kids false ts btE tgtE p (fun _ => ⟨hsucc, hfail⟩)]
          refine ⟨by simp, fun r h => ?_⟩
          cases h
          refine ⟨?_, ?_, rfl, rfl⟩
          · show (true && sawL (sibApply (prOf false st) kids)) = true
            rw [sawL_sibApply2 (prOf false st) kids (fun _ => (hinv_kids _ _ (hinv rfl)).1)]
            rfl
          · show 0 + countAWL (sibApply (prOf false st) kids) ≤ 0
            have hx := countAWL_sibApply2 (prOf false st) kids (fun _ => (hinv_kids _ _ (hinv rfl)).2)
            omega
        | wait st0 secs st =>
          by_cases hpr : st = some .pendingReset
          · rw [tick_mk_wait_reset st0 secs st kids false ts btE tgtE p (Or.inr hpr)]
            refine ⟨by simp, fun r h => ?_⟩
            cases h
            refine ⟨?_, ?_, rfl, rfl⟩
            · show (true && sawL (resetSubtreeL kids)) = true
              rw [sawL_resetSubtreeL]
              rfl
            · show 0 + countAWL (resetSubtreeL kids) ≤ 0
              have hx := countAWL_resetSubtreeL kids
              omega
          · rw [tick_mk_wait_plain st0 secs st kids ts btE tgtE p ⟨hsucc, hfail, hpr⟩]
            cases st0 with
            | none =>
              refine ⟨by simp, fun r h => ?_⟩
              cases h
              refine ⟨?_, ?_, rfl, rfl⟩
              · show (true && sawL kids) = true
                rw [(hinv_kids _ _ (hinv rfl)).1]
                rfl
              · show 0 + countAWL kids ≤ 0
                have hx := (hinv_kids _ _ (hinv rfl)).2
                omega
            | some t0 =>
              dsimp only
              by_cases hgt : ts.time - t0 > secs
              · rw [if_pos hgt]
                refine ⟨by simp, fun r h => ?_⟩
                cases h
                refine ⟨?_, ?_, rfl, rfl⟩
                · show (true && sawL kids) = true
                  rw [(hinv_kids _ _ (hinv rfl)).1]
                  rfl
                · show 0 + countAWL kids ≤ 0
                  have hx := (hinv_kids _ _ (hinv rfl)).2
                  omega
              · rw [if_neg hgt]
                refine ⟨by simp, fun r h => ?_⟩
                cases h
                refine ⟨?_, ?_, rfl, rfl⟩
                · show (true && sawL kids) = true
                  rw [(hinv_kids _ _ (hinv rfl)).1]
                  rfl
                · show 0 + countAWL kids ≤ 0
                  have hx := (hinv_kids _ _ (hinv rfl)).2
                  omega
        | dynamicEntity tk st bu nm =>
          by_cases hpr : st = some .pendingReset
          · rw [tick_mk_dyn_reset tk st bu nm kids false ts btE tgtE p (Or.inr hpr)]
            refine ⟨by simp, fun r h => ?_⟩
            cases h
            refine ⟨?_, ?_, rfl, rfl⟩
            · show (true && sawL (resetSubtreeL kids)) = true
              rw [sawL_resetSubtreeL]
              rfl
            · show 0 + countAWL (resetSubtreeL kids) ≤ 0
              have hx := countAWL_resetSubtreeL kids
              omega
          · cases tk with
            | notStarted =>
              rw [tick_mk_dyn_notStarted st bu nm kids ts btE tgtE p ⟨hsucc, hfail, hpr⟩]
              refine ⟨by simp, fun r h => ?_⟩
              cases h
              refine ⟨?_, ?_, rfl, rfl⟩
              · show (true && sawL kids) = true
                rw [(hinv_kids _ _ (hinv rfl)).1]
                rfl
              · show 0 + countAWL kids ≤ 0
                have hx := (hinv_kids _ _ (hinv rfl)).2
                omega
            | started e =>
              obtain ⟨h1, h2⟩ := hinv rfl
              have hsv : sawV (.dynamicEntity (.started e) st bu nm) = true := by
                simp only [sawB, Bool.and_eq_true] at h1
                exact h1.1
              have hcv : countAWv (.dynamicEntity (.started e) st bu nm) = 0 := by
                simp only [countAW] at h2
                omega
              have hrun : st = some .running := by
                simp only [sawV, Bool.or_eq_true, decide_eq_true_eq] at hsv
                rcases hsv with hx | hx
                · exact hx
                · subst hx
                  have hone : countAWv (BehaveNode.dynamicEntity (.started e)
                    (some .awaitingTrigger) bu nm) = 1 := rfl
                  omega
              rw [tick_mk_dyn_started e st bu nm kids ts btE tgtE p ⟨hsucc, hfail, hpr⟩,
                if_pos hrun]
              refine ⟨by simp, fun r h => ?_⟩
              cases h
              refine ⟨?_, ?_, rfl, rfl⟩
              · show (true && sawL kids) = true
                rw [(hinv_kids _ _ (hinv rfl)).1]
                rfl
              · show 1 + countAWL kids ≤ 1
                have hx := (hinv_kids _ _ (hinv rfl)).2
                omega
            | complete bb =>
              rw [tick_mk_dyn_complete bb st bu nm kids ts btE tgtE p ⟨hsucc, hfail, hpr⟩]
              cases bb with
              | false =>
                refine ⟨by simp, fun r h => ?_⟩
                cases h
                refine ⟨?_, ?_, rfl, rfl⟩
                · show (true && sawL kids) = true
                  rw [(hinv_kids _ _ (hinv rfl)).1]
                  rfl
                · show 0 + countAWL kids ≤ 0
                  have hx := (hinv_kids _ _ (hinv rfl)).2
                  omega
              | true =>
                refine ⟨by simp, fun r h => ?_⟩
                cases h
                refine ⟨?_, ?_, rfl, rfl⟩
                · show (true && sawL kids) = true
                  rw [(hinv_kids _ _ (hinv rfl)).1]
                  rfl
                · show 0 + countAWL kids ≤ 0
                  have hx := (hinv_kids _ _ (hinv rfl)).2
                  omega
        | triggerReq st tk tr =>
          by_cases hpr : st = some .pendingReset
          · rw [tick_mk_trig_reset st tk tr kids false ts btE tgtE p (Or.inr hpr)]
            refine ⟨by simp, fun r h => ?_⟩
            cases h
            refine ⟨?_, ?_, rfl, rfl⟩
            · show (true && sawL (resetSubtreeL kids)) = true
              rw [sawL_resetSubtreeL]
              rfl
            · show 0 + countAWL (resetSubtreeL kids) ≤ 0
              have hx := countAWL_resetSubtreeL kids
              omega
          · rw [tick_mk_trig_plain st tk tr kids ts btE tgtE p ⟨hsucc, hfail, hpr⟩]
            cases tk with
            | notTriggered =>
              refine ⟨by simp, fun r h => ?_⟩
              cases h
              refine ⟨?_, ?_, rfl, rfl⟩
              · show (true && sawL kids) = true
                rw [(hinv_kids _ _ (hinv rfl)).1]
                rfl
              · show 0 + countAWL kids ≤ 0
                have hx := (hinv_kids _ _ (hinv rfl)).2
                omega
            | triggered =>
              refine ⟨by simp, fun r h => ?_⟩
              cases h
              refine ⟨?_, ?_, rfl, rfl⟩
              · show (true && sawL kids) = true
                rw [(hinv_kids _ _ (hinv rfl)).1]
                rfl
              · show 1 + countAWL kids ≤ 1
                have hx := (hinv_kids _ _ (hinv rfl)).2
                omega
            | complete bb =>
              cases bb with
              | false =>
                refine ⟨by simp, fun r h => ?_⟩
                cases h
                refine ⟨?_, ?_, rfl, rfl⟩
                · show (true && sawL kids) = true
                  rw [(hinv_kids _ _ (hinv rfl)).1]
                  rfl
                · show 0 + countAWL kids ≤ 0
                  have hx := (hinv_kids _ _ (hinv rfl)).2
                  omega
              | true =>
                refine ⟨by simp, fun r h => ?_⟩
                cases h
                refine ⟨?_, ?_, rfl, rfl⟩
                · show (true && sawL kids) = true
                  rw [(hinv_kids _ _ (hinv rfl)).1]
                  rfl
                · show 0 + countAWL kids ≤ 0
                  have hx := (hinv_kids _ _ (hinv rfl)).2
                  omega
  | true =>
    cases v with
    | whileFlow st =>
      rw [tick_mk_whileFlow st kids true ts btE tgtE p (fun hh => by cases hh)]
      exact tickWhileKids_safe kids IH (prOf true st) (rnOf true st) ts btE tgtE p
        (fun hp => by simp [prOf] at hp)
    | ifThen st =>
      rw [tick_mk_ifThen st kids true ts btE tgtE p (fun hh => by cases hh)]
      exact tickIfThenKids_safe kids IH (prOf true st) (rnOf true st) ts btE tgtE p
        (fun hp => by simp [prOf] at hp)
    | forever st =>
      rw [tick_mk_forever st kids true ts btE tgtE p (fun hh => by cases hh)]
      exact tickForeverKids_safe kids IH (prOf true st) (rnOf true st) ts btE tgtE p
        (fun hp => by simp [prOf] at hp)
    | invert st =>
      rw [tick_mk_invert st kids true ts btE tgtE p (fun hh => by cases hh)]
      exact tickInvertKids_safe kids IH (prOf true st) (rnOf true st) ts btE tgtE p
        (fun hp => by simp [prOf] at hp)
    | sequenceFlow st =>
      rw [tick_mk_sequenceFlow st kids true ts btE tgtE p (fun hh => by cases hh)]
      cases kids with
      | nil =>
        refine ⟨by simp, fun r h => ?_⟩
        cases h
        exact ⟨rfl, Nat.le_refl 0, rfl, rfl⟩
      | cons c1 rest =>
        have hk2 : (prOf true st) = false →
            sawL (c1 :: rest) = true ∧ countAWL (c1 :: rest) = 0 := fun hp => by simp [prOf] at hp
        obtain ⟨hE, hO⟩ := tickSeqChildren_safe (c1 :: rest) IH (prOf true st) ts btE tgtE p 0 hk2
        rw [if_neg (by simp)]
        cases hq : tickSeqChildren (c1 :: rest) (prOf true st) ts btE tgtE p 0 with
        | error e =>
          refine ⟨?_, fun r h => by cases h⟩
          intro h
          injection h with h2
          subst h2
          exact hE hq
        | ok rr =>
          obtain ⟨hL, hC⟩ := hO rr hq
          dsimp only
          refine ⟨by simp, fun r h => ?_⟩
          cases h
          refine ⟨?_, ?_, rfl, rfl⟩
          · show (true && sawL rr.trees) = true
            rw [hL]
            rfl
          · show 0 + countAWL rr.trees
              ≤ (if rr.status = BehaveNodeStatus.awaitingTrigger then 1 else 0)
            omega
    | fallbackFlow st =>
      rw [tick_mk_fallbackFlow st kids true ts btE tgtE p (fun hh => by cases hh)]
      cases kids with
      | nil =>
        refine ⟨by simp, fun r h => ?_⟩
        cases h
        exact ⟨rfl, Nat.le_refl 0, rfl, rfl⟩
      | cons c1 rest =>
        have hk2 : (prOf true st) = false →
            sawL (c1 :: rest) = true ∧ countAWL (c1 :: rest) = 0 := fun hp => by simp [prOf] at hp
        obtain ⟨hE, hO⟩ := tickFallChildren_safe (c1 :: rest) IH (prOf true st) ts btE tgtE p 0 hk2
        rw [if_neg (by simp)]
        cases hq : tickFallChildren (c1 :: rest) (prOf true st) ts btE tgtE p 0 with
        | error e =>
          refine ⟨?_, fun r h => by cases h⟩
          intro h
          injection h with h2
          subst h2
          exact hE hq
        | ok rr =>
          obtain ⟨hL, hC⟩ := hO rr hq
          dsimp only
          refine ⟨by simp, fun r h => ?_⟩
          cases h
          refine ⟨?_, ?_, rfl, rfl⟩
          · show (true && sawL rr.trees) = true
            rw [hL]
            rfl
          · show 0 + countAWL rr.trees
              ≤ (if rr.status = BehaveNodeStatus.awaitingTrigger then 1 else 0)
            omega
    | alwaysSucceed st =>
      rw [tick_mk_alwaysSucceed st kids true ts btE tgtE p (fun hh => by cases hh)]
      refine ⟨by simp, fun r h => ?_⟩
      cases h
      refine ⟨?_, ?_, rfl, rfl⟩
      · show (true && sawL (sibApply (prOf true st) kids)) = true
        rw [sawL_sibApply2 (prOf true st) kids (fun hp => by simp [prOf] at hp)]
        rfl
      · show 0 + countAWL (sibApply (prOf true st) kids) ≤ 0
        have hx := countAWL_sibApply2 (prOf true st) kids (fun hp => by simp [prOf] at hp)
        omega
    | alwaysFail st =>
      rw [tick_mk_alwaysFail st kids true ts btE tgtE p (fun hh => by cases hh)]
      refine ⟨by simp, fun r h => ?_⟩
      cases h
      refine ⟨?_, ?_, rfl, rfl⟩
      · show (true && sawL (sibApply (prOf true st) kids)) = true
        rw [sawL_sibApply2 (prOf true st) kids (fun hp => by simp [prOf] at hp)]
        rfl
      · show 0 + countAWL (sibApply (prOf true st) kids) ≤ 0
        have hx := countAWL_sibApply2 (prOf true st) kids (fun hp => by simp [prOf] at hp)
        omega
    | wait st0 secs st =>
      rw [tick_mk_wait_reset st0 secs st kids true ts btE tgtE p (Or.inl rfl)]
      refine ⟨by simp, fun r h => ?_⟩
      cases h
      refine ⟨?_, ?_, rfl, rfl⟩
      · show (true && sawL (resetSubtreeL kids)) = true
        rw [sawL_resetSubtreeL]
        rfl
      · show 0 + countAWL (resetSubtreeL kids) ≤ 0
        have hx := countAWL_resetSubtreeL kids
        omega
    | dynamicEntity tk st bu nm =>
      rw [tick_mk_dyn_reset tk st bu nm kids true ts btE tgtE p (Or.inl rfl)]
      refine ⟨by simp, fun r h => ?_⟩
      cases h
      refine ⟨?_, ?_, rfl, rfl⟩
      · show (true && sawL (resetSubtreeL kids)) = true
        rw [sawL_resetSubtreeL]
        rfl
      · show 0 + countAWL (resetSubtreeL kids) ≤ 0
        have hx := countAWL_resetSubtreeL kids
        omega
    | triggerReq st tk tr =>
      rw [tick_mk_trig_reset st tk tr kids true ts btE tgtE p (Or.inl rfl)]
      refine ⟨by simp, fun r h => ?_⟩
      cases h
      refine ⟨?_, ?_, rfl, rfl⟩
      · show (true && sawL (resetSubtreeL kids)) = true
        rw [sawL_resetSubtreeL]
        rfl
      · show 0 + countAWL (resetSubtreeL kids) ≤ 0
        have hx := countAWL_resetSubtreeL kids
        omega

theorem sawV_new (b : Behave) : sawV (BehaveNode.new b) = true := by
  cases b <;> rfl

theorem countAWv_new (b : Behave) : countAWv (BehaveNode.new b) = 0 := by
  cases b <;> rfl

theorem sawL_toRuntimeL (l : List TemplateTree)
    (h : ∀ c ∈ l, sawB (toRuntime c) = true ∧ countAW (toRuntime c) = 0) :
    sawL (toRuntimeL l) = true ∧ countAWL (toRuntimeL l) = 0 := by
  induction l with
  | nil => exact ⟨rfl, rfl⟩
  | cons t ts ih =>
    obtain ⟨h1, h2⟩ := h t (by simp)
    obtain ⟨h3, h4⟩ := ih (fun c hc => h c (by simp [hc]))
    constructor
    · show (sawB (toRuntime t) && sawL (toRuntimeL ts)) = true
      rw [h1, h3]
      rfl
    · show countAW (toRuntime t) + countAWL (toRuntimeL ts) = 0
      omega

/-- A freshly instantiated runtime tree has no constraint violations and no
awaiting leaves. -/
theorem sawB_toRuntime (t : TemplateTree) :
    sawB (toRuntime t) = true ∧ countAW (toRuntime t) = 0 := by
  refine TemplateTree.tplInductionOn
    (fun t => sawB (toRuntime t) = true ∧ countAW (toRuntime t) = 0) ?_ t
  intro v kids ih
  obtain ⟨h1, h2⟩ := sawL_toRuntimeL kids ih
  constructor
  · show (sawV (BehaveNode.new v) && sawL (toRuntimeL kids)) = true
    rw [sawV_new, h1]
    rfl
  · show countAWv (BehaveNode.new v) + countAWL (toRuntimeL kids) = 0
    have := countAWv_new v
    omega

theorem sawL_get (l : List NodeTree) (i : Nat) (c : NodeTree)
    (h : l.get? i = some c) (hl : sawL l = true) : sawB c = true := by
  induction l generalizing i with
  | nil => cases h
  | cons x xs ih =>
    simp only [sawL, Bool.and_eq_true] at hl
    cases i with
    | zero => cases h; exact hl.1
    | succ j => exact ih j h hl.2

theorem sawL_set (l : List NodeTree) (i : Nat) (x : NodeTree)
    (hl : sawL l = true) (hx : sawB x = true) : sawL (l.set i x) = true := by
  induction l generalizing i with
  | nil => exact hl
  | cons y ys ih =>
    simp only [sawL, Bool.and_eq_true] at hl
    cases i with
    | zero =>
      show sawL (x :: ys) = true
      simp only [sawL, Bool.and_eq_true]
      exact ⟨hx, hl.2⟩
    | succ j =>
      show sawL (y :: ys.set j x) = true
      simp only [sawL, Bool.and_eq_true]
      exact ⟨hl.1, ih j hl.2⟩

theorem countAWL_set (l : List NodeTree) (i : Nat) (x c : NodeTree)
    (h : l.get? i = some c) :
    countAWL (l.set i x) + countAW c = countAWL l + countAW x := by
  induction l generalizing i with
  | nil => cases h
  | cons y ys ih =>
    cases i with
    | zero =>
      cases h
      simp only [List.set, countAWL]
      omega
    | succ j =>
      have := ih j h
      simp only [List.set, countAWL]
      omega

/-- Applying a status report at the single awaited leaf completes that leaf:
the shape invariant is preserved and the number of awaiting leaves drops by
exactly one. -/
theorem set_node_result_inv (pth : List Nat) :
    ∀ (t : NodeTree) (ct : CtxType) (b : Bool) (t2 : NodeTree) (te : Option Nat),
    set_node_result t pth ct b = .ok (t2, te) →
    AwaitedLeafAt t pth ct →
    sawB t = true →
    sawB t2 = true ∧ countAW t2 + 1 = countAW t := by
  induction pth with
  | nil =>
    intro t ct b t2 te hok haw hsaw
    rcases t with ⟨v, kids⟩
    obtain ⟨n, hn, hcase⟩ := haw
    cases hn
    have hl : sawL kids = true := by
      simp only [sawB, Bool.and_eq_true] at hsaw
      exact hsaw.2
    rcases hcase with ⟨e, b2, nm, hval, hct⟩ | ⟨tr, hval, hct⟩
    · subst hct
      have hv : v = .dynamicEntity (.started e) (some .awaitingTrigger) b2 nm := hval
      subst hv
      cases hok
      constructor
      · show (true && sawL kids) = true
        rw [hl]
        rfl
      · show (0 + countAWL kids) + 1
          = countAW (.mk (.dynamicEntity (.started e) (some .awaitingTrigger) b2 nm) kids)
        have : countAW (.mk (.dynamicEntity (.started e)
            (some .awaitingTrigger) b2 nm) kids) = 1 + countAWL kids := rfl
        omega
    · subst hct
      have hv : v = .triggerReq (some .awaitingTrigger) .triggered tr := hval
      subst hv
      cases hok
      constructor
      · show (true && sawL kids) = true
        rw [hl]
        rfl
      · show (0 + countAWL kids) + 1
          = countAW (.mk (.triggerReq (some .awaitingTrigger) .triggered tr) kids)
        have : countAW (.mk (.triggerReq (some .awaitingTrigger) .triggered tr) kids)
            = 1 + countAWL kids := rfl
        omega
  | cons i rest ih =>
    intro t ct b t2 te hok haw hsaw
    rcases t with ⟨v, kids⟩
    obtain ⟨n, hn, hcase⟩ := haw
    rw [show nodeAt (.mk v kids) (i :: rest)
        = (match kids.get? i with
           | some c => nodeAt c rest
           | none => none) from rfl] at hn
    rw [show set_node_result (.mk v kids) (i :: rest) ct b
        = (match kids.get? i with
           | none => .error .unknownNodeId
           | some c =>
             match set_node_result c rest ct b with
             | .error e => .error e
             | .ok (c2, te) => .ok (.mk v (kids.set i c2), te)) from rfl] at hok
    cases hget : kids.get? i with
    | none =>
      rw [hget] at hn
      cases hn
    | some c =>
      rw [hget] at hn hok
      dsimp only at hn hok
      cases hrec : set_node_result c rest ct b with
      | error e =>
        rw [hrec] at hok
        cases hok
      | ok pair =>
        rcases pair with ⟨c2, te2⟩
        rw [hrec] at hok
        dsimp only at hok
        cases hok
        have hlk : sawL kids = true := by
          simp only [sawB, Bool.and_eq_true] at hsaw
          exact hsaw.2
        have hsawc : sawB c = true := sawL_get kids i c hget hlk
        obtain ⟨hb2, hc2⟩ := ih c ct b c2 _ hrec ⟨n, hn, hcase⟩ hsawc
        constructor
        · simp only [sawB, Bool.and_eq_true] at hsaw ⊢
          exact ⟨hsaw.1, sawL_set kids i c2 hlk hb2⟩
        · have hset := countAWL_set kids i c2 c hget
          simp only [countAW]
          omega

theorem inv_init (tpl : TemplateTree) : Inv (initConfig tpl) := by
  obtain ⟨h1, h2⟩ := sawB_toRuntime tpl
  refine ⟨h1, ?_⟩
  show countAW (toRuntime tpl) ≤ 0
  omega

theorem inv_step (btE tgtE : Nat) (c c2 : HostConfig) (h : Step btE tgtE c c2)
    (hin : Inv c) : Inv c2 := by
  cases h with
  | tick τ r hfin haw htick =>
    obtain ⟨h1, h2⟩ := hin
    have h2z : countAW c.tree = 0 := by
      rw [haw] at h2
      simpa using h2
    obtain ⟨hE, hO⟩ := tickSafe_all c.tree false ⟨τ, c.nextEntity⟩ btE tgtE []
      (fun _ => ⟨h1, h2z⟩)
    obtain ⟨hb, hc, hx1, hx2⟩ := hO r htick
    refine ⟨hb, ?_⟩
    show countAW r.tree ≤ (if decide (r.status = .awaitingTrigger) then 1 else 0)
    simp only [decide_eq_true_eq]
    exact hc
  | report pth ct bb t2 te hfin haw hleaf hset =>
    obtain ⟨h1, h2⟩ := hin
    obtain ⟨hb2, hc2⟩ := set_node_result_inv pth c.tree ct bb t2 te hset hleaf h1
    refine ⟨hb2, ?_⟩
    rw [haw] at h2
    show countAW t2 ≤ 0
    simp only [if_pos] at h2
    omega

theorem inv_reach (btE tgtE : Nat) (c : HostConfig) (h : Reach btE tgtE c) :
    Inv c := by
  obtain ⟨tpl, hchain⟩ := h
  induction hchain with
  | refl => exact inv_init tpl
  | tail h1 h2 ih => exact inv_step btE tgtE _ _ h2 ih

/-- C4 counterexample: with reports applied exactly as the code does (no
awaiting check), a duplicate completion report for an already-finished task
clears the suspension flag while another task node is parked as
Started/AwaitingTrigger; the next tick then reaches the unreachable
Started-not-suspended arm and panics. -/
theorem c4_counterexample :
    ∃ c : HostConfig,
      Relation.ReflTransGen (UStep 0 0)
        (initConfig (.mk .fallback
          [.mk (.dynamicEntity "A" 7) [], .mk (.dynamicEntity "B" 8) []])) c
      ∧ c.finished = none ∧ c.awaiting = false
      ∧ tickTree c.tree ⟨0, c.nextEntity⟩ 0 0 = .error .dynStartedNotSuspended := by
  refine ⟨⟨.mk (.fallbackFlow (some .awaitingTrigger))
      [.mk (.dynamicEntity (.complete false) (some .failure) 7 "A") [],
       .mk (.dynamicEntity (.started 1) (some .awaitingTrigger) 8 "B") []],
    false, none, 2⟩, ?_, rfl, rfl, rfl⟩
  refine Relation.ReflTransGen.tail (Relation.ReflTransGen.tail
    (Relation.ReflTransGen.tail (Relation.ReflTransGen.tail
      (Relation.ReflTransGen.single
        (UStep.tick _ 0
          ⟨.running, .mk (.fallbackFlow (some .running))
            [.mk (.dynamicEntity (.started 0) (some .running) 7 "A") [],
             .mk (.dynamicEntity .notStarted none 8 "B") []],
            ⟨0, 1⟩, [.spawnEntity 0 0 7 ⟨0, [0], 0, .entity⟩], false⟩
          rfl rfl rfl))
      (UStep.report _
        ⟨.mk (.fallbackFlow (some .running))
          [.mk (.dynamicEntity (.complete false) (some .running) 7 "A") [],
           .mk (.dynamicEntity .notStarted none 8 "B") []],
          false, none, 1⟩ [0] .entity false rfl))
    (UStep.tick _ 0
      ⟨.running, .mk (.fallbackFlow (some .running))
        [.mk (.dynamicEntity (.complete false) (some .failure) 7 "A") [],
         .mk (.dynamicEntity (.started 1) (some .running) 8 "B") []],
        ⟨0, 2⟩, [.spawnEntity 1 0 8 ⟨0, [1], 0, .entity⟩], false⟩
      rfl rfl rfl))
    (UStep.tick _ 0
      ⟨.awaitingTrigger, .mk (.fallbackFlow (some .awaitingTrigger))
        [.mk (.dynamicEntity (.complete false) (some .failure) 7 "A") [],
         .mk (.dynamicEntity (.started 1) (some .awaitingTrigger) 8 "B") []],
        ⟨0, 2⟩, [], false⟩
      rfl rfl rfl))
    (UStep.report _
      ⟨.mk (.fallbackFlow (some .awaitingTrigger))
        [.mk (.dynamicEntity (.complete false) (some .failure) 7 "A") [],
         .mk (.dynamicEntity (.started 1) (some .awaitingTrigger) 8 "B") []],
        false, none, 2⟩ [0] .entity false rfl)

/-- C4 (amended): along every interleaving of ticks and protocol-respecting
status reports (a report arrives only while the tree is suspended and names
the single awaited leaf), a tickable configuration never drives tick_node
into the unreachable Started-not-suspended arm. -/
theorem c4_no_unreachable_panic (btE tgtE : Nat) (c : HostConfig)
    (hreach : Reach btE tgtE c) (hfin : c.finished = none)
    (haw : c.awaiting = false) (τ : ℚ) :
    tickTree c.tree ⟨τ, c.nextEntity⟩ btE tgtE ≠ .error .dynStartedNotSuspended := by
  obtain ⟨h1, h2⟩ := inv_reach btE tgtE c hreach
  have h2z : countAW c.tree = 0 := by
    rw [haw] at h2
    simpa using h2
  exact (tickSafe_all c.tree false ⟨τ, c.nextEntity⟩ btE tgtE []
    (fun _ => ⟨h1, h2z⟩)).1

theorem c4_witness :
    Reach 0 0 (initConfig (.mk .sequence []))
    ∧ (initConfig (.mk .sequence [])).finished = none
    ∧ (initConfig (.mk .sequence [])).awaiting = false
    ∧ tickTree (initConfig (.mk .sequence [])).tree
        ⟨0, (initConfig (.mk .sequence [])).nextEntity⟩ 0 0
        ≠ .error .dynStartedNotSuspended :=
  ⟨⟨.mk .sequence [], Relation.ReflTransGen.refl⟩, rfl, rfl,
    c4_no_unreachable_panic 0 0 (initConfig (.mk .sequence []))
      ⟨.mk .sequence [], Relation.ReflTransGen.refl⟩ rfl rfl 0⟩

end BevyBehave
